import Mathlib

/-!
CPlexSample portfolio: message model, wire codec, text codec, the client and the service.

Shallow embedding of `Common/PortfolioInvestment.{h,cpp}`, `Common/PortfolioIO.cpp`, of `main`
in `Client/PortfolioClient.cpp` from the argument checks on, and of `Service::onInvoke` in
`Service/PortfolioService.cpp`.

Modelling conventions
* `long long` ids and counts are `Int`; the code never does arithmetic on them, only
  comparisons and a counting loop, so no wrap-around can occur.
* A `double` is kept as its IEEE-754 bit pattern. The codecs only store, copy and transport
  doubles; the client compares and adds them, for which `Double.le`, `Double.gt` and
  `Double.add` compute the IEEE result (round to nearest, ties to even) on the patterns.
* `std::map` is a list of (key, value) pairs kept strictly ascending by the key order; iteration
  order of the map is the order of the list.
* A SOAM stream is the sequence of typed items written to it / still to be read from it.
  A read throws when the stream is exhausted or the next item is of another type.
* A member function that mutates `*this` and may throw returns a `Ran`: the object as the call
  left it, and either the remaining stream or the exception.
* The text codec takes the number extractions and insertions of the standard library as
  parameters (`NumGet`, `NumPut`); `stdNumGet` and `stdNumPut` model them for the examples.
* The submission loop of the client need not end; it is run for a given number of steps, and
  `Ending.running` says that it was still going on when they were used up.
* The middleware and the solver are parameters: `send` stands for `sendTaskInput`, `fetch` for
  `fetchTaskOutput`, and `Cplex` for the CPLEX calls of the service. A message travels as the
  stream its `onSerialize` writes.
-/

namespace cpx.portfolio

/-! ## Doubles -/

/-- IEEE-754 binary64 value, kept as its 64-bit pattern. -/
structure Double where
  bits : Nat
deriving DecidableEq, Repr

namespace Double

/-- The value of `std::numeric_limits<double>::quiet_NaN()`. -/
def quiet_NaN : Double := ⟨0x7FF8000000000000⟩

/-- The double `0.0`. -/
def zero : Double := ⟨0⟩

/-- The test `isnan(d)`: exponent bits all ones and a non-zero fraction. -/
def isnan (d : Double) : Bool :=
  (d.bits / 2 ^ 52) % 2 ^ 11 == 2047 && d.bits % 2 ^ 52 != 0

end Double

/-! ## std::map -/

/-- The map member `insert(value_type(k, v))`: the pair is added at its place in key order; when
an equivalent key is already present the map is left as it is. -/
def mapInsert {κ β : Type} (lt : κ → κ → Bool) (k : κ) (v : β) : List (κ × β) → List (κ × β)
  | [] => [(k, v)]
  | (k1, v1) :: rest =>
    if lt k k1 then (k, v) :: (k1, v1) :: rest
    else if lt k1 k then (k1, v1) :: mapInsert lt k v rest
    else (k1, v1) :: rest

/-- The map member `find(k)`: the value stored under a key equivalent to `k`
(neither is less than the other), `none` standing for `end()`. -/
def mapFind {κ β : Type} (lt : κ → κ → Bool) (k : κ) : List (κ × β) → Option β
  | [] => none
  | (k1, v1) :: rest =>
    if !lt k k1 && !lt k1 k then some v1 else mapFind lt k rest

/-! ## Investment -/

/-- The type `Investment::ID_TYPE` (`long long`). -/
abbrev ID_TYPE := Int

/-- The type `SIZE_TYPE` (`long long`). -/
abbrev SIZE_TYPE := Int

/-- The struct `Investment`. -/
structure Investment where
  mId : ID_TYPE
  mName : String
  mReturn : Double
  mAllocation : Double
deriving DecidableEq, Repr

namespace Investment

/-- The constructor with all its default arguments, `Investment()`. -/
def default : Investment := ⟨-1, "", Double.quiet_NaN, Double.quiet_NaN⟩

/-- The three-argument use of the constructor, `Investment(id, name, ret)`. -/
def mk3 (id : ID_TYPE) (name : String) (ret : Double) : Investment :=
  ⟨id, name, ret, Double.quiet_NaN⟩

/-- The member `Investment::reset`. -/
def reset (self : Investment) : Investment :=
  let self := { self with mId := -1 }
  let self := { self with mReturn := Double.quiet_NaN }
  let self := { self with mAllocation := Double.quiet_NaN }
  { self with mName := "" }

/-- The member `getId`. -/
def getId (self : Investment) : ID_TYPE := self.mId

end Investment

/-! ## Covariance -/

/-- The type `Covariance::KEY_TYPE`, a `std::pair` of ids. -/
abbrev KEY_TYPE := ID_TYPE × ID_TYPE

/-- The `operator<` of `std::pair`: lexicographic. -/
def keyLt (a b : KEY_TYPE) : Bool :=
  decide (a.1 < b.1) || (!decide (b.1 < a.1) && decide (a.2 < b.2))

/-- The `operator<` of `long long`, the key order of the investment map in `load`. -/
def idLt (a b : ID_TYPE) : Bool := decide (a < b)

/-- The class `Covariance`; `mData` is its `MAP_TYPE` member. -/
structure Covariance where
  mData : List (KEY_TYPE × Double)
deriving DecidableEq, Repr

namespace Covariance

/-- The constructor `Covariance()`. -/
def empty : Covariance := ⟨[]⟩

/-- The member `clear`. -/
def clear (_self : Covariance) : Covariance := ⟨[]⟩

/-- The member `Covariance::reset`. -/
def reset (_self : Covariance) : Covariance := ⟨[]⟩

/-- The member `Covariance::setCovariance`. -/
def setCovariance (self : Covariance) (i1 i2 : ID_TYPE) (covariance : Double) : Covariance :=
  let (i1, i2) := if i1 > i2 then (i2, i1) else (i1, i2)
  ⟨mapInsert keyLt (i1, i2) covariance self.mData⟩

/-- The member `Covariance::getCovariance`. -/
def getCovariance (self : Covariance) (i1 i2 : ID_TYPE) : Double :=
  let (i1, i2) := if i1 > i2 then (i2, i1) else (i1, i2)
  let key : KEY_TYPE := (i1, i2)
  match mapFind keyLt key self.mData with
  | some v => v
  | none => Double.quiet_NaN

/-- The Covariance obtained from a freshly constructed one by the given `setCovariance` calls,
made in list order. -/
def ofCalls (calls : List (ID_TYPE × ID_TYPE × Double)) : Covariance :=
  calls.foldl (fun c t => c.setCovariance t.1 t.2.1 t.2.2) empty

end Covariance

/-! ## SOAM streams -/

/-- One value written to, or to be read from, a SOAM stream. -/
inductive Item where
  | int64 (v : Int)
  | string (s : String)
  | double (d : Double)
  | bool (b : Bool)
deriving DecidableEq, Repr

/-- The content of a `soam::OutputStream` (items written so far, oldest first) or of a
`soam::InputStream` (items still to be read, next one first). -/
abbrev Stream := List Item

/-- The exception type `soam::SoamException`. -/
inductive SoamException where
  | readFailure
deriving DecidableEq, Repr

/-- The state a mutating member leaves behind: the object, and either the stream after the call
or the exception that left the call. -/
structure Ran (α : Type) where
  obj : α
  res : Except SoamException Stream

namespace Stream

/-- The call `stream->write(x)`. -/
def write (stream : Stream) (x : Item) : Stream := stream ++ [x]

/-- The call `stream->read(v)` for a `long long`. -/
def readInt64 : Stream → Except SoamException (Int × Stream)
  | Item.int64 v :: rest => .ok (v, rest)
  | _ => .error .readFailure

/-- The call `stream->read(v)` for a `std::string`. -/
def readString : Stream → Except SoamException (String × Stream)
  | Item.string v :: rest => .ok (v, rest)
  | _ => .error .readFailure

/-- The call `stream->read(v)` for a `double`. -/
def readDouble : Stream → Except SoamException (Double × Stream)
  | Item.double v :: rest => .ok (v, rest)
  | _ => .error .readFailure

/-- The call `stream->read(v)` for a `bool`. -/
def readBool : Stream → Except SoamException (Bool × Stream)
  | Item.bool v :: rest => .ok (v, rest)
  | _ => .error .readFailure

end Stream

/-! ## Wire codec of Investment and Covariance (PortfolioInvestment.cpp) -/

namespace Investment

/-- The member `Investment::onSerialize`. -/
def onSerialize (self : Investment) (stream : Stream) : Stream :=
  let stream := stream.write (.int64 self.mId)
  let stream := stream.write (.string self.mName)
  let stream := stream.write (.double self.mReturn)
  stream.write (.double self.mAllocation)

/-- The body of the try block of `Investment::onDeserialize`: four reads, each into its field. -/
def readFields (self : Investment) (stream : Stream) : Ran Investment :=
  match stream.readInt64 with
  | .error e => ⟨self, .error e⟩
  | .ok (v, stream) =>
    let self := { self with mId := v }
    match stream.readString with
    | .error e => ⟨self, .error e⟩
    | .ok (v, stream) =>
      let self := { self with mName := v }
      match stream.readDouble with
      | .error e => ⟨self, .error e⟩
      | .ok (v, stream) =>
        let self := { self with mReturn := v }
        match stream.readDouble with
        | .error e => ⟨self, .error e⟩
        | .ok (v, stream) => ⟨{ self with mAllocation := v }, .ok stream⟩

/-- The member `Investment::onDeserialize`. -/
def onDeserialize (self : Investment) (stream : Stream) : Ran Investment :=
  let self := self.reset
  match self.readFields stream with
  | ⟨self, .ok stream⟩ => ⟨self, .ok stream⟩
  | ⟨self, .error e⟩ => ⟨self.reset, .error e⟩

end Investment

namespace Covariance

/-- The loop of `Covariance::onSerialize` over the map, begin to end. -/
def writeTriples : List (KEY_TYPE × Double) → Stream → Stream
  | [], stream => stream
  | (key, value) :: rest, stream =>
    let stream := stream.write (.int64 key.1)
    let stream := stream.write (.int64 key.2)
    let stream := stream.write (.double value)
    writeTriples rest stream

/-- The member `Covariance::onSerialize`. -/
def onSerialize (self : Covariance) (stream : Stream) : Stream :=
  let size : SIZE_TYPE := self.mData.length
  let stream := stream.write (.int64 size)
  writeTriples self.mData stream

/-- The loop `for (SIZE_TYPE i = 0; i < size; ++i)` of `Covariance::onDeserialize`, with the
number of iterations still to run. -/
def readTriples : Nat → Covariance → Stream → Ran Covariance
  | 0, self, stream => ⟨self, .ok stream⟩
  | n + 1, self, stream =>
    match stream.readInt64 with
    | .error e => ⟨self, .error e⟩
    | .ok (i1, stream) =>
      match stream.readInt64 with
      | .error e => ⟨self, .error e⟩
      | .ok (i2, stream) =>
        match stream.readDouble with
        | .error e => ⟨self, .error e⟩
        | .ok (covariance, stream) =>
          readTriples n (self.setCovariance i1 i2 covariance) stream

/-- The body of the try block of `Covariance::onDeserialize`. A loop `i = 0; i < size` runs
`size` times, and not at all when `size` is not positive. -/
def readBody (self : Covariance) (stream : Stream) : Ran Covariance :=
  match stream.readInt64 with
  | .error e => ⟨self, .error e⟩
  | .ok (size, stream) => readTriples size.toNat self stream

/-- The member `Covariance::onDeserialize`. -/
def onDeserialize (self : Covariance) (stream : Stream) : Ran Covariance :=
  let self := self.reset
  match self.readBody stream with
  | ⟨self, .ok stream⟩ => ⟨self, .ok stream⟩
  | ⟨self, .error e⟩ => ⟨self.reset, .error e⟩

end Covariance

/-! ## Input and Output (PortfolioInput.h, PortfolioOutput.h, PortfolioIO.cpp) -/

/-- The class `Input`. -/
structure Input where
  mInvestments : List Investment
  mCovariance : Covariance
  mWealth : Double
  mRho : Double
deriving DecidableEq, Repr

/-- The class `Output`. -/
structure Output where
  mOptimal : Bool
  mWealth : Double
  mRho : Double
  mObjValue : Double
  mTotalReturn : Double
  mTotalVariance : Double
  mInvestments : List Investment
deriving DecidableEq, Repr

/-- The loop `for (i = 0; i < size; ++i) mInvestments[i].onSerialize(stream)` shared by
`Input::onSerialize` and `Output::onSerialize`. -/
def writeInvestments : List Investment → Stream → Stream
  | [], stream => stream
  | inv :: rest, stream => writeInvestments rest (inv.onSerialize stream)

namespace Input

/-- The constructor `Input::Input`. -/
def new : Input := ⟨[], Covariance.empty, Double.quiet_NaN, Double.quiet_NaN⟩

/-- The member `Input::clear`. -/
def clear (self : Input) : Input :=
  let self := { self with mCovariance := self.mCovariance.clear }
  let self := { self with mInvestments := [] }
  let self := { self with mWealth := Double.quiet_NaN }
  { self with mRho := Double.quiet_NaN }

/-- The member `addInvestment`. -/
def addInvestment (self : Input) (investment : Investment) : Input :=
  { self with mInvestments := self.mInvestments ++ [investment] }

/-- The member `Input::onSerialize`. -/
def onSerialize (self : Input) (stream : Stream) : Stream :=
  let size : SIZE_TYPE := self.mInvestments.length
  let stream := stream.write (.int64 size)
  let stream := writeInvestments self.mInvestments stream
  let stream := self.mCovariance.onSerialize stream
  let stream := stream.write (.double self.mWealth)
  stream.write (.double self.mRho)

/-- The loop `for (SIZE_TYPE i = 0; i < size; ++i)` of `Input::onDeserialize`, with the number
of iterations still to run: a fresh `Investment` is decoded and, if that did not throw, added. -/
def readInvestments : Nat → Input → Stream → Ran Input
  | 0, self, stream => ⟨self, .ok stream⟩
  | n + 1, self, stream =>
    match Investment.default.onDeserialize stream with
    | ⟨_, .error e⟩ => ⟨self, .error e⟩
    | ⟨investment, .ok stream⟩ => readInvestments n (self.addInvestment investment) stream

/-- The body of the try block of `Input::onDeserialize`. -/
def readBody (self : Input) (stream : Stream) : Ran Input :=
  match stream.readInt64 with
  | .error e => ⟨self, .error e⟩
  | .ok (size, stream) =>
    match readInvestments size.toNat self stream with
    | ⟨self, .error e⟩ => ⟨self, .error e⟩
    | ⟨self, .ok stream⟩ =>
      match self.mCovariance.onDeserialize stream with
      | ⟨cov, .error e⟩ => ⟨{ self with mCovariance := cov }, .error e⟩
      | ⟨cov, .ok stream⟩ =>
        let self := { self with mCovariance := cov }
        match stream.readDouble with
        | .error e => ⟨self, .error e⟩
        | .ok (v, stream) =>
          let self := { self with mWealth := v }
          match stream.readDouble with
          | .error e => ⟨self, .error e⟩
          | .ok (v, stream) => ⟨{ self with mRho := v }, .ok stream⟩

/-- The member `Input::onDeserialize`. -/
def onDeserialize (self : Input) (stream : Stream) : Ran Input :=
  let self := self.clear
  match self.readBody stream with
  | ⟨self, .ok stream⟩ => ⟨self, .ok stream⟩
  | ⟨self, .error e⟩ => ⟨self.clear, .error e⟩

end Input

namespace Output

/-- The constructor `Output::Output`. -/
def new : Output :=
  ⟨false, Double.quiet_NaN, Double.quiet_NaN, Double.quiet_NaN, Double.quiet_NaN,
    Double.quiet_NaN, []⟩

/-- The member `Output::clear`. -/
def clear (self : Output) : Output :=
  let self := { self with mOptimal := false }
  let self := { self with mWealth := Double.quiet_NaN }
  let self := { self with mRho := Double.quiet_NaN }
  let self := { self with mObjValue := Double.quiet_NaN }
  let self := { self with mTotalReturn := Double.quiet_NaN }
  let self := { self with mTotalVariance := Double.quiet_NaN }
  { self with mInvestments := [] }

/-- The member `Output::onSerialize`. -/
def onSerialize (self : Output) (stream : Stream) : Stream :=
  let stream := stream.write (.bool self.mOptimal)
  let stream := stream.write (.double self.mWealth)
  let stream := stream.write (.double self.mRho)
  let stream := stream.write (.double self.mObjValue)
  let stream := stream.write (.double self.mTotalReturn)
  let stream := stream.write (.double self.mTotalVariance)
  let size : SIZE_TYPE := self.mInvestments.length
  let stream := stream.write (.int64 size)
  writeInvestments self.mInvestments stream

/-- The loop `for (SIZE_TYPE i = 0; i < size; ++i)` of `Output::onDeserialize`, with the number
of iterations still to run: a default `Investment` is pushed and then decoded in place, so it
stays in the vector when its decoding throws. -/
def readInvestments : Nat → Output → Stream → Ran Output
  | 0, self, stream => ⟨self, .ok stream⟩
  | n + 1, self, stream =>
    match Investment.default.onDeserialize stream with
    | ⟨investment, .error e⟩ =>
      ⟨{ self with mInvestments := self.mInvestments ++ [investment] }, .error e⟩
    | ⟨investment, .ok stream⟩ =>
      readInvestments n { self with mInvestments := self.mInvestments ++ [investment] } stream

/-- The body of the try block of `Output::onDeserialize`. -/
def readBody (self : Output) (stream : Stream) : Ran Output :=
  match stream.readBool with
  | .error e => ⟨self, .error e⟩
  | .ok (v, stream) =>
    let self := { self with mOptimal := v }
    match stream.readDouble with
    | .error e => ⟨self, .error e⟩
    | .ok (v, stream) =>
      let self := { self with mWealth := v }
      match stream.readDouble with
      | .error e => ⟨self, .error e⟩
      | .ok (v, stream) =>
        let self := { self with mRho := v }
        match stream.readDouble with
        | .error e => ⟨self, .error e⟩
        | .ok (v, stream) =>
          let self := { self with mObjValue := v }
          match stream.readDouble with
          | .error e => ⟨self, .error e⟩
          | .ok (v, stream) =>
            let self := { self with mTotalReturn := v }
            match stream.readDouble with
            | .error e => ⟨self, .error e⟩
            | .ok (v, stream) =>
              let self := { self with mTotalVariance := v }
              match stream.readInt64 with
              | .error e => ⟨self, .error e⟩
              | .ok (size, stream) => readInvestments size.toNat self stream

/-- The member `Output::onDeserialize`. -/
def onDeserialize (self : Output) (stream : Stream) : Ran Output :=
  let self := self.clear
  match self.readBody stream with
  | ⟨self, .ok stream⟩ => ⟨self, .ok stream⟩
  | ⟨self, .error e⟩ => ⟨self.clear, .error e⟩

end Output

/-! ## Text codec: `load` (PortfolioInvestment.h) -/

/-- The test `std::isspace` in the "C" locale: space, `\t`, `\n`, `\v`, `\f`, `\r`. -/
def isspace (c : Char) : Bool :=
  c == ' ' || c == '\t' || c == '\n' || c == '\x0b' || c == '\x0c' || c == '\r'

namespace ioutil

/-- The struct `ioutil::Triple`. -/
structure Triple where
  id1 : ID_TYPE
  id2 : ID_TYPE
  covariance : Double
deriving DecidableEq, Repr

end ioutil

/-- The formatted extractions `s >> id` (`long long`) and `s >> x` (`double`) of the standard
library, taken as parameters of the loader: each gets the unread text of the string stream and
gives the value and the text left unread, or `none` when the extraction sets failbit. -/
structure NumGet where
  readId : List Char → Option (ID_TYPE × List Char)
  readDouble : List Char → Option (Double × List Char)

/-- What one line of the file asks for. -/
inductive LineItem where
  | skip
  | investment (inv : Investment)
  | triple (t : ioutil.Triple)
deriving DecidableEq, Repr

/-- The lines that the successive calls `std::getline(file, line)` of the loop `while (file)`
produce, given the unread text of the file and the characters of the current line read so far
(latest first). At end of file a line that got characters ends the line but not the loop; the
next call then extracts nothing, leaves `line` empty and fails, which ends the loop after that
empty line has been looked at. -/
def getlinesAux : List Char → List Char → List (List Char)
  | [], acc => if acc.isEmpty then [[]] else [acc.reverse, []]
  | c :: cs, acc =>
    if c = '\n' then acc.reverse :: getlinesAux cs [] else getlinesAux cs (c :: acc)

/-- The lines of a file as the loop of `load` sees them. -/
def getlines (file : List Char) : List (List Char) := getlinesAux file []

/-- The part of the loop body of `load` that looks at one line (from the skipping of leading
whitespace to the construction of the Investment or Triple), with the message of the
`ioutil::Exception` it throws. -/
def parseLine (ng : NumGet) (line : List Char) : Except String LineItem :=
  -- Skip over leading whitespace: `rest` is the line from index `i` on.
  match line.dropWhile isspace with
  | [] => .ok .skip
  | type :: rest =>
    if type = '#' then .ok .skip
    else
      match rest with
      | [] => .error "Invalid line"
      | c :: _ =>
        if !isspace c then .error "Invalid line"
        else
          let rest := rest.dropWhile isspace
          if type = 'I' then
            match ng.readId rest with
            | none => .error "Invalid investment specification"
            | some (id, s) =>
              match ng.readDouble s with
              | none => .error "Invalid investment specification"
              | some (ret, s) =>
                let name := s.dropWhile isspace
                if name.isEmpty then .error "Invalid investment specification"
                else .ok (.investment (Investment.mk3 id (String.mk name) ret))
          else if type = 'C' then
            match ng.readId rest with
            | none => .error "Invalid covariance specification"
            | some (id1, s) =>
              match ng.readId s with
              | none => .error "Invalid covariance specification"
              | some (id2, s) =>
                match ng.readDouble s with
                | none => .error "Invalid covariance specification"
                | some (cov, _) => .ok (.triple ⟨id1, id2, cov⟩)
          else .error "Invalid line"

/-- The loop `while (file)` of `load` over the lines still to come, with the map `is` and the
vector `triples` as they stand. -/
def loadLines (ng : NumGet) :
    List (List Char) → List (ID_TYPE × Investment) → List ioutil.Triple →
      Except String (List (ID_TYPE × Investment) × List ioutil.Triple)
  | [], is, triples => .ok (is, triples)
  | line :: lines, is, triples =>
    match parseLine ng line with
    | .error msg => .error msg
    | .ok .skip => loadLines ng lines is triples
    | .ok (.investment inv) =>
      if (mapFind idLt inv.getId is).isSome then .error "Duplicate investment"
      else loadLines ng lines (mapInsert idLt inv.getId inv is) triples
    | .ok (.triple t) => loadLines ng lines is (triples ++ [t])

/-- The final loop of `load` over `triples`. -/
def setTriples (is : List (ID_TYPE × Investment)) :
    List ioutil.Triple → Covariance → Covariance
  | [], covariance => covariance
  | t :: rest, covariance =>
    if (mapFind idLt t.id1 is).isSome && (mapFind idLt t.id2 is).isSome then
      setTriples is rest (covariance.setCovariance t.id1 t.id2 t.covariance)
    else setTriples is rest covariance

/-- What a call of `load` leaves behind: the investments assigned through the output iterator,
in order; the caller's Covariance; and the message of the exception thrown, if one was. -/
structure Loaded where
  investments : List Investment
  covariance : Covariance
  error : Option String
deriving DecidableEq, Repr

/-- The function template `load`, on the text of a readable file. -/
def load (ng : NumGet) (file : List Char) (covariance : Covariance) : Loaded :=
  let covariance := covariance.clear
  match loadLines ng (getlines file) [] [] with
  | .error msg => ⟨[], covariance, some msg⟩
  | .ok (is, triples) => ⟨is.map (fun e => e.2), setTriples is triples covariance, none⟩

/-! ## A model of the standard extraction operators -/

/-- The decimal digits at the head of a text: their value on top of `acc`, their number on top
of `n`, and the text after them. -/
def readDigits : List Char → Nat → Nat → Nat × Nat × List Char
  | [], acc, n => (acc, n, [])
  | c :: cs, acc, n =>
    if c.isDigit then readDigits cs (acc * 10 + (c.toNat - 48)) (n + 1) else (acc, n, c :: cs)

/-- An optional sign at the head of a text: whether it is a minus, and the text after it. -/
def readSign : List Char → Bool × List Char
  | '-' :: cs => (true, cs)
  | '+' :: cs => (false, cs)
  | cs => (false, cs)

/-- Model of `s >> id` for `long long` in the classic locale: leading whitespace is skipped, an
optional sign and at least one decimal digit are read; a value outside the range of
`long long` sets failbit. -/
def stdReadId (s : List Char) : Option (ID_TYPE × List Char) :=
  let (neg, s) := readSign (s.dropWhile isspace)
  let (v, n, s) := readDigits s 0 0
  let value : Int := if neg then -(v : Int) else (v : Int)
  if n = 0 then none
  else if value < -(2 ^ 63) ∨ value > 2 ^ 63 - 1 then none
  else some (value, s)

/-- Quotient of n by d rounded to the nearest integer, ties to even. -/
def roundQuot (n d : Nat) : Nat :=
  let q := n / d
  let r := n % d
  if 2 * r > d ∨ (2 * r = d ∧ q % 2 = 1) then q + 1 else q

/-- Floor of the binary logarithm (0 for 0), by at most `fuel` halvings. -/
def log2Fuel : Nat → Nat → Nat
  | 0, _ => 0
  | fuel + 1, n => if n < 2 then 0 else log2Fuel fuel (n / 2) + 1

/-- The binary64 pattern (sign bit clear) nearest to num/den, ties to even; `none` when the
result is not finite. -/
def roundBits (num den : Nat) : Option Nat :=
  if num = 0 then some 0
  else
    let e0 : Int := (log2Fuel (num + 1) num : Int) - (log2Fuel (den + 1) den : Int)
    let e : Int := if num * 2 ^ (-e0).toNat ≥ den * 2 ^ e0.toNat then e0 else e0 - 1
    let ec : Int := max e (-1022)
    let sh : Int := 52 - ec
    let q := roundQuot (num * 2 ^ sh.toNat) (den * 2 ^ (-sh).toNat)
    let bits := (ec + 1022).toNat * 2 ^ 52 + q
    if bits ≥ 0x7FF0000000000000 then none else some bits

/-- Model of `s >> x` for `double` in the classic locale: leading whitespace is skipped; an
optional sign, decimal digits with an optional point, and an optional exponent are read; the
value is the nearest double. No digit, an exponent without digits, or a value that is not
finite sets failbit. -/
def stdReadDouble (s : List Char) : Option (Double × List Char) :=
  let (neg, s) := readSign (s.dropWhile isspace)
  let (m1, n1, s) := readDigits s 0 0
  let (m, nf, s) :=
    match s with
    | '.' :: r => readDigits r m1 0
    | _ => (m1, 0, s)
  if n1 + nf = 0 then none
  else
    let ex : Option (Int × List Char) :=
      match s with
      | c :: r =>
        if c = 'e' ∨ c = 'E' then
          let (eneg, r) := readSign r
          let (ev, en, r) := readDigits r 0 0
          if en = 0 then none else some (if eneg then -(ev : Int) else (ev : Int), r)
        else some (0, s)
      | [] => some (0, s)
    match ex with
    | none => none
    | some (e, s) =>
      let p : Int := e - (nf : Int)
      match roundBits (m * 10 ^ p.toNat) (10 ^ (-p).toNat) with
      | none => none
      | some bits => some (⟨if neg then 2 ^ 63 + bits else bits⟩, s)

/-- The extraction operators of the standard library, as modelled above. -/
def stdNumGet : NumGet := ⟨stdReadId, stdReadDouble⟩

/-- The investment a line declares, when it is a well-formed `I` line. -/
def lineInvestment (ng : NumGet) (line : List Char) : Option Investment :=
  match parseLine ng line with
  | .ok (.investment inv) => some inv
  | _ => none

/-- The investments the `I` lines of a file declare, in file order. -/
def declared (ng : NumGet) (file : List Char) : List Investment :=
  (getlines file).filterMap (lineInvestment ng)

/-- The double `0.5`. -/
def Double.half : Double := ⟨0x3FE0000000000000⟩

/-- The file of the load example. -/
def exampleFile : List Char :=
  "I 0 1.1 Stock A\nI 1 1.2 Stock B\nC 0 0 2.0\nC 0 1 0.5\nC 1 1 3.0\n".toList

/-! ## Predicates used in the statements -/

/-- A strict total order given as a boolean less-than, as `std::map` requires of its key
comparison (here: one whose equivalence is equality). -/
structure IsStrictTotal {κ : Type} (lt : κ → κ → Bool) : Prop where
  irrefl : ∀ a, lt a a = false
  trans : ∀ a b c, lt a b = true → lt b c = true → lt a c = true
  tri : ∀ a b, lt a b = false → lt b a = false → a = b

/-- The representation invariant of `std::map`: keys strictly ascending. -/
def mapSorted {κ β : Type} (lt : κ → κ → Bool) (l : List (κ × β)) : Prop :=
  l.Pairwise (fun a b => lt a.1 b.1 = true)

/-- Two id pairs name the same unordered pair. -/
def samePair (a b : ID_TYPE × ID_TYPE) : Prop :=
  (a.1 = b.1 ∧ a.2 = b.2) ∨ (a.1 = b.2 ∧ a.2 = b.1)

instance (a b : ID_TYPE × ID_TYPE) : Decidable (samePair a b) := by
  unfold samePair; infer_instance

/-- The class invariant of `Covariance`: the map is a well-formed `std::map` and every key has
its smaller id first. -/
def Covariance.WF (c : Covariance) : Prop :=
  mapSorted keyLt c.mData ∧ ∀ e ∈ c.mData, e.1.1 ≤ e.1.2

/-- The Covariance objects a program can hold: a freshly constructed one, and what
`setCovariance`, `clear` and `onDeserialize` (returning or throwing) make of one. -/
inductive Covariance.Reachable : Covariance → Prop where
  | empty : Covariance.Reachable Covariance.empty
  | set (c : Covariance) (i1 i2 : ID_TYPE) (v : Double) :
      Covariance.Reachable c → Covariance.Reachable (c.setCovariance i1 i2 v)
  | clear (c : Covariance) : Covariance.Reachable c → Covariance.Reachable c.clear
  | deserialize (c : Covariance) (stream : Stream) :
      Covariance.Reachable c → Covariance.Reachable (c.onDeserialize stream).obj

/-- The key under which `setCovariance` stores and `getCovariance` probes the pair (i1, i2):
the two ids after the conditional `std::swap`. -/
def canon (i1 i2 : ID_TYPE) : KEY_TYPE := if i1 > i2 then (i2, i1) else (i1, i2)

/-- The entry stored for the pair (i1, i2), if any: the outcome of `mData.find(key)` in
`getCovariance`. -/
def Covariance.lookup (c : Covariance) (i1 i2 : ID_TYPE) : Option Double :=
  mapFind keyLt (canon i1 i2) c.mData

/-- The double `1.0`. -/
def Double.one : Double := ⟨0x3FF0000000000000⟩

/-- The double `2.0`. -/
def Double.two : Double := ⟨0x4000000000000000⟩

/-- The items of the wire form of a list of (i1, i2, value) triples. -/
def tripleItems : List (ID_TYPE × ID_TYPE × Double) → Stream
  | [] => []
  | (i1, i2, v) :: rest => .int64 i1 :: .int64 i2 :: .double v :: tripleItems rest

/-! ## Notions used in the statements about `load` -/

/-- The triple a line gives, when it is a well-formed `C` line. -/
def lineTriple (ng : NumGet) (line : List Char) : Option ioutil.Triple :=
  match parseLine ng line with
  | .ok (.triple t) => some t
  | _ => none

/-- The triples the `C` lines of a file give, in file order. -/
def fileTriples (ng : NumGet) (file : List Char) : List ioutil.Triple :=
  (getlines file).filterMap (lineTriple ng)

/-- The id is declared by an `I` line of the file. -/
def isDeclared (ng : NumGet) (file : List Char) (i : ID_TYPE) : Prop :=
  ∃ inv ∈ declared ng file, inv.getId = i

/-- The message with which the loop of `load` over the given lines throws, if it throws. -/
def loadError (ng : NumGet) (lines : List (List Char)) : Option String :=
  match loadLines ng lines [] [] with
  | .error msg => some msg
  | .ok _ => none

/-- A line that the grammar ignores: empty, whitespace only, or with `#` as its first
non-whitespace character. -/
def ignorable (line : List Char) : Bool :=
  match line.dropWhile isspace with
  | [] => true
  | c :: _ => c == '#'

/-- The shape the grammar asks of every other line: the first non-whitespace character is `I`
or `C`, and the character after it exists and is whitespace. -/
def shapeOk (line : List Char) : Bool :=
  match line.dropWhile isspace with
  | [] => false
  | c :: rest =>
    (c == 'I' || c == 'C') &&
      match rest with
      | [] => false
      | c1 :: _ => isspace c1

/-- The text of a file made of the given lines, with a newline between consecutive lines. -/
def joinLines : List (List Char) → List Char
  | [] => []
  | [l] => l
  | l :: ls => l ++ '\n' :: joinLines ls

/-- Both ids of the triple are keys of the investment map: the test of the final loop of
`load`. -/
def resolvable (is : List (ID_TYPE × Investment)) (t : ioutil.Triple) : Bool :=
  (mapFind idLt t.id1 is).isSome && (mapFind idLt t.id2 is).isSome

/-! ## Text codec: `save` (PortfolioInvestment.h) -/

/-- The member `getName`. -/
def Investment.getName (self : Investment) : String := self.mName

/-- The member `getReturn`. -/
def Investment.getReturn (self : Investment) : Double := self.mReturn

/-- The formatted insertions `file << id` (`long long`) and `file << x` (`double`) of the
standard library, taken as parameters of the writer: the characters each one produces. -/
structure NumPut where
  showId : ID_TYPE → List Char
  showDouble : Double → List Char

/-- A `std::ostream`: the characters it took so far, the number of characters its device
still takes, and whether the stream has failed (`!file`). -/
structure OStream where
  text : List Char
  room : Nat
  fail : Bool
deriving DecidableEq, Repr

/-- The insertions of one statement `file << ... << std::endl`, taken together: nothing
happens on a failed stream; otherwise the characters go out as far as the device takes them,
and the stream fails when it does not take them all. -/
def OStream.put (file : OStream) (s : List Char) : OStream :=
  if file.fail then file
  else if s.length ≤ file.room then ⟨file.text ++ s, file.room - s.length, false⟩
  else ⟨file.text ++ s.take file.room, 0, true⟩

/-- What a call of `save` leaves behind: the stream, and the message of the exception
thrown, if one was. -/
structure Saved where
  file : OStream
  error : Option String
deriving DecidableEq, Repr

/-- The characters of `"I " << id << " " << ret << " " << name`, without the `std::endl`. -/
def iLine (np : NumPut) (it : Investment) : List Char :=
  "I ".toList ++ np.showId it.getId ++ " ".toList ++ np.showDouble it.getReturn ++ " ".toList ++
    it.getName.toList

/-- The characters of `"C " << id1 << " " << id2 << " " << value`, without the `std::endl`. -/
def cLine (np : NumPut) (id1 id2 : ID_TYPE) (value : Double) : List Char :=
  "C ".toList ++ np.showId id1 ++ " ".toList ++ np.showId id2 ++ " ".toList ++
    np.showDouble value

/-- The inner loop of `save`, `for (jt = it; jt != investments.end(); ++jt)`, over the
investments from `it` on. -/
def saveInner (np : NumPut) (covariance : Covariance) (it : Investment) :
    List Investment → OStream → Saved
  | [], file => ⟨file, none⟩
  | jt :: jts, file =>
    let file := file.put
      (cLine np it.getId jt.getId (covariance.getCovariance it.getId jt.getId) ++ ['\n'])
    if file.fail then ⟨file, some "Output error"⟩
    else saveInner np covariance it jts file

/-- The outer loop of `save` over the investments still to be written; the inner loop starts
at the investment of the outer one. -/
def saveOuter (np : NumPut) (covariance : Covariance) : List Investment → OStream → Saved
  | [], file => ⟨file, none⟩
  | it :: rest, file =>
    let file := file.put (iLine np it ++ ['\n'])
    if file.fail then ⟨file, some "Output error"⟩
    else
      match saveInner np covariance it (it :: rest) file with
      | ⟨file, some msg⟩ => ⟨file, some msg⟩
      | ⟨file, none⟩ => saveOuter np covariance rest file

/-- The function template `save`. -/
def save (np : NumPut) (file : OStream) (investments : List Investment)
    (covariance : Covariance) : Saved :=
  if file.fail then ⟨file, some "Output error"⟩
  else saveOuter np covariance investments file

/-! ## A model of the standard insertion operators -/

/-- Model of `file << id` for `long long`: decimal digits, with a minus sign when negative. -/
def stdShowId (i : ID_TYPE) : List Char :=
  if i < 0 then '-' :: Nat.toDigits 10 i.natAbs else Nat.toDigits 10 i.natAbs

namespace Double

/-- The sign bit. -/
def sign (d : Double) : Bool := d.bits / 2 ^ 63 % 2 == 1

/-- The biased exponent field. -/
def expo (d : Double) : Nat := d.bits / 2 ^ 52 % 2 ^ 11

/-- The fraction field. -/
def frac (d : Double) : Nat := d.bits % 2 ^ 52

/-- Whether the double is an infinity. -/
def isinf (d : Double) : Bool := d.expo == 2047 && d.frac == 0

/-- The integer significand of a finite double: its magnitude is `mant * 2 ^ expn`. -/
def mant (d : Double) : Nat := if d.expo = 0 then d.frac else 2 ^ 52 + d.frac

/-- The power of two that goes with the integer significand. -/
def expn (d : Double) : Int := (if d.expo = 0 then (1 : Int) else (d.expo : Int)) - 1075

end Double

/-- The decimal digits of m, at least `width` of them (zeros in front). -/
def padDigits (width m : Nat) : List Char :=
  let ds := Nat.toDigits 10 m
  List.replicate (width - ds.length) '0' ++ ds

/-- A digit string without its trailing zeros. -/
def stripZeros (ds : List Char) : List Char :=
  (ds.reverse.dropWhile (fun c => c == '0')).reverse

/-- The floor of the decimal logarithm of num / den, for num > 0: the largest of the three
candidates around the estimate from the binary logarithms whose power of ten does not exceed
the quotient. -/
def decExponent (num den : Nat) : Int :=
  let l : Int := (log2Fuel (num + 1) num : Int) - (log2Fuel (den + 1) den : Int)
  let x0 : Int := (l * 30103) / 100000
  let fits (x : Int) : Bool := decide (10 ^ x.toNat * den ≤ num * 10 ^ (-x).toNat)
  if fits (x0 + 1) then x0 + 1 else if fits x0 then x0 else x0 - 1

/-- Model of `file << x` for `double` with the default flags, that is `printf("%g")` with
precision 6: six significant digits, correctly rounded, trailing zeros removed; exponent
form when the decimal exponent is below -4 or at least 6; `nan` and `inf` for the
non-finite values. -/
def stdShowDouble (d : Double) : List Char :=
  let s : List Char := if d.sign then ['-'] else []
  if d.isnan then s ++ "nan".toList
  else if d.isinf then s ++ "inf".toList
  else if d.mant = 0 then s ++ ['0']
  else
    let num := d.mant * 2 ^ d.expn.toNat
    let den := 2 ^ (-d.expn).toNat
    let x1 := decExponent num den
    let p : Int := x1 - 5
    let m1 := roundQuot (num * 10 ^ (-p).toNat) (den * 10 ^ p.toNat)
    let x : Int := if m1 = 10 ^ 6 then x1 + 1 else x1
    let m : Nat := if m1 = 10 ^ 6 then 10 ^ 5 else m1
    let ds := padDigits 6 m
    if x < -4 ∨ x ≥ 6 then
      let fr := stripZeros (ds.drop 1)
      let mant := ds.take 1 ++ (if fr.isEmpty then [] else '.' :: fr)
      s ++ mant ++ ['e', if x < 0 then '-' else '+'] ++ padDigits 2 x.natAbs
    else if x ≥ 0 then
      let fr := stripZeros (ds.drop (x.toNat + 1))
      s ++ ds.take (x.toNat + 1) ++ (if fr.isEmpty then [] else '.' :: fr)
    else
      let fr := stripZeros (List.replicate ((-x).toNat - 1) '0' ++ ds)
      s ++ '0' :: '.' :: fr

/-- The insertion operators of the standard library, as modelled above. -/
def stdNumPut : NumPut := ⟨stdShowId, stdShowDouble⟩

/-- A stream that has taken nothing yet, on a device with room for `room` characters. -/
def OStream.fresh (room : Nat) : OStream := ⟨[], room, false⟩

/-! ## Notions used in the statements about `save` -/

/-- A line of the text format: what one output statement of `save` writes. -/
inductive Record where
  | I (id : ID_TYPE) (ret : Double) (name : String)
  | C (id1 id2 : ID_TYPE) (value : Double)
deriving DecidableEq, Repr

/-- The characters of a line, without the newline that ends it. -/
def Record.text (np : NumPut) : Record → List Char
  | .I id ret name => iLine np (Investment.mk3 id name ret)
  | .C id1 id2 value => cLine np id1 id2 value

/-- What `load` is to make of the line. -/
def Record.item : Record → LineItem
  | .I id ret name => .investment (Investment.mk3 id name ret)
  | .C id1 id2 value => .triple ⟨id1, id2, value⟩

/-- The content of an `I` line. -/
def Record.asI : Record → Option (ID_TYPE × Double × String)
  | .I id ret name => some (id, ret, name)
  | .C _ _ _ => none

/-- The content of a `C` line. -/
def Record.asC : Record → Option (ID_TYPE × ID_TYPE × Double)
  | .I _ _ _ => none
  | .C id1 id2 value => some (id1, id2, value)

/-- The `C` lines that go with one investment: one for each investment from it on. -/
def rowLines (covariance : Covariance) (it : Investment) (jts : List Investment) :
    List Record :=
  jts.map fun jt => .C it.getId jt.getId (covariance.getCovariance it.getId jt.getId)

/-- The lines of a saved file in the order they are written. -/
def savedLines (covariance : Covariance) : List Investment → List Record
  | [] => []
  | it :: rest =>
    .I it.getId it.getReturn it.getName ::
      (rowLines covariance it (it :: rest) ++ savedLines covariance rest)

/-- The pairs of positions (a, b) with p <= a <= b < p + k, row by row. -/
def upperPairsFrom (p : Nat) : Nat → List (Nat × Nat)
  | 0 => []
  | k + 1 => (List.range' p (k + 1)).map (fun q => (p, q)) ++ upperPairsFrom (p + 1) k

/-- The pairs of positions (p, q) with p <= q < n, row by row. -/
def upperPairs (n : Nat) : List (Nat × Nat) := upperPairsFrom 0 n

/-- The investment an `I` line stands for. -/
def Record.investment : Record → Option Investment
  | .I id ret name => some (Investment.mk3 id name ret)
  | .C _ _ _ => none

/-- The triple a `C` line stands for. -/
def Record.triple : Record → Option ioutil.Triple
  | .I _ _ _ => none
  | .C id1 id2 value => some ⟨id1, id2, value⟩

namespace Double

/-- The value of a finite double, counted in units of `2 ^ e`, for an `e` that is not above
its own power of two (any `e` for a zero). For an infinity the same formula gives a number
beyond every finite double of its sign. -/
def signedAt (d : Double) (e : Int) : Int :=
  if d.mant = 0 then 0
  else if d.sign then -((d.mant * 2 ^ (d.expn - e).toNat : Nat) : Int)
  else ((d.mant * 2 ^ (d.expn - e).toNat : Nat) : Int)

/-- A power of two in whose units two doubles are both whole numbers: the smaller of their
own powers of two, a zero leaving the choice to the other one. -/
def alignExp (a b : Double) : Int :=
  if a.mant = 0 then b.expn else if b.mant = 0 then a.expn else min a.expn b.expn

/-- The comparison `a <= b` of doubles: false when one of them is NaN. -/
def le (a b : Double) : Bool :=
  !a.isnan && !b.isnan && decide (a.signedAt (alignExp a b) ≤ b.signedAt (alignExp a b))

/-- The comparison `a > b` of doubles: false when one of them is NaN. -/
def gt (a b : Double) : Bool :=
  !a.isnan && !b.isnan && decide (a.signedAt (alignExp a b) > b.signedAt (alignExp a b))

/-- The double of the given sign and magnitude `n * 2 ^ e` (n > 0), rounded to nearest, ties
to even; an infinity when the rounded value is not finite. -/
def ofMagnitude (neg : Bool) (n : Nat) (e : Int) : Double :=
  match roundBits (n * 2 ^ e.toNat) (2 ^ (-e).toNat) with
  | some bits => ⟨(if neg then 2 ^ 63 else 0) + bits⟩
  | none => ⟨(if neg then 2 ^ 63 else 0) + 0x7FF0000000000000⟩

/-- The sum `a + b` of doubles in the default rounding mode. A NaN operand, or the sum of
two infinities of opposite sign, gives a NaN (which of the NaN patterns is not modelled). -/
def add (a b : Double) : Double :=
  if a.isnan || b.isnan then quiet_NaN
  else if a.isinf then (if b.isinf && (a.sign != b.sign) then quiet_NaN else a)
  else if b.isinf then b
  else
    let e := alignExp a b
    let s : Int := a.signedAt e + b.signedAt e
    if s = 0 then (if a.sign && b.sign then ⟨2 ^ 63⟩ else zero)
    else ofMagnitude (decide (s < 0)) s.natAbs e

end Double

/-! ## The client (PortfolioClient.cpp) -/

namespace ExampleData

/-- The constant `ExampleData::defaultWealth`, 100. -/
def defaultWealth : Double := ⟨0x4059000000000000⟩

/-- The constant `ExampleData::defaultRho`, 0.01. -/
def defaultRho : Double := ⟨0x3F847AE147AE147B⟩

/-- The tables `ExampleData::returns` and `ExampleData::covariance`, taken as parameters. -/
structure Tables where
  returns : Nat → Double
  covariance : Nat → Nat → Double

/-- The two loops of `populate` that fill the Covariance, row by row. -/
def fillCovariance (tables : Tables) (covar : Covariance) : Covariance :=
  (List.range 20).foldl
    (fun c (i : Nat) => (List.range 20).foldl
      (fun c (j : Nat) => c.setCovariance (i : Int) (j : Int) (tables.covariance i j)) c)
    covar

/-- The function `ExampleData::populate`: the input it builds, and the values it leaves in
the reference parameters `wealth` and `rho`. -/
def populate (tables : Tables) (_input : Input) (wealth rho : Double) :
    Input × Double × Double :=
  let investments := (List.range 20).map fun (i : Nat) =>
    Investment.mk3 (i : Int) (String.mk ("Investment".toList ++ Nat.toDigits 10 i))
      (tables.returns i)
  let covar := fillCovariance tables Covariance.empty
  let wealth := if wealth.isnan then defaultWealth else wealth
  let rho := if rho.isnan then defaultRho else rho
  (⟨investments, covar, wealth, rho⟩, wealth, rho)

end ExampleData

/-- The variables of `main` that the command line sets; `dataFile` holds the text of the
(readable) file that `-data=` names. -/
structure Args where
  waitResult : Bool
  sessionId : Option (List Char)
  timeout : Int
  dataFile : Option (List Char)
  wealth : Double
  step : Double
  rhomin : Double
  rhomax : Double

/-- The checks under "Make sure we have all data we need": the value `main` returns there,
or `none` when it goes on. -/
def checkArgs (a : Args) : Option Int :=
  if a.dataFile.isSome then
    if a.wealth.isnan || a.rhomin.isnan then some (-1)
    else if !((a.rhomax.isnan && a.step.isnan) ||
        (!(a.rhomax.isnan || a.step.isnan) && a.rhomax.gt a.rhomin &&
          a.rhomax.gt Double.zero && a.step.gt Double.zero)) then some (-2)
    else none
  else none

/-- An exception as the handlers at the end of `main` see it: a `SoamException` or an
`ioutil::Exception`, with its `what()`. -/
inductive Caught where
  | soam (what : String)
  | ioutil (what : String)
deriving DecidableEq, Repr

/-- How the submitting part of `main` ends: it runs to its end, it is left by an exception,
or its loop is still running when the steps allowed to the model are used up. -/
inductive Ending where
  | done
  | threw (ex : Caught)
  | running
deriving DecidableEq, Repr

/-- The state of the submitting part of `main`: the inputs that `sendTaskInput` took, in
order, and the counter `nuOfTasks` (an `int`, which does not wrap below 2^31 submissions). -/
structure Run where
  sent : List Input
  nuOfTasks : Int
  ending : Ending
deriving DecidableEq, Repr

/-- The inner loop of the data integrity check: whether some investment from `it` on has a
NaN covariance with `it`. -/
def missingWith (covar : Covariance) (it : Investment) : List Investment → Bool
  | [] => false
  | jt :: jts =>
    if (covar.getCovariance it.getId jt.getId).isnan then true else missingWith covar it jts

/-- The data integrity check: whether it throws `FatalException("Data error")`. -/
def missingPair (covar : Covariance) : List Investment → Bool
  | [] => false
  | it :: rest =>
    if missingWith covar it (it :: rest) then true else missingPair covar rest

/-- The loop `for (double d=rhomin; d <= rhomax; d+=step)`, run for at most `fuel`
iterations. `send k input` stands for the call of `sendTaskInput` number k (from 0): `none`
when it returns a handle, the message of the `SoamException` when it throws. -/
def sweepLoop (send : Nat → Input → Option String) (rhomax step : Double) :
    Nat → Input → Double → List Input → Int → Run
  | 0, _, d, sent, nuOfTasks =>
    ⟨sent, nuOfTasks, if d.le rhomax then .running else .done⟩
  | fuel + 1, input, d, sent, nuOfTasks =>
    if d.le rhomax then
      let input := { input with mRho := d }
      match send sent.length input with
      | some what => ⟨sent, nuOfTasks, .threw (.soam what)⟩
      | none => sweepLoop send rhomax step fuel input (d.add step) (sent ++ [input])
          (nuOfTasks + 1)
    else ⟨sent, nuOfTasks, .done⟩

/-- The part of `main` from "Setting benign values" to the end of the submission loop. -/
def sweep (send : Nat → Input → Option String) (fuel : Nat) (input : Input)
    (rhomin rhomax step : Double) : Run :=
  let benign := rhomax.isnan || step.isnan
  let rhomax := if benign then rhomin else rhomax
  let step := if benign then Double.one else step
  sweepLoop send rhomax step fuel input rhomin [] 0

/-- The branch of `main` that creates a new session: the input is prepared, from the data
file (load, then the integrity check) or from the example data, and the sweep is submitted. -/
def submitNew (ng : NumGet) (tables : ExampleData.Tables) (send : Nat → Input → Option String)
    (fuel : Nat) (a : Args) : Run :=
  let input := Input.new
  match a.dataFile with
  | some file =>
    let loaded := load ng file Covariance.empty
    match loaded.error with
    | some what => ⟨[], 0, .threw (.ioutil what)⟩
    | none =>
      if missingPair loaded.covariance loaded.investments then
        ⟨[], 0, .threw (.soam "Data error")⟩
      else
        let input : Input := ⟨loaded.investments, loaded.covariance, a.wealth, a.rhomin⟩
        sweep send fuel input a.rhomin a.rhomax a.step
  | none =>
    let (input, _, rhomin) := ExampleData.populate tables input a.wealth a.rhomin
    sweep send fuel input rhomin a.rhomax a.step

/-- The rho of the job number k of a sweep: `rhomin` with `step` added k times. -/
def rhoAt (rhomin step : Double) : Nat → Double
  | 0 => rhomin
  | k + 1 => (rhoAt rhomin step k).add step

/-- A `sendTaskInput` that takes every input. -/
def sendAll : Nat → Input → Option String := fun _ _ => none

/-- The double 2^53 = 9007199254740992. -/
def Double.twoPow53 : Double := ⟨0x4340000000000000⟩

/-- The double `0.1`. -/
def Double.tenth : Double := ⟨0x3FB999999999999A⟩

/-- The double `0.2`. -/
def Double.fifth : Double := ⟨0x3FC999999999999A⟩

/-- The double `1.5`. -/
def Double.oneAndHalf : Double := ⟨0x3FF8000000000000⟩

/-! ## Accessors (PortfolioInvestment.h, PortfolioInput.h, PortfolioOutput.h) -/

/-- The member `Investment::getAllocation`. -/
def Investment.getAllocation (self : Investment) : Double := self.mAllocation

/-- The member `Investment::setAllocation`. -/
def Investment.setAllocation (self : Investment) (allocation : Double) : Investment :=
  { self with mAllocation := allocation }

namespace Input

/-- The member `Input::getInvestments`. -/
def getInvestments (self : Input) : List Investment := self.mInvestments

/-- The member `Input::getCovariance`. -/
def getCovariance (self : Input) : Covariance := self.mCovariance

/-- The member `Input::getWealth`. -/
def getWealth (self : Input) : Double := self.mWealth

/-- The member `Input::getRho`. -/
def getRho (self : Input) : Double := self.mRho

end Input

namespace Output

/-- The member `Output::isOptimal`. -/
def isOptimal (self : Output) : Bool := self.mOptimal

/-- The member `Output::setOptimal`. -/
def setOptimal (self : Output) (optimal : Bool) : Output := { self with mOptimal := optimal }

/-- The member `Output::getWealth`. -/
def getWealth (self : Output) : Double := self.mWealth

/-- The member `Output::setWealth`. -/
def setWealth (self : Output) (wealth : Double) : Output := { self with mWealth := wealth }

/-- The member `Output::getRho`. -/
def getRho (self : Output) : Double := self.mRho

/-- The member `Output::setRho`. -/
def setRho (self : Output) (rho : Double) : Output := { self with mRho := rho }

/-- The member `Output::getObjValue`. -/
def getObjValue (self : Output) : Double := self.mObjValue

/-- The member `Output::setObjValue`. -/
def setObjValue (self : Output) (objValue : Double) : Output :=
  { self with mObjValue := objValue }

/-- The member `Output::getTotalReturn`. -/
def getTotalReturn (self : Output) : Double := self.mTotalReturn

/-- The member `Output::setTotalReturn`. -/
def setTotalReturn (self : Output) (totalReturn : Double) : Output :=
  { self with mTotalReturn := totalReturn }

/-- The member `Output::getTotalVariance`. -/
def getTotalVariance (self : Output) : Double := self.mTotalVariance

/-- The member `Output::setTotalVariance`. -/
def setTotalVariance (self : Output) (totalVariance : Double) : Output :=
  { self with mTotalVariance := totalVariance }

/-- The member `Output::getInvestments`. -/
def getInvestments (self : Output) : List Investment := self.mInvestments

/-- The member `Output::setInvestments`. -/
def setInvestments (self : Output) (investments : List Investment) : Output :=
  { self with mInvestments := investments }

end Output

/-! ## The service (PortfolioService.cpp) -/

/-- What the CPLEX calls of `onInvoke` give once `cplex.solve()` has returned: `true`, with the
values of `getObjValue()`, `getValue(totalReturn)`, `getValue(totalVariance)` and the array
`vals` that `getValues(allocation, vals)` fills (`vals i` is `vals[i]`); or `false`. -/
inductive Solved where
  | feasible (objValue totalReturn totalVariance : Double) (vals : Nat → Double)
  | infeasible

/-- The CPLEX run, taken as a parameter: from what `onInvoke` puts into the model (the
investments, the covariance lookups, wealth and rho) to what the calls give, or to the message
of the exception that leaves them. -/
abbrev Cplex := List Investment → Covariance → Double → Double → Except String Solved

/-- How `Service::onInvoke` ends: `setTaskOutput(output)` is reached, the `SoamException` of
the decoding is rethrown, or a `FatalException` with a message is thrown. -/
inductive Invoked where
  | taskOutput (output : Output)
  | soam (e : SoamException)
  | fatal (message : String)

namespace Service

/-- The loop `for (i = 0; i < investments.size(); ++i) investments[i].setAllocation(vals[i])`,
from index `i` on. -/
def setAllocations (vals : Nat → Double) : Nat → List Investment → List Investment
  | _, [] => []
  | i, investment :: rest => investment.setAllocation (vals i) :: setAllocations vals (i + 1) rest

/-- The member `Service::onInvoke`, on the input message of the task: `populateTaskInput`
decodes it into a fresh `Input`. -/
def onInvoke (cplex : Cplex) (taskInput : Stream) : Invoked :=
  match Input.new.onDeserialize taskInput with
  | ⟨_, .error e⟩ => .soam e
  | ⟨input, .ok _⟩ =>
    let covariance := input.getCovariance
    let wealth := input.getWealth
    let rho := input.getRho
    let investments := input.getInvestments
    match cplex investments covariance wealth rho with
    | .error message => .fatal message
    | .ok solved =>
      -- Setup the service output.
      let output := Output.new
      let output := output.setWealth wealth
      let output := output.setRho rho
      let output :=
        match solved with
        | .feasible objValue totalReturn totalVariance vals =>
          let output := output.setObjValue objValue
          let output := output.setTotalReturn totalReturn
          let output := output.setTotalVariance totalVariance
          let investments := setAllocations vals 0 investments
          let output := output.setInvestments investments
          output.setOptimal true
        | .infeasible => output
      .taskOutput output

end Service

/-! ## The client: result handling (PortfolioClient.cpp) -/

/-- A `TaskOutputHandle` as the loop over the fetched outputs uses it: `isSuccessful()` holds
and `populateTaskOutput` decodes the message, or `getException()` gives an exception with an
error code and a `what()`. -/
inductive TaskOutputHandle where
  | successful (message : Stream)
  | failed (errorCode : Int) (what : String)
deriving DecidableEq, Repr

/-- One block of text written to `cout` by the result handling, as the values given to
`operator<<`: an allocation plan (wealth, rho, a row of id, name and allocation for each
investment, total return, total variance), the report of a task that did not succeed, the
notice that the tasks are not complete yet, or the notice of detaching. -/
inductive Printed where
  | allocationPlan (wealth rho : Double) (rows : List (ID_TYPE × String × Double))
      (totalReturn totalVariance : Double)
  | taskNotSucceeded (errorCode : Int) (what : String)
  | notComplete (timeout : Int)
  | detaching
deriving DecidableEq, Repr

/-- The state the result handling leaves: what it printed, the variable `returnValue`, and the
`SoamException` that left it, if one did. -/
structure Shown where
  printed : List Printed
  returnValue : Int
  thrown : Option SoamException
deriving DecidableEq, Repr

/-- The loop `while(enumOutput->getNext(outputHandle))` over the handles still to come. -/
def showOutputs : List TaskOutputHandle → List Printed → Int → Shown
  | [], printed, returnValue => ⟨printed, returnValue, none⟩
  | .successful message :: rest, printed, returnValue =>
    match Output.new.onDeserialize message with
    | ⟨_, .error e⟩ => ⟨printed, returnValue, some e⟩
    | ⟨output, .ok _⟩ =>
      let rows := output.getInvestments.map
        (fun it => (it.getId, it.getName, it.getAllocation))
      showOutputs rest
        (printed ++ [.allocationPlan output.getWealth output.getRho rows output.getTotalReturn
          output.getTotalVariance])
        returnValue
  | .failed errorCode what :: rest, printed, _ =>
    showOutputs rest (printed ++ [.taskNotSucceeded errorCode what]) (-1)

/-- The part of `main` from `if ( waitResult )` to the end of the try block; `fetched` is what
`fetchTaskOutput(nuOfTasks, timeout)` returned. -/
def showResults (waitResult : Bool) (nuOfTasks timeout : Int) (fetched : List TaskOutputHandle)
    (returnValue : Int) : Shown :=
  if waitResult then
    if (fetched.length : Int) != nuOfTasks then ⟨[.notComplete timeout], returnValue, none⟩
    else showOutputs fetched [] returnValue
  else ⟨[.detaching], returnValue, none⟩

/-- What a run of `main` that returns leaves: the inputs that `sendTaskInput` took, what the
result handling printed, and the value returned. -/
structure Finished where
  sent : List Input
  printed : List Printed
  returnValue : Int
deriving DecidableEq, Repr

/-- The function `main` of the client from "Make sure we have all data we need" on, with the
calls that connect, open or create the session and close taken to return; `fetch` stands for
`fetchTaskOutput`. The result is `none` when the submission loop is still running after `fuel`
iterations. -/
def Client.main (ng : NumGet) (tables : ExampleData.Tables)
    (send : Nat → Input → Option String) (fetch : Int → Int → List TaskOutputHandle)
    (fuel : Nat) (a : Args) : Option Finished :=
  let returnValue : Int := 0
  match checkArgs a with
  | some r => some ⟨[], [], r⟩
  | none =>
    let run : Run := if a.sessionId.isSome then ⟨[], 0, .done⟩
      else submitNew ng tables send fuel a
    match run.ending with
    | .running => none
    | .threw _ => some ⟨run.sent, [], -1⟩
    | .done =>
      let shown := showResults a.waitResult run.nuOfTasks a.timeout
        (fetch run.nuOfTasks a.timeout) returnValue
      match shown.thrown with
      | some _ => some ⟨run.sent, shown.printed, -1⟩
      | none => some ⟨run.sent, shown.printed, shown.returnValue⟩

/-! ## Notions used in the statements about jobs -/

/-- How a job resolved: successfully, with the Output that the service passed to
`setTaskOutput`, or unsuccessfully, with an error code and a message. -/
inductive Resolved where
  | succeeded (output : Output)
  | failed (errorCode : Int) (what : String)
deriving DecidableEq, Repr

/-- The handle the client fetches for a resolved job: the message of a successful job is what
`Output::onSerialize` writes. -/
def Resolved.handle : Resolved → TaskOutputHandle
  | .succeeded output => .successful (output.onSerialize [])
  | .failed errorCode what => .failed errorCode what

/-- The report of a resolved job: the allocation plan of its Output, or its error. -/
def Resolved.report : Resolved → Printed
  | .succeeded output =>
    .allocationPlan output.mWealth output.mRho
      (output.mInvestments.map (fun it => (it.mId, it.mName, it.mAllocation)))
      output.mTotalReturn output.mTotalVariance
  | .failed errorCode what => .taskNotSucceeded errorCode what

/-- A `sendTaskInput` that takes every input but that of call `k`, which it rejects with the
message `what`. -/
def sendAllBut (k : Nat) (what : String) : Nat → Input → Option String :=
  fun i _ => if i = k then some what else none

/-- Whether a job resolved successfully. -/
def Resolved.isSuccessful : Resolved → Bool
  | .succeeded _ => true
  | .failed _ _ => false

/-- Command line of a run on `exampleFile` that waits for the results of the sweep
rho = 0, 0.5, 1 with wealth 1. -/
def exampleArgs : Args :=
  ⟨true, none, 0, some exampleFile, Double.one, Double.half, Double.zero, Double.one⟩

/-- Three resolved jobs: an optimal Output, a failure, and an Output without solution. -/
def exampleJobs : List Resolved :=
  [.succeeded ⟨true, Double.one, Double.zero, Double.two, Double.two, Double.zero,
      [⟨0, "Stock A", Double.one, Double.zero⟩, ⟨1, "Stock B", Double.two, Double.one⟩]⟩,
    .failed 7 "Unknown exception caught",
    .succeeded ⟨false, Double.one, Double.one, Double.quiet_NaN, Double.quiet_NaN,
      Double.quiet_NaN, []⟩]

/-! ## Notions used in the statement of the text round trip -/

theorem keyLt_strictTotal : IsStrictTotal keyLt := by
  refine ⟨?_, ?_, ?_⟩
  · intro a; simp [keyLt]
  · rintro ⟨a1, a2⟩ ⟨b1, b2⟩ ⟨c1, c2⟩ h1 h2
    simp only [keyLt, Bool.or_eq_true, Bool.and_eq_true, Bool.not_eq_true', decide_eq_true_eq,
      decide_eq_false_iff_not] at *
    unfold ID_TYPE at *
    omega
  · rintro ⟨a1, a2⟩ ⟨b1, b2⟩ h1 h2
    simp only [keyLt, Bool.or_eq_false_iff, Bool.and_eq_false_imp, Bool.not_eq_true',
      decide_eq_true_eq, decide_eq_false_iff_not] at *
    unfold ID_TYPE at *
    have e1 : a1 = b1 := by omega
    have e2 : a2 = b2 := by omega
    rw [e1, e2]

theorem idLt_strictTotal : IsStrictTotal idLt := by
  refine ⟨?_, ?_, ?_⟩
  · intro a; simp [idLt]
  · intro a b c h1 h2
    simp only [idLt, decide_eq_true_eq] at *
    unfold ID_TYPE at *
    omega
  · intro a b h1 h2
    simp only [idLt, decide_eq_false_iff_not] at *
    unfold ID_TYPE at *
    omega

/-! ## std::map lemmas -/

section MapLemmas

variable {κ β : Type} {lt : κ → κ → Bool}

theorem IsStrictTotal.asymm (h : IsStrictTotal lt) {a b : κ} (hab : lt a b = true) :
    lt b a = false := by
  cases hba : lt b a with
  | false => rfl
  | true =>
    have := h.trans a b a hab hba
    rw [h.irrefl] at this
    exact absurd this (by simp)

theorem mem_mapInsert {k : κ} {v : β} {l : List (κ × β)} {x : κ × β}
    (hx : x ∈ mapInsert lt k v l) : x = (k, v) ∨ x ∈ l := by
  induction l with
  | nil => simp [mapInsert] at hx; exact Or.inl hx
  | cons p rest ih =>
    obtain ⟨k1, v1⟩ := p
    unfold mapInsert at hx
    split at hx
    · simp only [List.mem_cons] at hx ⊢
      tauto
    · split at hx
      · simp only [List.mem_cons] at hx ⊢
        rcases hx with hx | hx
        · exact Or.inr (Or.inl hx)
        · rcases ih hx with h | h
          · exact Or.inl h
          · exact Or.inr (Or.inr h)
      · exact Or.inr hx

theorem mapInsert_sorted (h : IsStrictTotal lt) (k : κ) (v : β) {l : List (κ × β)}
    (hl : mapSorted lt l) : mapSorted lt (mapInsert lt k v l) := by
  induction l with
  | nil => simp [mapInsert, mapSorted]
  | cons p rest ih =>
    obtain ⟨k1, v1⟩ := p
    have hl2 := hl
    unfold mapSorted at hl2
    rw [List.pairwise_cons] at hl2
    unfold mapInsert
    split
    · rename_i hk
      unfold mapSorted
      rw [List.pairwise_cons]
      refine ⟨?_, hl⟩
      intro x hx
      rcases List.mem_cons.1 hx with rfl | hx
      · exact hk
      · exact h.trans _ _ _ hk (hl2.1 x hx)
    · split
      · rename_i _ hk
        unfold mapSorted
        rw [List.pairwise_cons]
        refine ⟨?_, ih hl2.2⟩
        intro x hx
        rcases mem_mapInsert hx with rfl | hx
        · exact hk
        · exact hl2.1 x hx
      · exact hl

theorem mapFind_mapInsert_ne (h : IsStrictTotal lt) {k k2 : κ} (v : β) (l : List (κ × β))
    (hne : k2 ≠ k) : mapFind lt k2 (mapInsert lt k v l) = mapFind lt k2 l := by
  have hnot : (!lt k2 k && !lt k k2) = false := by
    cases h1 : lt k2 k <;> cases h2 : lt k k2 <;> simp
    exact hne (h.tri _ _ h1 h2)
  induction l with
  | nil => simp [mapInsert, mapFind, hnot]
  | cons p rest ih =>
    obtain ⟨k1, v1⟩ := p
    unfold mapInsert
    split
    · rw [mapFind, hnot]; simp
    · split
      · rw [mapFind, mapFind, ih]
      · rfl

theorem mapFind_none_of_lt {k : κ} {l : List (κ × β)}
    (hl : ∀ e ∈ l, lt k e.1 = true) : mapFind lt k l = none := by
  induction l with
  | nil => rfl
  | cons p rest ih =>
    obtain ⟨k1, v1⟩ := p
    have h1 : lt k k1 = true := hl (k1, v1) (List.mem_cons_self _ _)
    rw [mapFind, h1]
    simp only [Bool.not_true, Bool.false_and, Bool.false_eq_true, ↓reduceIte]
    exact ih (fun e he => hl e (List.mem_cons_of_mem _ he))

theorem mapFind_mapInsert_self (h : IsStrictTotal lt) (k : κ) (v : β) {l : List (κ × β)}
    (hl : mapSorted lt l) :
    mapFind lt k (mapInsert lt k v l) = some ((mapFind lt k l).getD v) := by
  induction l with
  | nil => simp [mapInsert, mapFind, h.irrefl]
  | cons p rest ih =>
    obtain ⟨k1, v1⟩ := p
    unfold mapSorted at hl
    rw [List.pairwise_cons] at hl
    unfold mapInsert
    split
    · rename_i hk
      have hnone : mapFind lt k ((k1, v1) :: rest) = none := by
        apply mapFind_none_of_lt
        intro e he
        rcases List.mem_cons.1 he with rfl | he
        · exact hk
        · exact h.trans _ _ _ hk (hl.1 e he)
      rw [hnone]
      simp [mapFind, h.irrefl]
    · split
      · rename_i hk1 hk
        have : (!lt k k1 && !lt k1 k) = false := by simp [hk]
        rw [mapFind, this, mapFind, this]
        simpa using ih hl.2
      · rename_i hk1 hk
        have : (!lt k k1 && !lt k1 k) = true := by
          simp only [Bool.not_eq_true] at hk1 hk
          simp [hk1, hk]
        simp [mapFind, this]

theorem mapInsert_last (h : IsStrictTotal lt) (k : κ) (v : β) {l : List (κ × β)}
    (hl : ∀ e ∈ l, lt e.1 k = true) : mapInsert lt k v l = l ++ [(k, v)] := by
  induction l with
  | nil => rfl
  | cons p rest ih =>
    obtain ⟨k1, v1⟩ := p
    have h1 : lt k1 k = true := hl (k1, v1) (List.mem_cons_self _ _)
    have h2 : lt k k1 = false := h.asymm h1
    rw [mapInsert, h2, h1]
    simp only [Bool.false_eq_true, ↓reduceIte, List.cons_append, List.cons.injEq, true_and]
    exact ih (fun e he => hl e (List.mem_cons_of_mem _ he))

theorem mapFind_eq_some_iff (h : IsStrictTotal lt) {k : κ} {v : β} {l : List (κ × β)}
    (hl : mapSorted lt l) : mapFind lt k l = some v ↔ (k, v) ∈ l := by
  induction l with
  | nil => simp [mapFind]
  | cons p rest ih =>
    obtain ⟨k1, v1⟩ := p
    unfold mapSorted at hl
    rw [List.pairwise_cons] at hl
    rw [mapFind]
    by_cases heq : k = k1
    · subst heq
      simp only [h.irrefl, Bool.not_false, Bool.and_self, ↓reduceIte, Option.some.injEq,
        List.mem_cons, Prod.mk.injEq, true_and]
      constructor
      · intro hv; exact Or.inl hv.symm
      · rintro (hv | hmem)
        · exact hv.symm
        · have := hl.1 (k, v) hmem
          rw [h.irrefl] at this
          exact absurd this (by simp)
    · have hnot : (!lt k k1 && !lt k1 k) = false := by
        cases h1 : lt k k1 <;> cases h2 : lt k1 k <;> simp
        exact heq (h.tri _ _ h1 h2)
      rw [hnot]
      simp only [Bool.false_eq_true, ↓reduceIte, List.mem_cons, Prod.mk.injEq, heq, false_and,
        false_or]
      exact ih hl.2

theorem mapInsert_perm {k : κ} {v : β} {l : List (κ × β)} (hk : mapFind lt k l = none) :
    (mapInsert lt k v l).Perm ((k, v) :: l) := by
  induction l with
  | nil => exact List.Perm.refl _
  | cons p rest ih =>
    obtain ⟨k1, v1⟩ := p
    rw [mapFind] at hk
    split at hk
    · cases hk
    · rename_i hne
      unfold mapInsert
      split
      · exact List.Perm.refl _
      · split
        · exact ((ih hk).cons (k1, v1)).trans (List.Perm.swap _ _ _)
        · rename_i h1 h2
          simp only [Bool.not_eq_true] at h1 h2
          simp [h1, h2] at hne

end MapLemmas

/-! ## Covariance: set and get -/

namespace Covariance

theorem canon_comm (i j : ID_TYPE) : canon i j = canon j i := by
  unfold canon
  by_cases h1 : i > j <;> by_cases h2 : j > i <;> simp only [h1, h2, ↓reduceIte]
  · unfold ID_TYPE at *; omega
  · have : i = j := by unfold ID_TYPE at *; omega
    rw [this]

theorem canon_le (i j : ID_TYPE) : (canon i j).1 ≤ (canon i j).2 := by
  unfold canon
  by_cases h1 : i > j <;> simp only [h1, ↓reduceIte] <;> unfold ID_TYPE at * <;> omega

theorem canon_eq_iff (a b i j : ID_TYPE) : canon a b = canon i j ↔ samePair (a, b) (i, j) := by
  unfold canon samePair
  by_cases h1 : a > b <;> by_cases h2 : i > j <;>
    simp only [h1, h2, ↓reduceIte, Prod.mk.injEq] <;> unfold ID_TYPE at * <;> omega

theorem setCovariance_mData (c : Covariance) (i j : ID_TYPE) (v : Double) :
    (c.setCovariance i j v).mData = mapInsert keyLt (canon i j) v c.mData := by
  unfold setCovariance canon
  by_cases h : i > j <;> simp [h]

theorem getCovariance_eq (c : Covariance) (i j : ID_TYPE) :
    c.getCovariance i j = (c.lookup i j).getD Double.quiet_NaN := by
  unfold getCovariance lookup canon
  by_cases h : i > j <;> simp only [h, ↓reduceIte] <;> split <;> simp [*]

theorem lookup_comm (c : Covariance) (i j : ID_TYPE) : c.lookup i j = c.lookup j i := by
  unfold lookup; rw [canon_comm]

theorem getCovariance_comm (c : Covariance) (i j : ID_TYPE) :
    c.getCovariance i j = c.getCovariance j i := by
  rw [getCovariance_eq, getCovariance_eq, lookup_comm]

theorem WF_empty : Covariance.empty.WF := by
  simp [WF, empty, mapSorted]

theorem WF_setCovariance {c : Covariance} (h : c.WF) (i j : ID_TYPE) (v : Double) :
    (c.setCovariance i j v).WF := by
  refine ⟨?_, ?_⟩
  · rw [setCovariance_mData]
    exact mapInsert_sorted keyLt_strictTotal _ _ h.1
  · intro e he
    rw [setCovariance_mData] at he
    rcases mem_mapInsert he with rfl | he
    · exact canon_le i j
    · exact h.2 e he

theorem WF_foldl (calls : List (ID_TYPE × ID_TYPE × Double)) {c : Covariance} (h : c.WF) :
    (calls.foldl (fun c t => c.setCovariance t.1 t.2.1 t.2.2) c).WF := by
  induction calls generalizing c with
  | nil => exact h
  | cons t rest ih => exact ih (WF_setCovariance h _ _ _)

theorem WF_ofCalls (calls : List (ID_TYPE × ID_TYPE × Double)) : (ofCalls calls).WF :=
  WF_foldl calls WF_empty

theorem lookup_set_other (c : Covariance) {a b i j : ID_TYPE} (v : Double)
    (h : ¬ samePair (a, b) (i, j)) : (c.setCovariance a b v).lookup i j = c.lookup i j := by
  unfold lookup
  rw [setCovariance_mData]
  apply mapFind_mapInsert_ne keyLt_strictTotal
  intro heq
  exact h ((canon_eq_iff a b i j).1 heq.symm)

theorem lookup_set_same {c : Covariance} (hc : c.WF) {a b i j : ID_TYPE} (v : Double)
    (h : samePair (a, b) (i, j)) :
    (c.setCovariance a b v).lookup i j = some ((c.lookup i j).getD v) := by
  unfold lookup
  rw [setCovariance_mData, (canon_eq_iff a b i j).2 h]
  exact mapFind_mapInsert_self keyLt_strictTotal _ _ hc.1

/-- An entry once stored is never changed by later `setCovariance` calls. -/
theorem lookup_set_of_some {c : Covariance} (hc : c.WF) {i j : ID_TYPE} {w : Double}
    (hw : c.lookup i j = some w) (a b : ID_TYPE) (v : Double) :
    (c.setCovariance a b v).lookup i j = some w := by
  by_cases h : samePair (a, b) (i, j)
  · rw [lookup_set_same hc v h, hw]; rfl
  · rw [lookup_set_other c v h, hw]

theorem lookup_foldl_of_some (calls : List (ID_TYPE × ID_TYPE × Double)) {c : Covariance}
    (hc : c.WF) {i j : ID_TYPE} {w : Double} (hw : c.lookup i j = some w) :
    (calls.foldl (fun c t => c.setCovariance t.1 t.2.1 t.2.2) c).lookup i j = some w := by
  induction calls generalizing c with
  | nil => exact hw
  | cons t rest ih => exact ih (WF_setCovariance hc _ _ _) (lookup_set_of_some hc hw _ _ _)

theorem lookup_foldl_of_not_named (calls : List (ID_TYPE × ID_TYPE × Double)) (c : Covariance)
    {i j : ID_TYPE} (h : ∀ t ∈ calls, ¬ samePair (t.1, t.2.1) (i, j)) :
    (calls.foldl (fun c t => c.setCovariance t.1 t.2.1 t.2.2) c).lookup i j = c.lookup i j := by
  induction calls generalizing c with
  | nil => rfl
  | cons t rest ih =>
    rw [List.foldl_cons, ih _ (fun t ht => h t (List.mem_cons_of_mem _ ht))]
    exact lookup_set_other c _ (h t (List.mem_cons_self _ _))

theorem ofCalls_append (pre post : List (ID_TYPE × ID_TYPE × Double)) :
    ofCalls (pre ++ post) =
      post.foldl (fun c t => c.setCovariance t.1 t.2.1 t.2.2) (ofCalls pre) := by
  simp [ofCalls, List.foldl_append]

end Covariance

/-- C1: for every Covariance reached from the empty one by any sequence of `setCovariance`
calls, the empty sequence included, and for all ids i and j, `getCovariance(i,j)` and
`getCovariance(j,i)` return the same double (so both NaN or both the same number); before any
call both are the quiet NaN. -/
theorem C1_covariance_symmetry (calls : List (ID_TYPE × ID_TYPE × Double)) (i j : ID_TYPE) :
    (Covariance.ofCalls calls).getCovariance i j = (Covariance.ofCalls calls).getCovariance j i ∧
    (Covariance.ofCalls []).getCovariance i j = Double.quiet_NaN ∧
    (Covariance.ofCalls []).getCovariance j i = Double.quiet_NaN ∧
    Double.quiet_NaN.isnan = true :=
  ⟨Covariance.getCovariance_comm _ i j, rfl, rfl, by decide⟩

/-- C2 (the code at the failing input): after `setCovariance(0,1,1.0)` a second call
`setCovariance(0,1,2.0)`, or `setCovariance(1,0,2.0)`, leaves both lookups of the pair at 1.0;
neither returns the value 2.0 just set. -/
theorem C2_setCovariance_keeps_stored_value :
    ((Covariance.empty.setCovariance 0 1 Double.one).setCovariance 0 1 Double.two).getCovariance
        0 1 = Double.one ∧
    ((Covariance.empty.setCovariance 0 1 Double.one).setCovariance 0 1 Double.two).getCovariance
        1 0 = Double.one ∧
    ((Covariance.empty.setCovariance 0 1 Double.one).setCovariance 1 0 Double.two).getCovariance
        0 1 = Double.one ∧
    Double.one ≠ Double.two := by
  decide

/-- C3: for a Covariance built by `setCovariance` calls, a pair that no call named reads as NaN;
a pair whose first naming call (in either id order) carries the value 0 reads as 0, which is not
NaN, whatever calls follow; and every lookup on a fresh or a cleared Covariance is NaN. -/
theorem C3_absence_is_NaN (pre post : List (ID_TYPE × ID_TYPE × Double)) (a b i j : ID_TYPE)
    (c : Covariance)
    (hpre : ∀ t ∈ pre, ¬ samePair (t.1, t.2.1) (i, j)) (hab : samePair (a, b) (i, j)) :
    (Covariance.ofCalls pre).getCovariance i j = Double.quiet_NaN ∧
    ((Covariance.ofCalls pre).getCovariance i j).isnan = true ∧
    (Covariance.ofCalls (pre ++ (a, b, Double.zero) :: post)).getCovariance i j = Double.zero ∧
    Double.zero.isnan = false ∧
    Covariance.empty.getCovariance i j = Double.quiet_NaN ∧
    c.clear.getCovariance i j = Double.quiet_NaN := by
  have h1 : (Covariance.ofCalls pre).lookup i j = none := by
    unfold Covariance.ofCalls
    rw [Covariance.lookup_foldl_of_not_named pre _ hpre]
    rfl
  have h2 : (Covariance.ofCalls pre).getCovariance i j = Double.quiet_NaN := by
    rw [Covariance.getCovariance_eq, h1]; rfl
  refine ⟨h2, ?_, ?_, by decide, rfl, rfl⟩
  · rw [h2]; decide
  · rw [Covariance.getCovariance_eq, Covariance.ofCalls_append, List.foldl_cons,
      Covariance.lookup_foldl_of_some post
        (Covariance.WF_setCovariance (Covariance.WF_ofCalls pre) _ _ _)
        (w := Double.zero)]
    · rfl
    · rw [Covariance.lookup_set_same (Covariance.WF_ofCalls pre) _ hab, h1]; rfl

/-- C3 at a concrete input: calls (2,3,1.0), (1,0,0.0), (0,1,1.0) and the pair (0,1). -/
theorem C3_absence_is_NaN_witness :
    (Covariance.ofCalls [(2, 3, Double.one)]).getCovariance 0 1 = Double.quiet_NaN ∧
    (Covariance.ofCalls
      ([(2, 3, Double.one)] ++ (1, 0, Double.zero) :: [(0, 1, Double.one)])).getCovariance 0 1
      = Double.zero :=
  have h := C3_absence_is_NaN [(2, 3, Double.one)] [(0, 1, Double.one)] 1 0 0 1
    Covariance.empty (by decide) (by decide)
  ⟨h.1, h.2.2.1⟩

/-! ## Wire codec: what is written -/

theorem Investment_onSerialize_eq (inv : Investment) (s : Stream) :
    inv.onSerialize s =
      s ++ [.int64 inv.mId, .string inv.mName, .double inv.mReturn, .double inv.mAllocation] := by
  simp [Investment.onSerialize, Stream.write]

theorem writeInvestments_eq (l : List Investment) (s : Stream) :
    writeInvestments l s = s ++ writeInvestments l [] := by
  induction l generalizing s with
  | nil => simp [writeInvestments]
  | cons inv rest ih =>
    rw [writeInvestments, ih, writeInvestments, ih (inv.onSerialize []),
      Investment_onSerialize_eq inv s, Investment_onSerialize_eq inv []]
    simp

theorem writeInvestments_cons (inv : Investment) (l : List Investment) :
    writeInvestments (inv :: l) [] =
      .int64 inv.mId :: .string inv.mName :: .double inv.mReturn :: .double inv.mAllocation ::
        writeInvestments l [] := by
  rw [writeInvestments, writeInvestments_eq, Investment_onSerialize_eq]
  simp

theorem Covariance.writeTriples_eq (l : List (KEY_TYPE × Double)) (s : Stream) :
    Covariance.writeTriples l s = s ++ tripleItems (l.map (fun e => (e.1.1, e.1.2, e.2))) := by
  induction l generalizing s with
  | nil => simp [Covariance.writeTriples, tripleItems]
  | cons e rest ih =>
    obtain ⟨⟨k1, k2⟩, v⟩ := e
    rw [Covariance.writeTriples, ih]
    simp [Stream.write, tripleItems]

theorem Covariance_onSerialize_eq (c : Covariance) (s : Stream) :
    c.onSerialize s =
      s ++ .int64 c.mData.length :: tripleItems (c.mData.map (fun e => (e.1.1, e.1.2, e.2))) := by
  simp [Covariance.onSerialize, Covariance.writeTriples_eq, Stream.write]

theorem Input_onSerialize_eq (x : Input) :
    x.onSerialize [] =
      .int64 x.mInvestments.length :: (writeInvestments x.mInvestments [] ++
        (x.mCovariance.onSerialize [] ++ [.double x.mWealth, .double x.mRho])) := by
  simp only [Input.onSerialize, Stream.write]
  rw [Covariance_onSerialize_eq, writeInvestments_eq, Covariance_onSerialize_eq]
  simp

theorem Output_onSerialize_eq (x : Output) :
    x.onSerialize [] =
      .bool x.mOptimal :: .double x.mWealth :: .double x.mRho :: .double x.mObjValue ::
        .double x.mTotalReturn :: .double x.mTotalVariance :: .int64 x.mInvestments.length ::
        writeInvestments x.mInvestments [] := by
  simp only [Output.onSerialize, Stream.write]
  rw [writeInvestments_eq]
  simp

/-! ## Wire codec: reading back what was written -/

theorem Investment.onDeserialize_items (t inv : Investment) (rest : Stream) :
    t.onDeserialize (.int64 inv.mId :: .string inv.mName :: .double inv.mReturn ::
      .double inv.mAllocation :: rest) = ⟨inv, .ok rest⟩ := by
  simp [Investment.onDeserialize, Investment.readFields, Investment.reset, Stream.readInt64,
    Stream.readString, Stream.readDouble]

theorem Input_readInvestments_written (l : List Investment) (self : Input) (rest : Stream) :
    Input.readInvestments l.length self (writeInvestments l [] ++ rest) =
      ⟨{ self with mInvestments := self.mInvestments ++ l }, .ok rest⟩ := by
  induction l generalizing self with
  | nil => simp [Input.readInvestments, writeInvestments]
  | cons inv l ih =>
    rw [writeInvestments_cons]
    simp only [List.length_cons, Input.readInvestments, List.cons_append,
      Investment.onDeserialize_items]
    rw [ih]
    simp [Input.addInvestment]

theorem Output_readInvestments_written (l : List Investment) (self : Output) (rest : Stream) :
    Output.readInvestments l.length self (writeInvestments l [] ++ rest) =
      ⟨{ self with mInvestments := self.mInvestments ++ l }, .ok rest⟩ := by
  induction l generalizing self with
  | nil => simp [Output.readInvestments, writeInvestments]
  | cons inv l ih =>
    rw [writeInvestments_cons]
    simp only [List.length_cons, Output.readInvestments, List.cons_append,
      Investment.onDeserialize_items]
    rw [ih]
    simp

theorem canon_of_le {k : KEY_TYPE} (h : k.1 ≤ k.2) : canon k.1 k.2 = k := by
  unfold canon
  have : ¬ k.1 > k.2 := by unfold ID_TYPE at *; omega
  simp [this]

theorem Covariance.readTriples_written (suf pre : List (KEY_TYPE × Double)) (rest : Stream)
    (hs : mapSorted keyLt (pre ++ suf)) (hc : ∀ e ∈ suf, e.1.1 ≤ e.1.2) :
    Covariance.readTriples suf.length ⟨pre⟩
        (tripleItems (suf.map (fun e => (e.1.1, e.1.2, e.2))) ++ rest) =
      ⟨⟨pre ++ suf⟩, .ok rest⟩ := by
  induction suf generalizing pre with
  | nil => simp [Covariance.readTriples, tripleItems]
  | cons e suf ih =>
    obtain ⟨k, v⟩ := e
    have hk : canon k.1 k.2 = k := canon_of_le (hc (k, v) (List.mem_cons_self _ _))
    have hlast : mapInsert keyLt k v pre = pre ++ [(k, v)] := by
      apply mapInsert_last keyLt_strictTotal
      intro e he
      unfold mapSorted at hs
      rw [List.pairwise_append] at hs
      exact hs.2.2 e he (k, v) (List.mem_cons_self _ _)
    have hset : (Covariance.mk pre).setCovariance k.1 k.2 v = ⟨pre ++ [(k, v)]⟩ := by
      have := Covariance.setCovariance_mData ⟨pre⟩ k.1 k.2 v
      rw [hk, hlast] at this
      cases hx : (Covariance.mk pre).setCovariance k.1 k.2 v
      rw [hx] at this
      simpa using this
    simp only [List.map_cons, tripleItems, List.length_cons, List.cons_append,
      Covariance.readTriples, Stream.readInt64, Stream.readDouble]
    rw [hset, ih (pre ++ [(k, v)]) (by simpa using hs)
      (fun e he => hc e (List.mem_cons_of_mem _ he))]
    simp

theorem Covariance_onDeserialize_written (t c : Covariance) (rest : Stream) (hc : c.WF) :
    t.onDeserialize (c.onSerialize [] ++ rest) = ⟨c, .ok rest⟩ := by
  rw [Covariance_onSerialize_eq]
  simp only [Covariance.onDeserialize, Covariance.reset, Covariance.readBody, List.nil_append,
    List.cons_append, Stream.readInt64, Int.toNat_ofNat]
  rw [Covariance.readTriples_written c.mData [] rest (by simpa using hc.1) hc.2]
  simp

theorem Input_onDeserialize_written (t x : Input) (rest : Stream) (hc : x.mCovariance.WF) :
    t.onDeserialize (x.onSerialize [] ++ rest) = ⟨x, .ok rest⟩ := by
  rw [Input_onSerialize_eq]
  simp only [Input.onDeserialize, Input.readBody, List.cons_append, Stream.readInt64,
    Int.toNat_ofNat, List.append_assoc]
  rw [Input_readInvestments_written]
  simp only [Covariance_onDeserialize_written _ _ _ hc]
  simp [Input.clear, Stream.readDouble]

theorem Output_onDeserialize_written (t x : Output) (rest : Stream) :
    t.onDeserialize (x.onSerialize [] ++ rest) = ⟨x, .ok rest⟩ := by
  rw [Output_onSerialize_eq]
  simp only [Output.onDeserialize, Output.readBody, List.cons_append, Stream.readInt64,
    Stream.readBool, Stream.readDouble, Int.toNat_ofNat]
  rw [Output_readInvestments_written]
  simp [Output.clear]

/-! ## Wire codec: the class invariant survives decoding -/

theorem Covariance.readTriples_WF (n : Nat) (self : Covariance) (s : Stream) (h : self.WF) :
    (Covariance.readTriples n self s).obj.WF := by
  induction n generalizing self s with
  | zero => exact h
  | succ n ih =>
    unfold Covariance.readTriples
    split
    · exact h
    · split
      · exact h
      · split
        · exact h
        · exact ih _ _ (Covariance.WF_setCovariance h _ _ _)

theorem Covariance.onDeserialize_WF (t : Covariance) (s : Stream) :
    (t.onDeserialize s).obj.WF := by
  have hb : (t.reset.readBody s).obj.WF := by
    unfold Covariance.readBody
    split
    · exact Covariance.WF_empty
    · exact Covariance.readTriples_WF _ _ _ Covariance.WF_empty
  rcases hrb : t.reset.readBody s with ⟨o, e1 | st⟩
  · simp only [Covariance.onDeserialize, hrb]
    exact Covariance.WF_empty
  · rw [hrb] at hb
    simp only [Covariance.onDeserialize, hrb]
    exact hb

theorem Covariance.Reachable.wf {c : Covariance} (h : c.Reachable) : c.WF := by
  induction h with
  | empty => exact Covariance.WF_empty
  | set c i1 i2 v _ ih => exact Covariance.WF_setCovariance ih i1 i2 v
  | clear c _ _ => exact Covariance.WF_empty
  | deserialize c stream _ _ => exact Covariance.onDeserialize_WF c stream

theorem Covariance.ofCalls_reachable (calls : List (ID_TYPE × ID_TYPE × Double)) :
    (Covariance.ofCalls calls).Reachable := by
  have key : ∀ (l : List (ID_TYPE × ID_TYPE × Double)) (c : Covariance), c.Reachable →
      (l.foldl (fun c t => c.setCovariance t.1 t.2.1 t.2.2) c).Reachable := by
    intro l
    induction l with
    | nil => intro c h; exact h
    | cons t rest ih => intro c h; exact ih _ (Covariance.Reachable.set c _ _ _ h)
  exact key calls _ Covariance.Reachable.empty

theorem Input.readInvestments_cov (n : Nat) (self : Input) (s : Stream) :
    (Input.readInvestments n self s).obj.mCovariance = self.mCovariance := by
  induction n generalizing self s with
  | zero => rfl
  | succ n ih =>
    unfold Input.readInvestments
    split
    · rfl
    · rw [ih]; rfl

theorem Input.readBody_cov_WF (self : Input) (s : Stream) (h : self.mCovariance.WF) :
    (self.readBody s).obj.mCovariance.WF := by
  unfold Input.readBody
  split
  · exact h
  · rename_i size s1 _
    have h1 := Input.readInvestments_cov size.toNat self s1
    split
    · rename_i heq
      rw [heq] at h1
      simp only at h1 ⊢
      rw [h1]; exact h
    · rename_i self2 s2 heq
      have h2 := Covariance.onDeserialize_WF self2.mCovariance s2
      split
      · rename_i heq2
        rw [heq2] at h2
        exact h2
      · rename_i heq2
        rw [heq2] at h2
        split
        · exact h2
        · split
          · exact h2
          · exact h2

theorem Input.onDeserialize_cov_WF (t : Input) (s : Stream) :
    (t.onDeserialize s).obj.mCovariance.WF := by
  have hb := Input.readBody_cov_WF t.clear s Covariance.WF_empty
  rcases hrb : t.clear.readBody s with ⟨o, e1 | st⟩
  · simp only [Input.onDeserialize, hrb]
    exact Covariance.WF_empty
  · rw [hrb] at hb
    simp only [Input.onDeserialize, hrb]
    exact hb

/-! ## Wire codec: a throwing decode resets the target -/

theorem Investment_onDeserialize_error (t : Investment) (s : Stream) (e : SoamException)
    (h : (t.onDeserialize s).res = .error e) :
    (t.onDeserialize s).obj = ⟨-1, "", Double.quiet_NaN, Double.quiet_NaN⟩ := by
  rcases hrb : t.reset.readFields s with ⟨o, e1 | st⟩
  · simp only [Investment.onDeserialize, hrb]
    rfl
  · simp [Investment.onDeserialize, hrb] at h

theorem Investment_onDeserialize_rethrows (t : Investment) (s : Stream) (e : SoamException)
    (h : (t.reset.readFields s).res = .error e) : (t.onDeserialize s).res = .error e := by
  rcases hrb : t.reset.readFields s with ⟨o, e1 | st⟩
  · simp only [Investment.onDeserialize, hrb]
  · rw [hrb] at h
    cases h

theorem Covariance_onDeserialize_error (t : Covariance) (s : Stream) (e : SoamException)
    (h : (t.onDeserialize s).res = .error e) : (t.onDeserialize s).obj = ⟨[]⟩ := by
  rcases hrb : t.reset.readBody s with ⟨o, e1 | st⟩
  · simp only [Covariance.onDeserialize, hrb]
    rfl
  · simp [Covariance.onDeserialize, hrb] at h

theorem Covariance_onDeserialize_rethrows (t : Covariance) (s : Stream) (e : SoamException)
    (h : (t.reset.readBody s).res = .error e) : (t.onDeserialize s).res = .error e := by
  rcases hrb : t.reset.readBody s with ⟨o, e1 | st⟩
  · simp only [Covariance.onDeserialize, hrb]
  · rw [hrb] at h
    cases h

theorem Input_onDeserialize_error (t : Input) (s : Stream) (e : SoamException)
    (h : (t.onDeserialize s).res = .error e) :
    (t.onDeserialize s).obj = ⟨[], ⟨[]⟩, Double.quiet_NaN, Double.quiet_NaN⟩ := by
  rcases hrb : t.clear.readBody s with ⟨o, e1 | st⟩
  · simp only [Input.onDeserialize, hrb]
    rfl
  · simp [Input.onDeserialize, hrb] at h

theorem Input_onDeserialize_rethrows (t : Input) (s : Stream) (e : SoamException)
    (h : (t.clear.readBody s).res = .error e) : (t.onDeserialize s).res = .error e := by
  rcases hrb : t.clear.readBody s with ⟨o, e1 | st⟩
  · simp only [Input.onDeserialize, hrb]
  · rw [hrb] at h
    cases h

theorem Output_onDeserialize_error (t : Output) (s : Stream) (e : SoamException)
    (h : (t.onDeserialize s).res = .error e) :
    (t.onDeserialize s).obj =
      ⟨false, Double.quiet_NaN, Double.quiet_NaN, Double.quiet_NaN, Double.quiet_NaN,
        Double.quiet_NaN, []⟩ := by
  rcases hrb : t.clear.readBody s with ⟨o, e1 | st⟩
  · simp only [Output.onDeserialize, hrb]
    rfl
  · simp [Output.onDeserialize, hrb] at h

theorem Output_onDeserialize_rethrows (t : Output) (s : Stream) (e : SoamException)
    (h : (t.clear.readBody s).res = .error e) : (t.onDeserialize s).res = .error e := by
  rcases hrb : t.clear.readBody s with ⟨o, e1 | st⟩
  · simp only [Output.onDeserialize, hrb]
  · rw [hrb] at h
    cases h

/-! ## Wire codec: the claims -/

/-- C4: for every Input x (any investments, a covariance built by `setCovariance` calls, any
wealth and rho) and every target Input, `onDeserialize` on the stream written by
`x.onSerialize` returns normally, consumes the whole stream and leaves the target equal to x:
same investment sequence, same covariance lookups for every pair, same wealth and rho (as the
same bit patterns, so NaN stays NaN). -/
theorem C4_input_wire_round_trip (investments : List Investment)
    (calls : List (ID_TYPE × ID_TYPE × Double)) (wealth rho : Double) (target : Input) :
    (target.onDeserialize
      ((Input.mk investments (Covariance.ofCalls calls) wealth rho).onSerialize [])).res
        = .ok [] ∧
    (target.onDeserialize
      ((Input.mk investments (Covariance.ofCalls calls) wealth rho).onSerialize [])).obj
        = Input.mk investments (Covariance.ofCalls calls) wealth rho ∧
    (target.onDeserialize
      ((Input.mk investments (Covariance.ofCalls calls) wealth rho).onSerialize
        [])).obj.mInvestments = investments ∧
    (∀ i j, (target.onDeserialize
      ((Input.mk investments (Covariance.ofCalls calls) wealth rho).onSerialize
        [])).obj.mCovariance.getCovariance i j = (Covariance.ofCalls calls).getCovariance i j) ∧
    (target.onDeserialize
      ((Input.mk investments (Covariance.ofCalls calls) wealth rho).onSerialize [])).obj.mWealth
        = wealth ∧
    (target.onDeserialize
      ((Input.mk investments (Covariance.ofCalls calls) wealth rho).onSerialize [])).obj.mRho
        = rho := by
  have h := Input_onDeserialize_written target
    (Input.mk investments (Covariance.ofCalls calls) wealth rho) []
    (Covariance.WF_ofCalls calls)
  rw [List.append_nil] at h
  rw [h]
  exact ⟨rfl, rfl, rfl, fun _ _ => rfl, rfl, rfl⟩

/-- C5: for every Output x and every target Output, `onDeserialize` on the stream written by
`x.onSerialize` returns normally, consumes the whole stream and leaves the target with the same
optimal flag, wealth, rho, objectiveValue, totalReturn, totalVariance and the same investment
sequence in the same order. -/
theorem C5_output_wire_round_trip (x target : Output) :
    (target.onDeserialize (x.onSerialize [])).res = .ok [] ∧
    (target.onDeserialize (x.onSerialize [])).obj = x ∧
    (target.onDeserialize (x.onSerialize [])).obj.mOptimal = x.mOptimal ∧
    (target.onDeserialize (x.onSerialize [])).obj.mWealth = x.mWealth ∧
    (target.onDeserialize (x.onSerialize [])).obj.mRho = x.mRho ∧
    (target.onDeserialize (x.onSerialize [])).obj.mObjValue = x.mObjValue ∧
    (target.onDeserialize (x.onSerialize [])).obj.mTotalReturn = x.mTotalReturn ∧
    (target.onDeserialize (x.onSerialize [])).obj.mTotalVariance = x.mTotalVariance ∧
    (target.onDeserialize (x.onSerialize [])).obj.mInvestments = x.mInvestments := by
  have h := Output_onDeserialize_written target x []
  rw [List.append_nil] at h
  rw [h]
  exact ⟨rfl, rfl, rfl, rfl, rfl, rfl, rfl, rfl, rfl⟩

/-- C6: whenever `onDeserialize` of an Investment, Covariance, Input or Output throws, whatever
the stream and whatever the target held, the target is left in its default state (Investment:
id -1, empty name, NaN return and allocation; Covariance: no entries; Input: no investments,
empty covariance, NaN wealth and rho; Output: optimal false, five NaN scalars, no investments);
and an exception leaving the try block leaves the call, so the caller sees the failure. -/
theorem C6_decode_all_or_nothing (stream : Stream) (e : SoamException)
    (inv : Investment) (cov : Covariance) (inp : Input) (out : Output) :
    ((inv.onDeserialize stream).res = .error e →
      (inv.onDeserialize stream).obj = ⟨-1, "", Double.quiet_NaN, Double.quiet_NaN⟩) ∧
    ((cov.onDeserialize stream).res = .error e → (cov.onDeserialize stream).obj = ⟨[]⟩) ∧
    ((inp.onDeserialize stream).res = .error e →
      (inp.onDeserialize stream).obj = ⟨[], ⟨[]⟩, Double.quiet_NaN, Double.quiet_NaN⟩) ∧
    ((out.onDeserialize stream).res = .error e →
      (out.onDeserialize stream).obj =
        ⟨false, Double.quiet_NaN, Double.quiet_NaN, Double.quiet_NaN, Double.quiet_NaN,
          Double.quiet_NaN, []⟩) ∧
    ((inv.reset.readFields stream).res = .error e → (inv.onDeserialize stream).res = .error e) ∧
    ((cov.reset.readBody stream).res = .error e → (cov.onDeserialize stream).res = .error e) ∧
    ((inp.clear.readBody stream).res = .error e → (inp.onDeserialize stream).res = .error e) ∧
    ((out.clear.readBody stream).res = .error e → (out.onDeserialize stream).res = .error e) :=
  ⟨Investment_onDeserialize_error inv stream e, Covariance_onDeserialize_error cov stream e,
    Input_onDeserialize_error inp stream e, Output_onDeserialize_error out stream e,
    Investment_onDeserialize_rethrows inv stream e, Covariance_onDeserialize_rethrows cov stream e,
    Input_onDeserialize_rethrows inp stream e, Output_onDeserialize_rethrows out stream e⟩

/-- C6 at a truncated stream: a count of 2, one whole investment, then the id and the name of a
second one and nothing more. Decoding it as an Input throws after one investment has been
added, and the populated target ends up in the default state. -/
theorem C6_decode_all_or_nothing_witness :
    ((Input.mk [Investment.mk3 5 "E" Double.one] (Covariance.ofCalls [(0, 1, Double.one)])
        Double.one Double.two).onDeserialize
      [.int64 2, .int64 7, .string "A", .double Double.one, .double Double.two,
        .int64 8, .string "B"]).res = .error .readFailure ∧
    ((Input.mk [Investment.mk3 5 "E" Double.one] (Covariance.ofCalls [(0, 1, Double.one)])
        Double.one Double.two).onDeserialize
      [.int64 2, .int64 7, .string "A", .double Double.one, .double Double.two,
        .int64 8, .string "B"]).obj = ⟨[], ⟨[]⟩, Double.quiet_NaN, Double.quiet_NaN⟩ :=
  ⟨rfl, (C6_decode_all_or_nothing
      [.int64 2, .int64 7, .string "A", .double Double.one, .double Double.two,
        .int64 8, .string "B"] .readFailure Investment.default Covariance.empty
      (Input.mk [Investment.mk3 5 "E" Double.one] (Covariance.ofCalls [(0, 1, Double.one)])
        Double.one Double.two) Output.new).2.2.1 rfl⟩

/-- C7 as stated fails: a Covariance stream whose triple count is -1 decodes without any
failure; an Input stream whose investment count is -1 decodes without failure and leaves wealth
1.0 and rho 2.0 in the target, which is not the default state; likewise an Output stream whose
investment count is -1. -/
theorem C7_negative_count_is_no_failure :
    Covariance.empty.onDeserialize [.int64 (-1)] = ⟨⟨[]⟩, .ok []⟩ ∧
    Input.new.onDeserialize [.int64 (-1), .int64 0, .double Double.one, .double Double.two] =
      ⟨⟨[], ⟨[]⟩, Double.one, Double.two⟩, .ok []⟩ ∧
    Output.new.onDeserialize [.bool true, .double Double.one, .double Double.two,
        .double Double.zero, .double Double.zero, .double Double.zero, .int64 (-1)] =
      ⟨⟨true, Double.one, Double.two, Double.zero, Double.zero, Double.zero, []⟩, .ok []⟩ ∧
    Double.one.isnan = false :=
  ⟨rfl, rfl, rfl, by decide⟩

/-- C7 amended: a negative count is read as a count of zero. With a negative triple count
`Covariance::onDeserialize` returns normally with no entries, leaving the rest of the stream
unread; with a negative investment count `Input::onDeserialize` does exactly what it does for a
count of 0 (no investment is read, decoding goes on with the covariance, wealth and rho) and
`Output::onDeserialize` returns normally with the six scalars read and no investments. -/
theorem C7_negative_count_reads_as_zero (n : Int) (hn : n < 0) (rest : Stream)
    (cov : Covariance) (inp : Input) (out : Output) (o : Bool) (w r ov tr tv : Double) :
    cov.onDeserialize (.int64 n :: rest) = ⟨⟨[]⟩, .ok rest⟩ ∧
    inp.onDeserialize (.int64 n :: rest) = inp.onDeserialize (.int64 0 :: rest) ∧
    out.onDeserialize (.bool o :: .double w :: .double r :: .double ov :: .double tr ::
        .double tv :: .int64 n :: rest) = ⟨⟨o, w, r, ov, tr, tv, []⟩, .ok rest⟩ := by
  have h0 : n.toNat = 0 := by omega
  refine ⟨?_, ?_, ?_⟩
  · simp [Covariance.onDeserialize, Covariance.readBody, Stream.readInt64, h0,
      Covariance.readTriples, Covariance.reset]
  · simp [Input.onDeserialize, Input.readBody, Stream.readInt64, h0]
  · simp [Output.onDeserialize, Output.readBody, Stream.readInt64, Stream.readBool,
      Stream.readDouble, h0, Output.readInvestments, Output.clear]

/-- C7 amended, at the count -3 followed by one more item. -/
theorem C7_negative_count_reads_as_zero_witness :
    (-3 : Int) < 0 ∧
    (Covariance.ofCalls [(0, 1, Double.one)]).onDeserialize [.int64 (-3), .bool true] =
      ⟨⟨[]⟩, .ok [.bool true]⟩ :=
  ⟨by decide, (C7_negative_count_reads_as_zero (-3) (by decide) [.bool true]
    (Covariance.ofCalls [(0, 1, Double.one)]) Input.new Output.new true Double.zero Double.zero
    Double.zero Double.zero Double.zero).1⟩

theorem samePair_canonical {a b : KEY_TYPE} (ha : a.1 ≤ a.2) (hb : b.1 ≤ b.2)
    (h : samePair (a.1, a.2) (b.1, b.2)) : a = b := by
  have h1 := (Covariance.canon_eq_iff a.1 a.2 b.1 b.2).2 h
  rw [canon_of_le ha, canon_of_le hb] at h1
  exact h1

/-- C8: for every Covariance reachable from the empty one by `setCovariance`, `clear` and
`onDeserialize` calls (returning or throwing), `onSerialize` writes a count followed by exactly
that many (i1, i2, value) triples; the count is the size of the map, the triples are exactly
the stored entries, every triple has i1 <= i2, and no unordered pair occurs in two triples. -/
theorem C8_covariance_wire_form_canonical (c : Covariance) (h : c.Reachable) :
    ∃ triples : List (ID_TYPE × ID_TYPE × Double),
      c.onSerialize [] = .int64 triples.length :: tripleItems triples ∧
      triples.length = c.mData.length ∧
      (∀ i j v, c.lookup i j = some v ↔
        ∃ t ∈ triples, samePair (t.1, t.2.1) (i, j) ∧ t.2.2 = v) ∧
      (∀ t ∈ triples, t.1 ≤ t.2.1) ∧
      triples.Pairwise (fun s t => ¬ samePair (s.1, s.2.1) (t.1, t.2.1)) := by
  have hwf := h.wf
  refine ⟨c.mData.map (fun e => (e.1.1, e.1.2, e.2)), ?_, ?_, ?_, ?_, ?_⟩
  · rw [Covariance_onSerialize_eq]; simp
  · simp
  · intro i j v
    unfold Covariance.lookup
    rw [mapFind_eq_some_iff keyLt_strictTotal hwf.1]
    constructor
    · intro hmem
      refine ⟨((canon i j).1, (canon i j).2, v), ?_, ?_, rfl⟩
      · exact List.mem_map.2 ⟨(canon i j, v), hmem, rfl⟩
      · apply (Covariance.canon_eq_iff _ _ i j).1
        exact canon_of_le (Covariance.canon_le i j)
    · rintro ⟨t, ht, hsame, hv⟩
      obtain ⟨⟨k, w⟩, hmem, rfl⟩ := List.mem_map.1 ht
      have hk : k = canon i j := by
        have := (Covariance.canon_eq_iff k.1 k.2 i j).2 hsame
        rw [canon_of_le (hwf.2 _ hmem)] at this
        exact this
      simp only at hv
      rw [← hk, ← hv]
      exact hmem
  · intro t ht
    obtain ⟨e, hmem, rfl⟩ := List.mem_map.1 ht
    exact hwf.2 e hmem
  · rw [List.pairwise_map]
    have hs := hwf.1
    unfold mapSorted at hs
    refine List.Pairwise.imp_of_mem ?_ hs
    intro a b ha hb hlt hsame
    have hab : a.1 = b.1 := samePair_canonical (hwf.2 a ha) (hwf.2 b hb) hsame
    rw [hab, keyLt_strictTotal.irrefl] at hlt
    exact absurd hlt (by simp)

/-- C8 at a Covariance that went through a throwing decode, two `setCovariance` calls (one with
the larger id first) and a decode of non-canonical triples. -/
theorem C8_covariance_wire_form_canonical_witness :
    (((((Covariance.empty.onDeserialize [.int64 1]).obj.setCovariance 3 1
        Double.one).setCovariance 1 3 Double.two).onDeserialize
        [.int64 2, .int64 5, .int64 2, .double Double.one, .int64 0, .int64 0,
          .double Double.zero]).obj).Reachable ∧
    ∃ triples : List (ID_TYPE × ID_TYPE × Double),
      (((((Covariance.empty.onDeserialize [.int64 1]).obj.setCovariance 3 1
        Double.one).setCovariance 1 3 Double.two).onDeserialize
        [.int64 2, .int64 5, .int64 2, .double Double.one, .int64 0, .int64 0,
          .double Double.zero]).obj).onSerialize [] = .int64 triples.length :: tripleItems triples ∧
      (∀ t ∈ triples, t.1 ≤ t.2.1) :=
  have hr : (((((Covariance.empty.onDeserialize [.int64 1]).obj.setCovariance 3 1
        Double.one).setCovariance 1 3 Double.two).onDeserialize
        [.int64 2, .int64 5, .int64 2, .double Double.one, .int64 0, .int64 0,
          .double Double.zero]).obj).Reachable :=
    .deserialize _ _ (.set _ _ _ _ (.set _ _ _ _ (.deserialize _ _ .empty)))
  have h := C8_covariance_wire_form_canonical _ hr
  ⟨hr, h.elim fun triples ht => ⟨triples, ht.1, ht.2.2.2.1⟩⟩

/-- C9: whenever `onDeserialize` of an Input (resp. Covariance, Output) returns normally on a
stream, whatever its triples look like, with result x, then decoding the stream written by
`x.onSerialize` into any target returns normally with an object equal to x, and encoding that
object again gives the same stream as `x.onSerialize`. -/
theorem C9_reencoding_stable (sI sC sO restI restC restO : Stream)
    (tI uI : Input) (tC uC : Covariance) (tO uO : Output) :
    ((tI.onDeserialize sI).res = .ok restI →
      uI.onDeserialize ((tI.onDeserialize sI).obj.onSerialize []) =
        ⟨(tI.onDeserialize sI).obj, .ok []⟩ ∧
      (uI.onDeserialize ((tI.onDeserialize sI).obj.onSerialize [])).obj.onSerialize [] =
        (tI.onDeserialize sI).obj.onSerialize []) ∧
    ((tC.onDeserialize sC).res = .ok restC →
      uC.onDeserialize ((tC.onDeserialize sC).obj.onSerialize []) =
        ⟨(tC.onDeserialize sC).obj, .ok []⟩ ∧
      (uC.onDeserialize ((tC.onDeserialize sC).obj.onSerialize [])).obj.onSerialize [] =
        (tC.onDeserialize sC).obj.onSerialize []) ∧
    ((tO.onDeserialize sO).res = .ok restO →
      uO.onDeserialize ((tO.onDeserialize sO).obj.onSerialize []) =
        ⟨(tO.onDeserialize sO).obj, .ok []⟩ ∧
      (uO.onDeserialize ((tO.onDeserialize sO).obj.onSerialize [])).obj.onSerialize [] =
        (tO.onDeserialize sO).obj.onSerialize []) := by
  have hI := Input_onDeserialize_written uI (tI.onDeserialize sI).obj []
    (Input.onDeserialize_cov_WF tI sI)
  have hC := Covariance_onDeserialize_written uC (tC.onDeserialize sC).obj []
    (Covariance.onDeserialize_WF tC sC)
  have hO := Output_onDeserialize_written uO (tO.onDeserialize sO).obj []
  rw [List.append_nil] at hI hC hO
  refine ⟨fun _ => ⟨hI, ?_⟩, fun _ => ⟨hC, ?_⟩, fun _ => ⟨hO, ?_⟩⟩
  · rw [hI]
  · rw [hC]
  · rw [hO]

/-- C9 at streams with a triple given larger id first, (1,0), and the same pair named again as
(0,1): the Covariance decoded holds the single entry (0,1) with the first value, and is stable
under re-encoding. -/
theorem C9_reencoding_stable_witness :
    (Covariance.empty.onDeserialize
      [.int64 2, .int64 1, .int64 0, .double Double.one, .int64 0, .int64 1,
        .double Double.two]) = ⟨⟨[((0, 1), Double.one)]⟩, .ok []⟩ ∧
    Covariance.empty.onDeserialize
      ((Covariance.empty.onDeserialize
        [.int64 2, .int64 1, .int64 0, .double Double.one, .int64 0, .int64 1,
          .double Double.two]).obj.onSerialize []) =
      ⟨(Covariance.empty.onDeserialize
        [.int64 2, .int64 1, .int64 0, .double Double.one, .int64 0, .int64 1,
          .double Double.two]).obj, .ok []⟩ :=
  ⟨rfl, ((C9_reencoding_stable
      [.int64 0, .int64 2, .int64 1, .int64 0, .double Double.one, .int64 0, .int64 1,
        .double Double.two, .double Double.one, .double Double.two]
      [.int64 2, .int64 1, .int64 0, .double Double.one, .int64 0, .int64 1, .double Double.two]
      [.bool false, .double Double.one, .double Double.two, .double Double.quiet_NaN,
        .double Double.quiet_NaN, .double Double.quiet_NaN, .int64 0]
      [] [] [] Input.new Input.new Covariance.empty Covariance.empty Output.new
      Output.new).2.1 rfl).1⟩

/-! ## Text codec: load -/

theorem loadLines_spec (ng : NumGet) (lines : List (List Char))
    (is is2 : List (ID_TYPE × Investment)) (triples triples2 : List ioutil.Triple)
    (h : loadLines ng lines is triples = .ok (is2, triples2))
    (hs : mapSorted idLt is) (hid : ∀ e ∈ is, e.1 = e.2.getId) :
    mapSorted idLt is2 ∧ (∀ e ∈ is2, e.1 = e.2.getId) ∧
    (is2.map (fun e => e.2)).Perm
      (is.map (fun e => e.2) ++ lines.filterMap (lineInvestment ng)) := by
  induction lines generalizing is triples with
  | nil =>
    simp only [loadLines, Except.ok.injEq, Prod.mk.injEq] at h
    obtain ⟨rfl, _⟩ := h
    exact ⟨hs, hid, by simp⟩
  | cons line lines ih =>
    rw [loadLines] at h
    rw [List.filterMap_cons]
    unfold lineInvestment
    split at h
    · cases h
    · rename_i hp
      rw [hp]
      exact ih is triples h hs hid
    · rename_i inv hp
      rw [hp]
      split at h
      · cases h
      · rename_i hfind
        have hnone : mapFind idLt inv.getId is = none := by
          cases hf : mapFind idLt inv.getId is with
          | none => rfl
          | some w => rw [hf] at hfind; simp at hfind
        have hid2 : ∀ e ∈ mapInsert idLt inv.getId inv is, e.1 = e.2.getId := by
          intro e he
          rcases mem_mapInsert he with rfl | he
          · rfl
          · exact hid e he
        obtain ⟨h1, h2, h3⟩ := ih _ _ h (mapInsert_sorted idLt_strictTotal _ _ hs) hid2
        refine ⟨h1, h2, h3.trans ?_⟩
        have hperm := (mapInsert_perm (v := inv) hnone).map (fun e => e.2)
        simp only [List.map_cons] at hperm
        refine (List.Perm.append_right _ hperm).trans ?_
        simp only [List.cons_append]
        exact List.perm_middle.symm
    · rename_i t hp
      rw [hp]
      exact ih is _ h hs hid

theorem load_ok (ng : NumGet) (file : List Char) (covariance : Covariance)
    (h : (load ng file covariance).error = none) :
    ∃ is triples, loadLines ng (getlines file) [] [] = .ok (is, triples) ∧
      load ng file covariance =
        ⟨is.map (fun e => e.2), setTriples is triples covariance.clear, none⟩ := by
  unfold load at h ⊢
  cases hl : loadLines ng (getlines file) [] [] with
  | error msg => simp [hl] at h
  | ok r =>
    obtain ⟨is, triples⟩ := r
    exact ⟨is, triples, rfl, rfl⟩

theorem load_exampleFile (covariance : Covariance) :
    load stdNumGet exampleFile covariance =
      ⟨[Investment.mk3 0 "Stock A" ⟨0x3FF199999999999A⟩,
        Investment.mk3 1 "Stock B" ⟨0x3FF3333333333333⟩],
       ⟨[((0, 0), Double.two), ((0, 1), Double.half), ((1, 1), ⟨0x4008000000000000⟩)]⟩,
       none⟩ := by
  rfl

/-- C10: whenever `load` succeeds, the investments it assigns through the output iterator are
exactly those the `I` lines declare, each once (a permutation of the declarations in file
order), in strictly ascending id order; and on the example file with two `I` lines and three `C`
lines the result is two investments with ids [0,1] and
`getCovariance(0,1) = getCovariance(1,0) = 0.5`. -/
theorem C10_load_emits_sorted_by_id (ng : NumGet) (file : List Char) (covariance : Covariance)
    (h : (load ng file covariance).error = none) :
    (load ng file covariance).investments.Perm (declared ng file) ∧
    ((load ng file covariance).investments.map Investment.getId).Pairwise (fun a b => a < b) ∧
    (load stdNumGet exampleFile covariance).error = none ∧
    (load stdNumGet exampleFile covariance).investments.map Investment.getId = [0, 1] ∧
    (load stdNumGet exampleFile covariance).covariance.getCovariance 0 1 = Double.half ∧
    (load stdNumGet exampleFile covariance).covariance.getCovariance 1 0 = Double.half := by
  obtain ⟨is, triples, hl, heq⟩ := load_ok ng file covariance h
  obtain ⟨h1, h2, h3⟩ := loadLines_spec ng _ [] is [] triples hl
    (by simp [mapSorted]) (by simp)
  rw [heq, load_exampleFile]
  refine ⟨?_, ?_, rfl, rfl, by decide, by decide⟩
  · simpa [declared] using h3
  · simp only [List.map_map]
    rw [List.pairwise_map]
    unfold mapSorted at h1
    refine List.Pairwise.imp_of_mem ?_ h1
    intro a b ha hb hlt
    simp only [Function.comp_apply]
    rw [← h2 a ha, ← h2 b hb]
    simpa [idLt] using hlt

/-- C10 at a file that declares id 1 before id 0, with a comment, a blank line and covariance
lines before and after the declarations. -/
theorem C10_load_emits_sorted_by_id_witness :
    (load stdNumGet "I 1 2 B\n# c\n  \nC 0 1 0.5\nI 0 1.5 A B\nC 1 0 7\n".toList
      Covariance.empty).error = none ∧
    declared stdNumGet "I 1 2 B\n# c\n  \nC 0 1 0.5\nI 0 1.5 A B\nC 1 0 7\n".toList =
      [Investment.mk3 1 "B" Double.two, Investment.mk3 0 "A B" ⟨0x3FF8000000000000⟩] ∧
    (load stdNumGet "I 1 2 B\n# c\n  \nC 0 1 0.5\nI 0 1.5 A B\nC 1 0 7\n".toList
      Covariance.empty).investments =
      [Investment.mk3 0 "A B" ⟨0x3FF8000000000000⟩, Investment.mk3 1 "B" Double.two] ∧
    ((load stdNumGet "I 1 2 B\n# c\n  \nC 0 1 0.5\nI 0 1.5 A B\nC 1 0 7\n".toList
      Covariance.empty).investments.map Investment.getId).Pairwise (fun a b => a < b) :=
  ⟨rfl, rfl, rfl, (C10_load_emits_sorted_by_id stdNumGet
    "I 1 2 B\n# c\n  \nC 0 1 0.5\nI 0 1.5 A B\nC 1 0 7\n".toList Covariance.empty rfl).2.1⟩

/-! ## Text codec: lines, errors and what a failed load leaves -/

theorem loadLines_append (ng : NumGet) (xs ys : List (List Char))
    (is : List (ID_TYPE × Investment)) (tr : List ioutil.Triple) :
    loadLines ng (xs ++ ys) is tr =
      match loadLines ng xs is tr with
      | .error msg => .error msg
      | .ok (is2, tr2) => loadLines ng ys is2 tr2 := by
  induction xs generalizing is tr with
  | nil => simp [loadLines]
  | cons x xs ih =>
    simp only [List.cons_append, loadLines]
    split
    · rfl
    · exact ih is tr
    · split
      · rfl
      · exact ih _ _
    · exact ih _ _

theorem load_error_eq (ng : NumGet) (file : List Char) (covariance : Covariance) :
    (load ng file covariance).error = loadError ng (getlines file) := by
  unfold load loadError
  cases loadLines ng (getlines file) [] [] <;> rfl

theorem loadError_append_of_error (ng : NumGet) (xs ys : List (List Char)) (msg : String)
    (h : loadError ng xs = some msg) : loadError ng (xs ++ ys) = some msg := by
  unfold loadError at h ⊢
  rw [loadLines_append]
  cases hx : loadLines ng xs [] [] with
  | error m => rw [hx] at h; simpa using h
  | ok r => rw [hx] at h; cases h

theorem loadError_append_cons_of_parse_error (ng : NumGet) (pre post : List (List Char))
    (line : List Char) (msg : String) (hp : parseLine ng line = .error msg) :
    loadError ng (pre ++ line :: post) ≠ none ∧
    (loadError ng pre = none → loadError ng (pre ++ line :: post) = some msg) := by
  unfold loadError
  rw [loadLines_append]
  cases hx : loadLines ng pre [] [] with
  | error m => simp
  | ok r =>
    obtain ⟨is2, tr2⟩ := r
    simp [loadLines, hp]

theorem parseLine_of_bad_shape (ng : NumGet) (line : List Char)
    (hi : ignorable line = false) (hs : shapeOk line = false) :
    parseLine ng line = .error "Invalid line" := by
  unfold parseLine
  unfold ignorable at hi
  unfold shapeOk at hs
  cases hd : line.dropWhile isspace with
  | nil => rw [hd] at hi; simp at hi
  | cons c rest =>
    rw [hd] at hi hs
    have hne : ¬ c = '#' := by simpa using hi
    simp only [hne, ↓reduceIte]
    cases rest with
    | nil => rfl
    | cons c1 r =>
      simp only [Bool.and_eq_false_imp, Bool.or_eq_true, beq_iff_eq] at hs
      by_cases hsp : isspace c1 = true
      · simp only [hsp, Bool.not_true, Bool.false_eq_true, ↓reduceIte]
        have hI : c ≠ 'I' := fun h => by simp [hs (Or.inl h)] at hsp
        have hC : c ≠ 'C' := fun h => by simp [hs (Or.inr h)] at hsp
        simp [hI, hC]
      · simp [hsp]

theorem parseLine_of_good_shape (ng : NumGet) (line : List Char) (hs : shapeOk line = true) :
    parseLine ng line ≠ .error "Invalid line" := by
  unfold parseLine
  unfold shapeOk at hs
  cases hd : line.dropWhile isspace with
  | nil => rw [hd] at hs; simp at hs
  | cons c rest =>
    rw [hd] at hs
    cases rest with
    | nil => simp at hs
    | cons c1 r =>
      simp only [Bool.and_eq_true, Bool.or_eq_true, beq_iff_eq] at hs
      obtain ⟨hc, hsp⟩ := hs
      have hne : c ≠ '#' := by rcases hc with rfl | rfl <;> decide
      simp only [hne, ↓reduceIte, hsp, Bool.not_true, Bool.false_eq_true]
      rcases hc with rfl | rfl
      · simp only [↓reduceIte]
        split
        · simp
        · split
          · simp
          · split <;> simp
      · simp only [show ¬ ('C' = 'I') by decide, ↓reduceIte]
        split
        · simp
        · split
          · simp
          · split <;> simp

/-- C13: a line that is neither blank nor a comment and whose first non-whitespace character
is not `I` or `C` followed by a whitespace character makes the loop throw "Invalid line";
a file holding such a line fails to load, with that message when the lines before it are
free of errors; a line of the right shape never gives "Invalid line"; and the files `X foo`,
`I` and `I0 1.1 A` fail to load with "Invalid line", whatever the number extraction does. -/
theorem C13_malformed_line_shape (ng : NumGet) (file : List Char) (covariance : Covariance)
    (pre post : List (List Char)) (line : List Char)
    (hi : ignorable line = false) (hs : shapeOk line = false)
    (hfile : getlines file = pre ++ line :: post) :
    parseLine ng line = .error "Invalid line" ∧
    (load ng file covariance).error ≠ none ∧
    (loadError ng pre = none → (load ng file covariance).error = some "Invalid line") ∧
    (∀ l, shapeOk l = true → parseLine ng l ≠ .error "Invalid line") ∧
    (load ng "X foo".toList covariance).error = some "Invalid line" ∧
    (load ng "I".toList covariance).error = some "Invalid line" ∧
    (load ng "I0 1.1 A".toList covariance).error = some "Invalid line" := by
  have hp := parseLine_of_bad_shape ng line hi hs
  have h2 := loadError_append_cons_of_parse_error ng pre post line _ hp
  rw [load_error_eq, hfile]
  exact ⟨hp, h2.1, h2.2, fun l hl => parseLine_of_good_shape ng l hl, rfl, rfl, rfl⟩

/-- C13 at the file with two good lines and then the line `I0 1.1 A`. -/
theorem C13_malformed_line_shape_witness :
    ignorable "I0 1.1 A".toList = false ∧ shapeOk "I0 1.1 A".toList = false ∧
    (load stdNumGet "I 1 2 B\nC 1 1 2\nI0 1.1 A\nI 2 2 C".toList Covariance.empty).error =
      some "Invalid line" :=
  ⟨by decide, by decide,
    (C13_malformed_line_shape stdNumGet "I 1 2 B\nC 1 1 2\nI0 1.1 A\nI 2 2 C".toList
      Covariance.empty ["I 1 2 B".toList, "C 1 1 2".toList]
      ["I 2 2 C".toList, []] "I0 1.1 A".toList (by decide) (by decide) rfl).2.2.1 rfl⟩

/-- C15: whenever `load` throws, whatever the cause and however many good lines came before,
nothing has been assigned through the output iterator and the caller's Covariance holds no
entry (every lookup is NaN), whatever it held before the call. -/
theorem C15_failed_load_leaves_nothing (ng : NumGet) (file : List Char)
    (covariance : Covariance) (h : (load ng file covariance).error ≠ none) :
    (load ng file covariance).investments = [] ∧
    (load ng file covariance).covariance.mData = [] ∧
    ∀ i j, (load ng file covariance).covariance.getCovariance i j = Double.quiet_NaN := by
  unfold load at h ⊢
  cases hl : loadLines ng (getlines file) [] [] with
  | error msg => exact ⟨rfl, rfl, fun _ _ => rfl⟩
  | ok r => rw [hl] at h; simp at h

/-- C15 at a file with a good `I` line, a good `C` line and then a repeated id, loaded into a
Covariance that held an entry. -/
theorem C15_failed_load_leaves_nothing_witness :
    (load stdNumGet "I 0 1.1 A\nC 0 0 2.0\nI 0 1.2 B\n".toList
      (Covariance.ofCalls [(0, 1, Double.one)])).error = some "Duplicate investment" ∧
    (load stdNumGet "I 0 1.1 A\nC 0 0 2.0\nI 0 1.2 B\n".toList
      (Covariance.ofCalls [(0, 1, Double.one)])).investments = [] ∧
    (load stdNumGet "I 0 1.1 A\nC 0 0 2.0\nI 0 1.2 B\n".toList
      (Covariance.ofCalls [(0, 1, Double.one)])).covariance.mData = [] :=
  have h := C15_failed_load_leaves_nothing stdNumGet "I 0 1.1 A\nC 0 0 2.0\nI 0 1.2 B\n".toList
    (Covariance.ofCalls [(0, 1, Double.one)]) (by decide)
  ⟨rfl, h.1, h.2.1⟩

/-! ## Text codec: repeated ids -/

theorem mapFind_isSome_iff {κ β : Type} {lt : κ → κ → Bool} (h : IsStrictTotal lt) {k : κ}
    {l : List (κ × β)} : (mapFind lt k l).isSome = true ↔ ∃ e ∈ l, e.1 = k := by
  induction l with
  | nil => simp [mapFind]
  | cons p rest ih =>
    obtain ⟨k1, v1⟩ := p
    rw [mapFind]
    by_cases heq : k = k1
    · subst heq
      simp [h.irrefl]
    · have hnot : (!lt k k1 && !lt k1 k) = false := by
        cases h1 : lt k k1 <;> cases h2 : lt k1 k <;> simp
        exact heq (h.tri _ _ h1 h2)
      rw [hnot]
      simp only [Bool.false_eq_true, ↓reduceIte, ih, List.mem_cons, exists_eq_or_imp]
      constructor
      · intro hx; exact Or.inr hx
      · rintro (hx | hx)
        · exact absurd hx.symm heq
        · exact hx

theorem lineInvestment_eq_some {ng : NumGet} {line : List Char} {a : Investment}
    (h : lineInvestment ng line = some a) : parseLine ng line = .ok (.investment a) := by
  unfold lineInvestment at h
  split at h
  · rename_i inv hp
    simp only [Option.some.injEq] at h
    rw [hp, h]
  · cases h

theorem loadLines_keys (ng : NumGet) (lines : List (List Char))
    (is2 : List (ID_TYPE × Investment)) (tr2 : List ioutil.Triple)
    (h : loadLines ng lines [] [] = .ok (is2, tr2)) (k : ID_TYPE) :
    (mapFind idLt k is2).isSome = true ↔
      ∃ inv ∈ lines.filterMap (lineInvestment ng), inv.getId = k := by
  obtain ⟨_, h2, h3⟩ := loadLines_spec ng lines [] is2 [] tr2 h (by simp [mapSorted]) (by simp)
  simp only [List.map_nil, List.nil_append] at h3
  rw [mapFind_isSome_iff idLt_strictTotal]
  constructor
  · rintro ⟨e, he, rfl⟩
    refine ⟨e.2, ?_, (h2 e he).symm⟩
    exact h3.subset (List.mem_map.2 ⟨e, he, rfl⟩)
  · rintro ⟨inv, hinv, rfl⟩
    obtain ⟨e, he, rfl⟩ := List.mem_map.1 (h3.symm.subset hinv)
    exact ⟨e, he, h2 e he⟩

theorem loadError_first_failure (ng : NumGet) (lines : List (List Char)) (msg : String)
    (h : loadError ng lines = some msg) :
    ∃ good bad rest, lines = good ++ bad :: rest ∧ loadError ng good = none ∧
      (parseLine ng bad = .error msg ∨
        (msg = "Duplicate investment" ∧ ∃ inv, lineInvestment ng bad = some inv ∧
          ∃ e ∈ good.filterMap (lineInvestment ng), e.getId = inv.getId)) := by
  induction lines using List.reverseRecOn with
  | nil => simp [loadError, loadLines] at h
  | append_singleton init last ih =>
    cases hinit : loadError ng init with
    | some m =>
      have h2 := loadError_append_of_error ng init [last] m hinit
      rw [h] at h2
      simp only [Option.some.injEq] at h2
      subst h2
      obtain ⟨good, bad, rest, rfl, hg, hb⟩ := ih hinit
      exact ⟨good, bad, rest ++ [last], by simp, hg, hb⟩
    | none =>
      refine ⟨init, last, [], rfl, hinit, ?_⟩
      unfold loadError at h hinit
      rw [loadLines_append] at h
      cases hx : loadLines ng init [] [] with
      | error m => rw [hx] at hinit; cases hinit
      | ok r =>
        obtain ⟨is2, tr2⟩ := r
        rw [hx] at h
        simp only [loadLines] at h
        cases hp : parseLine ng last with
        | error m =>
          rw [hp] at h
          simp only [Option.some.injEq] at h
          left
          rw [h]
        | ok item =>
          rw [hp] at h
          cases item with
          | skip => simp at h
          | triple t => simp at h
          | investment inv =>
            simp only at h
            by_cases hk : (mapFind idLt inv.getId is2).isSome = true
            · rw [if_pos hk] at h
              simp only [Option.some.injEq] at h
              right
              refine ⟨h.symm, inv, by simp [lineInvestment, hp], ?_⟩
              exact (loadLines_keys ng init is2 tr2 hx inv.getId).1 hk
            · rw [if_neg hk] at h
              simp at h

/-- C12 as stated fails: in this file two `I` lines carry the id 0, and `load` throws
"Invalid line" for the line between them, not "Duplicate investment". -/
theorem C12_other_error_comes_first :
    lineInvestment stdNumGet "I 0 1.1 A".toList = some (Investment.mk3 0 "A" ⟨0x3FF199999999999A⟩) ∧
    lineInvestment stdNumGet "I 0 1.2 B".toList = some (Investment.mk3 0 "B" ⟨0x3FF3333333333333⟩) ∧
    (load stdNumGet "I 0 1.1 A\nX foo\nI 0 1.2 B\n".toList Covariance.empty).error =
      some "Invalid line" ∧
    "Invalid line" ≠ "Duplicate investment" := by
  refine ⟨rfl, rfl, rfl, by decide⟩

/-- C12 amended: when two `I` lines of a file carry the same id, whatever their names and
returns and whatever lies between them, `load` fails. It fails with "Duplicate investment"
whenever the lines before the second of the two are free of errors. Otherwise it fails with the
error of the first failing line: the lines before that line are free of errors, and the message
is the one the line gives when it is malformed, or "Duplicate investment" when it is an `I` line
that repeats the id of an `I` line before it. -/
theorem C12_repeated_id_fails (ng : NumGet) (file : List Char) (covariance : Covariance)
    (pre mid post : List (List Char)) (l1 l2 : List Char) (a b : Investment)
    (hfile : getlines file = (pre ++ l1 :: mid) ++ l2 :: post)
    (h1 : lineInvestment ng l1 = some a) (h2 : lineInvestment ng l2 = some b)
    (hid : a.getId = b.getId) :
    (load ng file covariance).error ≠ none ∧
    (loadError ng (pre ++ l1 :: mid) = none →
      (load ng file covariance).error = some "Duplicate investment") ∧
    (∀ msg, loadError ng (pre ++ l1 :: mid) = some msg →
      (load ng file covariance).error = some msg ∧
      ∃ good bad rest, pre ++ l1 :: mid = good ++ bad :: rest ∧ loadError ng good = none ∧
        (parseLine ng bad = .error msg ∨
          (msg = "Duplicate investment" ∧ ∃ inv, lineInvestment ng bad = some inv ∧
            ∃ e ∈ good.filterMap (lineInvestment ng), e.getId = inv.getId))) := by
  have hfirst : ∀ msg, loadError ng (pre ++ l1 :: mid) = some msg →
      (load ng file covariance).error = some msg ∧
      ∃ good bad rest, pre ++ l1 :: mid = good ++ bad :: rest ∧ loadError ng good = none ∧
        (parseLine ng bad = .error msg ∨
          (msg = "Duplicate investment" ∧ ∃ inv, lineInvestment ng bad = some inv ∧
            ∃ e ∈ good.filterMap (lineInvestment ng), e.getId = inv.getId)) := by
    intro msg hmsg
    refine ⟨?_, loadError_first_failure ng _ msg hmsg⟩
    rw [load_error_eq, hfile]
    exact loadError_append_of_error ng _ _ msg hmsg
  have hmain : (load ng file covariance).error ≠ none ∧
      (loadError ng (pre ++ l1 :: mid) = none →
        (load ng file covariance).error = some "Duplicate investment") := by
    rw [load_error_eq, hfile]
    unfold loadError
    rw [loadLines_append]
    cases hx : loadLines ng (pre ++ l1 :: mid) [] [] with
    | error m => simp
    | ok r =>
      obtain ⟨is2, tr2⟩ := r
      have hk : (mapFind idLt b.getId is2).isSome = true := by
        rw [loadLines_keys ng _ is2 tr2 hx]
        refine ⟨a, ?_, hid⟩
        rw [List.filterMap_append, List.filterMap_cons, h1]
        simp
      simp [loadLines, lineInvestment_eq_some h2, hk]
  exact ⟨hmain.1, hmain.2, hfirst⟩

/-- C12 amended, at a file with the id 0 declared twice and a good line in between, and at
a file with the id 0 declared twice and a malformed line in between. -/
theorem C12_repeated_id_fails_witness :
    (load stdNumGet "I 0 1.1 A\nC 0 0 2\nI 0 1.2 B\nI 1 1 C".toList Covariance.empty).error =
      some "Duplicate investment" ∧
    (load stdNumGet "I 0 1.1 A\nX foo\nI 0 1.2 B\n".toList Covariance.empty).error =
      some "Invalid line" :=
  ⟨(C12_repeated_id_fails stdNumGet "I 0 1.1 A\nC 0 0 2\nI 0 1.2 B\nI 1 1 C".toList
      Covariance.empty [] ["C 0 0 2".toList] ["I 1 1 C".toList, []] "I 0 1.1 A".toList
      "I 0 1.2 B".toList (Investment.mk3 0 "A" ⟨0x3FF199999999999A⟩)
      (Investment.mk3 0 "B" ⟨0x3FF3333333333333⟩) rfl rfl rfl rfl).2.1 rfl,
    ((C12_repeated_id_fails stdNumGet "I 0 1.1 A\nX foo\nI 0 1.2 B\n".toList
      Covariance.empty [] ["X foo".toList] [[]] "I 0 1.1 A".toList
      "I 0 1.2 B".toList (Investment.mk3 0 "A" ⟨0x3FF199999999999A⟩)
      (Investment.mk3 0 "B" ⟨0x3FF3333333333333⟩) rfl rfl rfl rfl).2.2 "Invalid line" rfl).1⟩

/-! ## Text codec: how the triples are resolved -/

theorem loadLines_triples (ng : NumGet) (lines : List (List Char))
    (is is2 : List (ID_TYPE × Investment)) (tr tr2 : List ioutil.Triple)
    (h : loadLines ng lines is tr = .ok (is2, tr2)) :
    tr2 = tr ++ lines.filterMap (lineTriple ng) := by
  induction lines generalizing is tr with
  | nil =>
    simp only [loadLines, Except.ok.injEq, Prod.mk.injEq] at h
    simp [h.2]
  | cons line lines ih =>
    rw [loadLines] at h
    rw [List.filterMap_cons]
    unfold lineTriple
    split at h
    · cases h
    · rename_i hp
      rw [hp]
      exact ih is tr h
    · rename_i inv hp
      rw [hp]
      split at h
      · cases h
      · exact ih _ tr h
    · rename_i t hp
      rw [hp]
      rw [ih is _ h]
      simp only [List.append_assoc, List.singleton_append]
      rfl

theorem setTriples_append (is : List (ID_TYPE × Investment)) (xs ys : List ioutil.Triple)
    (c : Covariance) : setTriples is (xs ++ ys) c = setTriples is ys (setTriples is xs c) := by
  induction xs generalizing c with
  | nil => rfl
  | cons t xs ih =>
    simp only [List.cons_append, setTriples]
    split
    · exact ih _
    · exact ih _

theorem setTriples_WF (is : List (ID_TYPE × Investment)) (ts : List ioutil.Triple)
    {c : Covariance} (hc : c.WF) : (setTriples is ts c).WF := by
  induction ts generalizing c with
  | nil => exact hc
  | cons t ts ih =>
    rw [setTriples]
    split
    · exact ih (Covariance.WF_setCovariance hc _ _ _)
    · exact ih hc

theorem setTriples_lookup_of_some (is : List (ID_TYPE × Investment)) (ts : List ioutil.Triple)
    {c : Covariance} (hc : c.WF) {i j : ID_TYPE} {w : Double} (hw : c.lookup i j = some w) :
    (setTriples is ts c).lookup i j = some w := by
  induction ts generalizing c with
  | nil => exact hw
  | cons t ts ih =>
    rw [setTriples]
    split
    · exact ih (Covariance.WF_setCovariance hc _ _ _)
        (Covariance.lookup_set_of_some hc hw _ _ _)
    · exact ih hc hw

theorem setTriples_lookup_of_not_named (is : List (ID_TYPE × Investment))
    (ts : List ioutil.Triple) (c : Covariance) {i j : ID_TYPE}
    (h : ∀ t ∈ ts, resolvable is t = true → ¬ samePair (t.id1, t.id2) (i, j)) :
    (setTriples is ts c).lookup i j = c.lookup i j := by
  induction ts generalizing c with
  | nil => rfl
  | cons t ts ih =>
    rw [setTriples]
    split
    · rename_i hres
      rw [ih _ (fun t ht => h t (List.mem_cons_of_mem _ ht))]
      exact Covariance.lookup_set_other c _ (h t (List.mem_cons_self _ _) hres)
    · exact ih _ (fun t ht => h t (List.mem_cons_of_mem _ ht))

theorem setTriples_lookup_first (is : List (ID_TYPE × Investment))
    (pre post : List ioutil.Triple) (t : ioutil.Triple) {c : Covariance} (hc : c.WF)
    {i j : ID_TYPE} (hnone : c.lookup i j = none)
    (hpre : ∀ s ∈ pre, ¬ samePair (s.id1, s.id2) (i, j))
    (hres : resolvable is t = true) (hsame : samePair (t.id1, t.id2) (i, j)) :
    (setTriples is (pre ++ t :: post) c).lookup i j = some t.covariance := by
  rw [setTriples_append, setTriples]
  have hres2 : ((mapFind idLt t.id1 is).isSome && (mapFind idLt t.id2 is).isSome) = true := hres
  rw [if_pos hres2]
  have h1 : (setTriples is pre c).lookup i j = none := by
    rw [setTriples_lookup_of_not_named is pre c (fun s hs _ => hpre s hs)]
    exact hnone
  have hwf := setTriples_WF is pre hc
  apply setTriples_lookup_of_some is post (Covariance.WF_setCovariance hwf _ _ _)
  rw [Covariance.lookup_set_same hwf _ hsame, h1]
  rfl

theorem parseLine_of_ignorable (ng : NumGet) (l : List Char) (h : ignorable l = true) :
    parseLine ng l = .ok .skip := by
  unfold parseLine
  unfold ignorable at h
  cases hd : l.dropWhile isspace with
  | nil => rfl
  | cons c rest =>
    rw [hd] at h
    simp only [beq_iff_eq] at h
    simp [h]

theorem loadLines_insert_skip (ng : NumGet) (pre post : List (List Char)) (l : List Char)
    (hl : parseLine ng l = .ok .skip) (is : List (ID_TYPE × Investment))
    (tr : List ioutil.Triple) :
    loadLines ng (pre ++ l :: post) is tr = loadLines ng (pre ++ post) is tr := by
  rw [loadLines_append, loadLines_append]
  cases loadLines ng pre is tr with
  | error m => rfl
  | ok r =>
    obtain ⟨is2, tr2⟩ := r
    simp only [loadLines, hl]

theorem loadLines_cons_congr (ng : NumGet) (l : List Char) (xs ys : List (List Char))
    (h : ∀ is tr, loadLines ng xs is tr = loadLines ng ys is tr)
    (is : List (ID_TYPE × Investment)) (tr : List ioutil.Triple) :
    loadLines ng (l :: xs) is tr = loadLines ng (l :: ys) is tr := by
  simp only [loadLines, h]

theorem getlinesAux_append (l rest acc : List Char) (hl : ∀ c ∈ l, c ≠ '\n') :
    getlinesAux (l ++ rest) acc = getlinesAux rest (l.reverse ++ acc) := by
  induction l generalizing acc with
  | nil => rfl
  | cons c cs ih =>
    have hc : c ≠ '\n' := hl c (List.mem_cons_self _ _)
    have h1 : getlinesAux (c :: (cs ++ rest)) acc = getlinesAux (cs ++ rest) (c :: acc) := by
      rw [getlinesAux, if_neg hc]
    rw [List.cons_append, h1, ih _ (fun x hx => hl x (List.mem_cons_of_mem _ hx))]
    simp

theorem getlines_joinLines_cons (l l2 : List Char) (rest : List (List Char))
    (hl : ∀ c ∈ l, c ≠ '\n') :
    getlines (joinLines (l :: l2 :: rest)) = l :: getlines (joinLines (l2 :: rest)) := by
  unfold getlines
  rw [joinLines, getlinesAux_append l _ [] hl]
  · simp [getlinesAux]
  · simp

theorem loadLines_getlines_joinLines (ng : NumGet) (ls : List (List Char))
    (hls : ∀ x ∈ ls, ∀ c ∈ x, c ≠ '\n') (is : List (ID_TYPE × Investment))
    (tr : List ioutil.Triple) :
    loadLines ng (getlines (joinLines ls)) is tr = loadLines ng ls is tr := by
  have hskip : parseLine ng [] = .ok .skip := rfl
  induction ls generalizing is tr with
  | nil =>
    show loadLines ng ([] ++ [] :: []) is tr = loadLines ng ([] ++ []) is tr
    exact loadLines_insert_skip ng [] [] [] hskip is tr
  | cons l ls ih =>
    cases ls with
    | nil =>
      have hl := hls l (List.mem_cons_self _ _)
      have hg : getlines (joinLines [l]) = if l.isEmpty then [[]] else [l, []] := by
        unfold getlines
        have := getlinesAux_append l [] [] hl
        simp only [List.append_nil] at this
        rw [joinLines, this]
        simp [getlinesAux]
      rw [hg]
      cases l with
      | nil => rfl
      | cons c cs =>
        simp only [List.isEmpty_cons, Bool.false_eq_true, ↓reduceIte]
        exact loadLines_insert_skip ng [c :: cs] [] [] hskip is tr
    | cons l2 rest =>
      rw [getlines_joinLines_cons l l2 rest (hls l (List.mem_cons_self _ _))]
      exact loadLines_cons_congr ng l _ _
        (fun is tr => ih (fun x hx => hls x (List.mem_cons_of_mem _ hx)) is tr) is tr

theorem load_congr (ng : NumGet) (f1 f2 : List Char) (covariance : Covariance)
    (h : loadLines ng (getlines f1) [] [] = loadLines ng (getlines f2) [] []) :
    load ng f1 covariance = load ng f2 covariance := by
  unfold load
  rw [h]

/-- C14: inserting into a file, at any line position (or, read from right to left, removing
from it) a line that is empty, holds only whitespace, or has `#` as its first non-whitespace
character changes nothing of what `load` does: the same success or the same error message,
the same investments emitted and the same Covariance. -/
theorem C14_blank_and_comment_lines_ignored (ng : NumGet) (covariance : Covariance)
    (pre post : List (List Char)) (l : List Char) (hl : ignorable l = true)
    (hnl : ∀ x ∈ pre ++ l :: post, ∀ c ∈ x, c ≠ '\n') :
    load ng (joinLines (pre ++ l :: post)) covariance =
      load ng (joinLines (pre ++ post)) covariance ∧
    (load ng (joinLines (pre ++ l :: post)) covariance).error =
      (load ng (joinLines (pre ++ post)) covariance).error ∧
    (load ng (joinLines (pre ++ l :: post)) covariance).investments =
      (load ng (joinLines (pre ++ post)) covariance).investments ∧
    (load ng (joinLines (pre ++ l :: post)) covariance).covariance =
      (load ng (joinLines (pre ++ post)) covariance).covariance := by
  have h : load ng (joinLines (pre ++ l :: post)) covariance =
      load ng (joinLines (pre ++ post)) covariance := by
    apply load_congr
    rw [loadLines_getlines_joinLines ng _ hnl, loadLines_getlines_joinLines ng _ (by
      intro x hx
      apply hnl x
      rcases List.mem_append.1 hx with hx | hx
      · exact List.mem_append_left _ hx
      · exact List.mem_append_right _ (List.mem_cons_of_mem _ hx))]
    exact loadLines_insert_skip ng pre post l (parseLine_of_ignorable ng l hl) [] []
  exact ⟨h, by rw [h], by rw [h], by rw [h]⟩

/-- C14 at a comment line put between an `I` line and a `C` line. -/
theorem C14_blank_and_comment_lines_ignored_witness :
    ignorable "  # remark".toList = true ∧
    load stdNumGet "I 0 1.1 A\n  # remark\nC 0 0 2".toList Covariance.empty =
      load stdNumGet "I 0 1.1 A\nC 0 0 2".toList Covariance.empty :=
  ⟨by decide,
    (C14_blank_and_comment_lines_ignored stdNumGet Covariance.empty ["I 0 1.1 A".toList]
      ["C 0 0 2".toList] "  # remark".toList (by decide) (by decide)).1⟩

/-! ## Text codec: what save writes -/

theorem OStream.put_ok {file : OStream} {s : List Char} (hf : file.fail = false)
    (h : (file.put s).fail = false) : (file.put s).text = file.text ++ s := by
  unfold OStream.put at h ⊢
  simp only [hf, Bool.false_eq_true, ↓reduceIte] at h ⊢
  split
  · rfl
  · rename_i hlen
    simp [hlen] at h

theorem saveInner_ok (np : NumPut) (covariance : Covariance) (it : Investment)
    (jts : List Investment) (file : OStream) (hf : file.fail = false)
    (h : (saveInner np covariance it jts file).error = none) :
    (saveInner np covariance it jts file).file.fail = false ∧
    (saveInner np covariance it jts file).file.text =
      file.text ++ (rowLines covariance it jts).flatMap (fun r => r.text np ++ ['\n']) := by
  induction jts generalizing file with
  | nil => simp [saveInner, rowLines, hf]
  | cons jt jts ih =>
    rw [saveInner] at h ⊢
    split at h
    · cases h
    · rename_i hfail
      simp only [Bool.not_eq_true] at hfail
      rw [if_neg (by simp [hfail])]
      obtain ⟨h1, h2⟩ := ih _ hfail h
      refine ⟨h1, ?_⟩
      rw [h2, OStream.put_ok hf hfail]
      simp [rowLines, Record.text]

theorem saveOuter_ok (np : NumPut) (covariance : Covariance) (investments : List Investment)
    (file : OStream) (hf : file.fail = false)
    (h : (saveOuter np covariance investments file).error = none) :
    (saveOuter np covariance investments file).file.text =
      file.text ++ (savedLines covariance investments).flatMap (fun r => r.text np ++ ['\n']) := by
  induction investments generalizing file with
  | nil => simp [saveOuter, savedLines]
  | cons it rest ih =>
    rw [saveOuter] at h ⊢
    split at h
    · cases h
    · rename_i hfail
      simp only [Bool.not_eq_true] at hfail
      rw [if_neg (by simp [hfail])]
      rcases hin : saveInner np covariance it (it :: rest) (file.put (iLine np it ++ ['\n']))
        with ⟨f2, e2⟩
      rw [hin] at h
      cases e2 with
      | some msg => simp at h
      | none =>
        simp only at h ⊢
        have hi := saveInner_ok np covariance it (it :: rest) _ hfail (by rw [hin])
        rw [hin] at hi
        simp only at hi
        rw [ih f2 hi.1 h, hi.2, OStream.put_ok hf hfail]
        simp [savedLines, Record.text, iLine, Investment.mk3, Investment.getId,
          Investment.getReturn, Investment.getName]

theorem save_ok (np : NumPut) (file : OStream) (investments : List Investment)
    (covariance : Covariance) (h : (save np file investments covariance).error = none) :
    (save np file investments covariance).file.text =
      file.text ++ (savedLines covariance investments).flatMap (fun r => r.text np ++ ['\n']) := by
  unfold save at h ⊢
  split at h
  · cases h
  · rename_i hf
    simp only [Bool.not_eq_true] at hf
    rw [if_neg (by simp [hf])]
    exact saveOuter_ok np covariance investments file hf h

theorem mem_upperPairsFrom (p k a b : Nat) :
    (a, b) ∈ upperPairsFrom p k ↔ p ≤ a ∧ a ≤ b ∧ b < p + k := by
  induction k generalizing p with
  | zero => simp [upperPairsFrom]; omega
  | succ k ih =>
    rw [upperPairsFrom, List.mem_append, ih]
    simp only [List.mem_map, List.mem_range', Prod.mk.injEq]
    constructor
    · rintro (⟨q, ⟨i, hi, rfl⟩, rfl, rfl⟩ | h)
      · omega
      · omega
    · intro h
      by_cases hpa : a = p
      · left
        exact ⟨b, ⟨b - p, by omega, by omega⟩, hpa.symm, rfl⟩
      · right
        omega

theorem length_upperPairsFrom (p k : Nat) :
    2 * (upperPairsFrom p k).length = k * (k + 1) := by
  induction k generalizing p with
  | zero => simp [upperPairsFrom]
  | succ k ih =>
    rw [upperPairsFrom, List.length_append, List.length_map, List.length_range', Nat.mul_add,
      ih]
    ring

theorem nodup_upperPairsFrom (p k : Nat) : (upperPairsFrom p k).Nodup := by
  induction k generalizing p with
  | zero => simp [upperPairsFrom]
  | succ k ih =>
    rw [upperPairsFrom, List.nodup_append]
    refine ⟨?_, ih _, ?_⟩
    · apply List.Nodup.map
      · intro x y hxy
        simpa using hxy
      · exact List.nodup_range' _ _
    · rintro ⟨a, b⟩ h1 h2
      rw [mem_upperPairsFrom] at h2
      simp only [List.mem_map, Prod.mk.injEq] at h1
      obtain ⟨q, _, rfl, rfl⟩ := h1
      omega

theorem getD_append_length {α : Type} (d : α) (pre : List α) (x : α) (rest : List α) :
    (pre ++ x :: rest).getD pre.length d = x := by
  induction pre with
  | nil => rfl
  | cons y pre ih => simpa using ih

theorem row_getD {α : Type} (d : α) (suf pre : List α) :
    (List.range' pre.length suf.length).map (fun q => (pre ++ suf).getD q d) = suf := by
  induction suf generalizing pre with
  | nil => simp
  | cons x rest ih =>
    have h := ih (pre ++ [x])
    simp only [List.length_append, List.length_singleton, List.append_assoc,
      List.singleton_append] at h
    simp only [List.length_cons, List.range'_succ, List.map_cons, h, List.cons.injEq, and_true]
    exact getD_append_length d pre x rest

theorem filterMap_asC_rowLines (covariance : Covariance) (it : Investment)
    (jts : List Investment) :
    (rowLines covariance it jts).filterMap Record.asC =
      jts.map (fun jt => (it.getId, jt.getId,
        covariance.getCovariance it.getId jt.getId)) := by
  induction jts with
  | nil => rfl
  | cons jt jts ih =>
    simp only [rowLines, List.map_cons, List.filterMap_cons, Record.asC] at ih ⊢
    rw [ih]

theorem filterMap_asI_rowLines (covariance : Covariance) (it : Investment)
    (jts : List Investment) : (rowLines covariance it jts).filterMap Record.asI = [] := by
  induction jts with
  | nil => rfl
  | cons jt jts ih =>
    simp only [rowLines, List.map_cons, List.filterMap_cons, Record.asI] at ih ⊢
    rw [ih]

theorem filterMap_asI_savedLines (covariance : Covariance) (investments : List Investment) :
    (savedLines covariance investments).filterMap Record.asI =
      investments.map (fun it => (it.getId, it.getReturn, it.getName)) := by
  induction investments with
  | nil => rfl
  | cons it rest ih =>
    rw [savedLines, List.filterMap_cons]
    simp only [Record.asI, List.filterMap_append, filterMap_asI_rowLines, List.nil_append, ih,
      List.map_cons]

theorem filterMap_asC_savedLines (covariance : Covariance) (suf pre : List Investment) :
    (savedLines covariance suf).filterMap Record.asC =
      (upperPairsFrom pre.length suf.length).map (fun pq =>
        (((pre ++ suf).getD pq.1 Investment.default).getId,
         ((pre ++ suf).getD pq.2 Investment.default).getId,
         covariance.getCovariance ((pre ++ suf).getD pq.1 Investment.default).getId
           ((pre ++ suf).getD pq.2 Investment.default).getId)) := by
  induction suf generalizing pre with
  | nil => rfl
  | cons it rest ih =>
    have h := ih (pre ++ [it])
    simp only [List.length_append, List.length_singleton, List.append_assoc,
      List.singleton_append] at h
    rw [savedLines, List.filterMap_cons]
    simp only [Record.asC, List.filterMap_append, filterMap_asC_rowLines, h, List.length_cons,
      upperPairsFrom, List.map_append, List.map_map]
    congr 1
    have hp : (pre ++ it :: rest).getD pre.length Investment.default = it :=
      getD_append_length _ pre it rest
    have hrow := row_getD Investment.default (it :: rest) pre
    conv_lhs => rw [← hrow]
    simp only [List.map_map, List.length_cons]
    apply List.map_congr_left
    intro q _
    simp only [Function.comp_apply, hp]

/-- C16: a `save` that meets no write failure appends to the stream, for a sequence of n
investments, the lines `savedLines`: exactly n `I` lines, those of the investments in the
order given, and exactly n(n+1)/2 `C` lines, one for each pair of positions p <= q < n in the
sequence, each with the ids at the two positions and the value `getCovariance` returns for
them, which is NaN for a pair that has no stored covariance. -/
theorem C16_save_writes_upper_triangle (np : NumPut) (file : OStream)
    (investments : List Investment) (covariance : Covariance)
    (h : (save np file investments covariance).error = none) :
    (save np file investments covariance).file.text =
      file.text ++
        (savedLines covariance investments).flatMap (fun r => r.text np ++ ['\n']) ∧
    (savedLines covariance investments).filterMap Record.asI =
      investments.map (fun it => (it.getId, it.getReturn, it.getName)) ∧
    ((savedLines covariance investments).filterMap Record.asI).length = investments.length ∧
    (savedLines covariance investments).filterMap Record.asC =
      (upperPairs investments.length).map (fun pq =>
        ((investments.getD pq.1 Investment.default).getId,
         (investments.getD pq.2 Investment.default).getId,
         covariance.getCovariance (investments.getD pq.1 Investment.default).getId
           (investments.getD pq.2 Investment.default).getId)) ∧
    ((savedLines covariance investments).filterMap Record.asC).length =
      investments.length * (investments.length + 1) / 2 ∧
    (∀ p q, (p, q) ∈ upperPairs investments.length ↔ p ≤ q ∧ q < investments.length) ∧
    (upperPairs investments.length).Nodup ∧
    (∀ i j, covariance.lookup i j = none →
      covariance.getCovariance i j = Double.quiet_NaN ∧
      (covariance.getCovariance i j).isnan = true) := by
  have hC := filterMap_asC_savedLines covariance investments []
  simp only [List.length_nil, List.nil_append] at hC
  refine ⟨save_ok np file investments covariance h,
    filterMap_asI_savedLines covariance investments, ?_, hC, ?_, ?_,
    nodup_upperPairsFrom 0 _, ?_⟩
  · rw [filterMap_asI_savedLines, List.length_map]
  · rw [hC, List.length_map]
    have := length_upperPairsFrom 0 investments.length
    omega
  · intro p q
    unfold upperPairs
    rw [mem_upperPairsFrom]
    omega
  · intro i j hij
    have : covariance.getCovariance i j = Double.quiet_NaN := by
      rw [Covariance.getCovariance_eq, hij]; rfl
    rw [this]
    exact ⟨rfl, by decide⟩

set_option maxRecDepth 8000 in
/-- C16 at two investments and a Covariance that only knows the pair (0,1): two `I` lines and
three `C` lines, those of the pairs (0,0) and (1,1) with `nan`. -/
theorem C16_save_writes_upper_triangle_witness :
    (save stdNumPut (OStream.fresh 1000)
      [Investment.mk3 0 "A" ⟨0x3FF199999999999A⟩, Investment.mk3 1 "B B" Double.two]
      (Covariance.ofCalls [(0, 1, Double.half)])).error = none ∧
    (save stdNumPut (OStream.fresh 1000)
      [Investment.mk3 0 "A" ⟨0x3FF199999999999A⟩, Investment.mk3 1 "B B" Double.two]
      (Covariance.ofCalls [(0, 1, Double.half)])).file.text =
      "I 0 1.1 A\nC 0 0 nan\nC 0 1 0.5\nI 1 2 B B\nC 1 1 nan\n".toList ∧
    (savedLines (Covariance.ofCalls [(0, 1, Double.half)])
      [Investment.mk3 0 "A" ⟨0x3FF199999999999A⟩,
        Investment.mk3 1 "B B" Double.two]).filterMap Record.asC =
      [(0, 0, Double.quiet_NaN), (0, 1, Double.half), (1, 1, Double.quiet_NaN)] :=
  have h := C16_save_writes_upper_triangle stdNumPut (OStream.fresh 1000)
    [Investment.mk3 0 "A" ⟨0x3FF199999999999A⟩, Investment.mk3 1 "B B" Double.two]
    (Covariance.ofCalls [(0, 1, Double.half)]) rfl
  ⟨rfl, h.1.trans rfl, h.2.2.2.1.trans rfl⟩

/-! ## Text codec: loading what save wrote -/

theorem rhoAt_add (d step : Double) (k : Nat) :
    rhoAt (d.add step) step k = rhoAt d step (k + 1) := by
  induction k with
  | zero => rfl
  | succ k ih => rw [rhoAt, ih]; rfl

/-- A sweep that ends: when the values rhomin, rhomin + step, ... stay at or below `rhomax`
for the first n of them and the next one does not, and every submission is taken, the loop
submits exactly these n values, in order, counts n tasks and ends, given n steps or more. -/
theorem sweepLoop_enumerates (send : Nat → Input → Option String)
    (hsend : ∀ k inp, send k inp = none) (rhomax step : Double) (n : Nat) :
    ∀ (fuel : Nat) (input : Input) (d : Double) (sent : List Input) (c : Int),
      n ≤ fuel → (∀ i < n, (rhoAt d step i).le rhomax = true) →
      (rhoAt d step n).le rhomax = false →
      sweepLoop send rhomax step fuel input d sent c =
        ⟨sent ++ (List.range n).map (fun i => { input with mRho := rhoAt d step i }),
          c + n, .done⟩ := by
  induction n with
  | zero =>
    intro fuel input d sent c _ _ hstop
    have hd : d.le rhomax = false := hstop
    cases fuel with
    | zero => simp [sweepLoop, hd]
    | succ fuel => simp [sweepLoop, hd]
  | succ n ih =>
    intro fuel input d sent c hfuel hgo hstop
    have hd : d.le rhomax = true := hgo 0 (Nat.succ_pos n)
    cases fuel with
    | zero => omega
    | succ fuel =>
      rw [sweepLoop, if_pos hd]
      simp only [hsend]
      rw [ih fuel _ (d.add step) _ _ (by omega)
        (fun i hi => by rw [rhoAt_add]; exact hgo (i + 1) (by omega))
        (by rw [rhoAt_add]; exact hstop)]
      simp only [List.range_succ_eq_map, List.map_cons, List.map_map, List.append_assoc,
        List.singleton_append, Run.mk.injEq, and_true]
      refine ⟨?_, by push_cast; ring⟩
      congr 2
      apply List.map_congr_left
      intro i _
      simp only [Function.comp_apply, rhoAt_add]

/-- A sweep that does not end: when all the values rhomin, rhomin + step, ... stay at or
below `rhomax` and every submission is taken, then after any number of steps the loop has
submitted that many jobs and is still running. -/
theorem sweepLoop_runs_on (send : Nat → Input → Option String)
    (hsend : ∀ k inp, send k inp = none) (rhomax step : Double) :
    ∀ (fuel : Nat) (input : Input) (d : Double) (sent : List Input) (c : Int),
      (∀ i, (rhoAt d step i).le rhomax = true) →
      sweepLoop send rhomax step fuel input d sent c =
        ⟨sent ++ (List.range fuel).map (fun i => { input with mRho := rhoAt d step i }),
          c + fuel, .running⟩ := by
  intro fuel
  induction fuel with
  | zero =>
    intro input d sent c hgo
    have hd : d.le rhomax = true := hgo 0
    simp [sweepLoop, hd]
  | succ fuel ih =>
    intro input d sent c hgo
    have hd : d.le rhomax = true := hgo 0
    rw [sweepLoop, if_pos hd]
    simp only [hsend]
    rw [ih _ (d.add step) _ _ (fun i => by rw [rhoAt_add]; exact hgo (i + 1))]
    simp only [List.range_succ_eq_map, List.map_cons, List.map_map, List.append_assoc,
      List.singleton_append, Run.mk.injEq, and_true]
    refine ⟨?_, by push_cast; ring⟩
    congr 2
    apply List.map_congr_left
    intro i _
    simp only [Function.comp_apply, rhoAt_add]

theorem Double.le_self (d : Double) (h : d.isnan = false) : d.le d = true := by
  simp [Double.le, h]

/-- A single point: when `rhomax` or `step` is absent (NaN), rhomin is a number and
rhomin + 1 is above rhomin, exactly one job is submitted, with rho = rhomin. -/
theorem sweep_single_point (send : Nat → Input → Option String)
    (hsend : ∀ k inp, send k inp = none) (fuel : Nat) (input : Input)
    (rhomin rhomax step : Double) (habsent : rhomax.isnan = true ∨ step.isnan = true)
    (hnum : rhomin.isnan = false) (hup : (rhomin.add Double.one).le rhomin = false) :
    sweep send (fuel + 1) input rhomin rhomax step =
      ⟨[{ input with mRho := rhomin }], 1, .done⟩ := by
  have hb : (rhomax.isnan || step.isnan) = true := by
    rcases habsent with h | h <;> simp [h]
  unfold sweep
  simp only [hb, ↓reduceIte]
  have := sweepLoop_enumerates send hsend rhomin Double.one 1 (fuel + 1) input rhomin [] 0
    (by omega)
    (fun i hi => by
      have : i = 0 := by omega
      subst this
      exact Double.le_self rhomin hnum)
    hup
  simpa using this

set_option maxRecDepth 10000 in
theorem rhoAt_twoPow53 (k : Nat) : rhoAt Double.twoPow53 Double.one k = Double.twoPow53 := by
  induction k with
  | zero => rfl
  | succ k ih => rw [rhoAt, ih]; decide

set_option maxRecDepth 10000 in
/-- C18, the code on the example and on the failing input. For rhoMin = 0.0, rhoMax = 1.0 and
step = 0.5 the loop submits exactly three jobs, with rho 0.0, 0.5 and 1.0 in that order, and
counts three; for rho = 0.01 alone it submits exactly one job, with rho 0.01. For
rho = 9007199254740992 (2^53) alone, where rho + 1 rounds to rho again, the loop never ends:
after any number of steps it has submitted that many jobs, all with that rho, and is still
running. -/
theorem C18_sweep_enumeration (input : Input) (extra fuel : Nat) :
    sweep sendAll (3 + extra) input Double.zero Double.one Double.half =
      ⟨[{ input with mRho := Double.zero }, { input with mRho := Double.half },
        { input with mRho := Double.one }], 3, .done⟩ ∧
    sweep sendAll (1 + extra) input ExampleData.defaultRho Double.quiet_NaN
        Double.quiet_NaN =
      ⟨[{ input with mRho := ExampleData.defaultRho }], 1, .done⟩ ∧
    sweep sendAll fuel input Double.twoPow53 Double.quiet_NaN Double.quiet_NaN =
      ⟨List.replicate fuel { input with mRho := Double.twoPow53 }, fuel, .running⟩ ∧
    Double.twoPow53.add Double.one = Double.twoPow53 := by
  refine ⟨?_, ?_, ?_, by decide⟩
  · have := sweepLoop_enumerates sendAll (fun _ _ => rfl) Double.one Double.half 3
      (3 + extra) input Double.zero [] 0 (by omega)
      (fun i hi => by
        have : i = 0 ∨ i = 1 ∨ i = 2 := by omega
        rcases this with rfl | rfl | rfl <;> decide)
      (by decide)
    exact this
  · rw [Nat.add_comm]
    exact sweep_single_point sendAll (fun _ _ => rfl) extra input ExampleData.defaultRho
      Double.quiet_NaN Double.quiet_NaN (Or.inl (by decide)) (by decide) (by decide)
  · have := sweepLoop_runs_on sendAll (fun _ _ => rfl) Double.twoPow53 Double.one fuel input
      Double.twoPow53 [] 0
      (fun i => by rw [rhoAt_twoPow53]; decide)
    unfold sweep
    have hb : (Double.quiet_NaN.isnan || Double.quiet_NaN.isnan) = true := by decide
    simp only [hb, ↓reduceIte]
    rw [this]
    simp only [List.nil_append, zero_add, Run.mk.injEq, and_true]
    simp only [rhoAt_twoPow53]
    exact (List.eq_replicate_iff.2 ⟨by simp, fun b hb => by
      obtain ⟨_, _, rfl⟩ := List.mem_map.1 hb; rfl⟩)

/-! ## The client: first point of the sweep, and the integrity check -/

theorem sweepLoop_sent_extends (send : Nat → Input → Option String) (rhomax step : Double) :
    ∀ (fuel : Nat) (input : Input) (d : Double) (sent : List Input) (c : Int),
      ∃ more, (sweepLoop send rhomax step fuel input d sent c).sent = sent ++ more := by
  intro fuel
  induction fuel with
  | zero => intro input d sent c; exact ⟨[], by simp [sweepLoop]⟩
  | succ fuel ih =>
    intro input d sent c
    rw [sweepLoop]
    split
    · simp only
      cases send sent.length { input with mRho := d } with
      | some what => exact ⟨[], by simp⟩
      | none =>
        obtain ⟨more, hmore⟩ := ih { input with mRho := d } (d.add step)
          (sent ++ [{ input with mRho := d }]) (c + 1)
        exact ⟨{ input with mRho := d } :: more, by rw [hmore]; simp⟩
    · exact ⟨[], by simp⟩

/-- The first point: when rhomin is at or below the upper end that the loop uses and the
first submission is taken, the first job submitted has rho = rhomin. -/
theorem sweep_first_point (send : Nat → Input → Option String) (fuel : Nat) (input : Input)
    (rhomin rhomax step : Double) (hsend : send 0 { input with mRho := rhomin } = none)
    (hle : rhomin.le (if rhomax.isnan || step.isnan then rhomin else rhomax) = true) :
    (sweep send (fuel + 1) input rhomin rhomax step).sent.head? =
      some { input with mRho := rhomin } := by
  unfold sweep
  simp only
  rw [sweepLoop, if_pos hle]
  simp only [List.length_nil, hsend, List.nil_append]
  obtain ⟨more, hmore⟩ := sweepLoop_sent_extends send
    (if rhomax.isnan || step.isnan then rhomin else rhomax)
    (if rhomax.isnan || step.isnan then Double.one else step) fuel
    { input with mRho := rhomin } (rhomin.add
      (if rhomax.isnan || step.isnan then Double.one else step))
    [{ input with mRho := rhomin }] (0 + 1)
  rw [hmore]
  rfl

theorem Double.le_of_gt {a b : Double} (h : a.gt b = true) : b.le a = true := by
  unfold Double.gt at h
  unfold Double.le
  simp only [Bool.and_eq_true, Bool.not_eq_true', decide_eq_true_eq] at h ⊢
  have hal : Double.alignExp b a = Double.alignExp a b ∨
      (a.mant = 0 ∨ b.mant = 0) := by
    unfold Double.alignExp
    by_cases ha : a.mant = 0
    · exact Or.inr (Or.inl ha)
    · by_cases hb : b.mant = 0
      · exact Or.inr (Or.inr hb)
      · left
        simp only [ha, hb, ↓reduceIte]
        exact min_comm _ _
  refine ⟨⟨h.1.2, h.1.1⟩, ?_⟩
  rcases hal with hal | hz
  · rw [hal]
    exact le_of_lt h.2
  · have h2 := h.2
    unfold Double.alignExp at h2 ⊢
    rcases hz with ha | hb
    · by_cases hb : b.mant = 0
      · simp only [Double.signedAt, ha, hb, ↓reduceIte] at h2 ⊢
        exact absurd h2 (lt_irrefl _)
      · simp only [ha, hb, ↓reduceIte] at h2 ⊢
        exact le_of_lt h2
    · by_cases ha : a.mant = 0
      · simp only [Double.signedAt, ha, hb, ↓reduceIte] at h2 ⊢
        exact absurd h2 (lt_irrefl _)
      · simp only [ha, hb, ↓reduceIte] at h2 ⊢
        exact le_of_lt h2

/-- With a data file, the checks of `main` leave only ranges whose lower end is at or below
the upper end that the loop uses. -/
theorem checkArgs_data_range (a : Args) (file : List Char) (hfile : a.dataFile = some file)
    (h : checkArgs a = none) :
    a.rhomin.le (if a.rhomax.isnan || a.step.isnan then a.rhomin else a.rhomax) = true := by
  unfold checkArgs at h
  simp only [hfile, Option.isSome_some, ↓reduceIte] at h
  split at h
  · cases h
  · rename_i h1
    split at h
    · cases h
    · rename_i h2
      simp only [Bool.or_eq_true, not_or, Bool.not_eq_true] at h1
      simp only [Bool.not_eq_true', Bool.not_eq_false] at h2
      by_cases hb : (a.rhomax.isnan || a.step.isnan) = true
      · simp only [hb, ↓reduceIte]
        exact Double.le_self _ h1.2
      · simp only [hb, Bool.false_eq_true, ↓reduceIte]
        simp only [Bool.or_eq_true, Bool.and_eq_true] at h2
        rcases h2 with h2 | h2
        · simp [h2.1] at hb
        · exact Double.le_of_gt h2.1.1.2

set_option maxRecDepth 10000 in
/-- C19, the code at the failing input: without a data file the range rhoMin = 0.5,
rhoMax = 0.2 with step 0.1 passes the checks of `main`, and the sweep then submits no job at
all and counts none; with a data file the same range is turned down with the value -2. -/
theorem C19_degenerate_range_submits_nothing (ng : NumGet) (tables : ExampleData.Tables)
    (send : Nat → Input → Option String) (fuel : Nat) (file : List Char) :
    checkArgs ⟨true, none, 0, none, Double.quiet_NaN, Double.tenth, Double.half,
      Double.fifth⟩ = none ∧
    submitNew ng tables send fuel ⟨true, none, 0, none, Double.quiet_NaN, Double.tenth,
      Double.half, Double.fifth⟩ = ⟨[], 0, .done⟩ ∧
    checkArgs ⟨true, none, 0, some file, Double.one, Double.tenth, Double.half,
      Double.fifth⟩ = some (-2) ∧
    Double.half.le Double.fifth = false := by
  have hle : Double.half.le Double.fifth = false := by decide
  have hrej : checkArgs ⟨true, none, 0, some file, Double.one, Double.tenth, Double.half,
      Double.fifth⟩ = some (-2) := by
    have h1 : (Double.one.isnan || Double.half.isnan) = false := by decide
    have h2 : Double.fifth.gt Double.half = false := by decide
    have h3 : Double.fifth.isnan = false := by decide
    simp [checkArgs, h1, h2, h3]
  refine ⟨rfl, ?_, hrej, hle⟩
  have hs : ∀ input, sweep send fuel input Double.half Double.fifth Double.tenth =
      ⟨[], 0, .done⟩ := by
    intro input
    unfold sweep
    have hb : (Double.fifth.isnan || Double.tenth.isnan) = false := by decide
    simp only [hb, Bool.false_eq_true, ↓reduceIte]
    cases fuel with
    | zero => simp [sweepLoop, hle]
    | succ fuel => simp [sweepLoop, hle]
  unfold submitNew
  simp only
  have hp : (ExampleData.populate tables Input.new Double.quiet_NaN Double.half).2.2 =
      Double.half := by
    unfold ExampleData.populate
    have : Double.half.isnan = false := by decide
    simp [this]
  rcases hpop : ExampleData.populate tables Input.new Double.quiet_NaN Double.half with
    ⟨input, w, r⟩
  rw [hpop] at hp
  simp only at hp ⊢
  rw [hp]
  exact hs input

theorem missingWith_iff (covar : Covariance) (it : Investment) (jts : List Investment) :
    missingWith covar it jts = true ↔
      ∃ jt ∈ jts, (covar.getCovariance it.getId jt.getId).isnan = true := by
  induction jts with
  | nil => simp [missingWith]
  | cons jt jts ih =>
    rw [missingWith]
    by_cases h : (covar.getCovariance it.getId jt.getId).isnan = true
    · simp [h]
    · simp [h, ih]

theorem missingPair_iff (covar : Covariance) (investments : List Investment) :
    missingPair covar investments = true ↔
      ∃ it ∈ investments, ∃ jt ∈ investments,
        (covar.getCovariance it.getId jt.getId).isnan = true := by
  induction investments with
  | nil => simp [missingPair]
  | cons x rest ih =>
    rw [missingPair]
    by_cases hx : missingWith covar x (x :: rest) = true
    · simp only [hx, ↓reduceIte, true_iff]
      obtain ⟨jt, hjt, hnan⟩ := (missingWith_iff covar x (x :: rest)).1 hx
      exact ⟨x, List.mem_cons_self _ _, jt, hjt, hnan⟩
    · simp only [hx, Bool.false_eq_true, ↓reduceIte, ih]
      constructor
      · rintro ⟨it, hit, jt, hjt, hnan⟩
        exact ⟨it, List.mem_cons_of_mem _ hit, jt, List.mem_cons_of_mem _ hjt, hnan⟩
      · rintro ⟨it, hit, jt, hjt, hnan⟩
        have hno : ∀ jt ∈ x :: rest, ¬ (covar.getCovariance x.getId jt.getId).isnan = true := by
          intro jt hjt h
          exact hx ((missingWith_iff covar x (x :: rest)).2 ⟨jt, hjt, h⟩)
        rcases List.mem_cons.1 hit with rfl | hit2
        · exact absurd hnan (hno jt hjt)
        · rcases List.mem_cons.1 hjt with rfl | hjt2
          · rw [Covariance.getCovariance_comm] at hnan
            exact absurd hnan (hno it hit)
          · exact ⟨it, hit2, jt, hjt2, hnan⟩

/-- C20: for the investments and the Covariance that `load` gives from the data file, if for
some pair of the investments (an investment with itself included) `getCovariance` returns
NaN, the client throws "Data error" before the sweep and no job is submitted; if every pair
has a covariance that is not NaN, the check passes and the sweep is submitted from the loaded
data. -/
theorem C20_integrity_gates_submission (ng : NumGet) (tables : ExampleData.Tables)
    (send : Nat → Input → Option String) (fuel : Nat) (a : Args) (file : List Char)
    (hfile : a.dataFile = some file)
    (hload : (load ng file Covariance.empty).error = none) :
    ((∃ it ∈ (load ng file Covariance.empty).investments,
        ∃ jt ∈ (load ng file Covariance.empty).investments,
          ((load ng file Covariance.empty).covariance.getCovariance
            it.getId jt.getId).isnan = true) →
      submitNew ng tables send fuel a = ⟨[], 0, .threw (.soam "Data error")⟩) ∧
    ((∀ it ∈ (load ng file Covariance.empty).investments,
        ∀ jt ∈ (load ng file Covariance.empty).investments,
          ((load ng file Covariance.empty).covariance.getCovariance
            it.getId jt.getId).isnan = false) →
      submitNew ng tables send fuel a =
        sweep send fuel ⟨(load ng file Covariance.empty).investments,
          (load ng file Covariance.empty).covariance, a.wealth, a.rhomin⟩
          a.rhomin a.rhomax a.step) := by
  constructor
  · intro h
    have hm := (missingPair_iff _ _).2 h
    unfold submitNew
    simp only [hfile, hload, hm, ↓reduceIte]
  · intro h
    have hm : missingPair (load ng file Covariance.empty).covariance
        (load ng file Covariance.empty).investments = false := by
      cases hmp : missingPair (load ng file Covariance.empty).covariance
        (load ng file Covariance.empty).investments with
      | false => rfl
      | true =>
        obtain ⟨it, hit, jt, hjt, hnan⟩ := (missingPair_iff _ _).1 hmp
        rw [h it hit jt hjt] at hnan
        cases hnan
    unfold submitNew
    simp only [hfile, hload, hm, Bool.false_eq_true, ↓reduceIte]

set_option maxRecDepth 10000 in
/-- C20 at a data file that declares two investments and gives no covariance for the pair
(0,1), and at the example file, which gives all three. -/
theorem C20_integrity_gates_submission_witness :
    submitNew stdNumGet ⟨fun _ => Double.zero, fun _ _ => Double.zero⟩ sendAll 5
      ⟨true, none, 0, some "I 0 1.1 A\nI 1 1.2 B\nC 0 0 2\nC 1 1 3\n".toList, Double.one,
        Double.quiet_NaN, Double.half, Double.quiet_NaN⟩ =
      ⟨[], 0, .threw (.soam "Data error")⟩ ∧
    (submitNew stdNumGet ⟨fun _ => Double.zero, fun _ _ => Double.zero⟩ sendAll 5
      ⟨true, none, 0, some exampleFile, Double.one, Double.quiet_NaN, Double.half,
        Double.quiet_NaN⟩).nuOfTasks = 1 :=
  ⟨(C20_integrity_gates_submission stdNumGet ⟨fun _ => Double.zero, fun _ _ => Double.zero⟩
      sendAll 5 ⟨true, none, 0, some "I 0 1.1 A\nI 1 1.2 B\nC 0 0 2\nC 1 1 3\n".toList,
        Double.one, Double.quiet_NaN, Double.half, Double.quiet_NaN⟩
      "I 0 1.1 A\nI 1 1.2 B\nC 0 0 2\nC 1 1 3\n".toList rfl rfl).1
      ⟨Investment.mk3 0 "A" ⟨0x3FF199999999999A⟩, by decide,
        Investment.mk3 1 "B" ⟨0x3FF3333333333333⟩, by decide, by decide⟩,
    by decide⟩

/-! ## Covariance: the map as a function of the stored entries -/

theorem mapInsert_of_present {κ β : Type} {lt : κ → κ → Bool} (h : IsStrictTotal lt) {k : κ}
    {w : β} (v : β) {l : List (κ × β)} (hl : mapSorted lt l) (hf : mapFind lt k l = some w) :
    mapInsert lt k v l = l := by
  induction l with
  | nil => simp [mapFind] at hf
  | cons p rest ih =>
    obtain ⟨k1, v1⟩ := p
    unfold mapSorted at hl
    rw [List.pairwise_cons] at hl
    rw [mapInsert]
    cases h1 : lt k k1 with
    | true =>
      have hnone : mapFind lt k ((k1, v1) :: rest) = none := by
        apply mapFind_none_of_lt
        intro e he
        rcases List.mem_cons.1 he with rfl | hmem
        · exact h1
        · exact h.trans _ _ _ h1 (hl.1 e hmem)
      rw [hnone] at hf
      cases hf
    | false =>
      simp only [Bool.false_eq_true, ↓reduceIte]
      cases h2 : lt k1 k with
      | true =>
        simp only [↓reduceIte]
        rw [mapFind, h1, h2] at hf
        simp only [Bool.not_false, Bool.not_true, Bool.and_false, Bool.false_eq_true,
          ↓reduceIte] at hf
        rw [ih hl.2 hf]
      | false => simp only [Bool.false_eq_true, ↓reduceIte]

theorem mapSorted_nodup {κ β : Type} {lt : κ → κ → Bool} (h : IsStrictTotal lt)
    {l : List (κ × β)} (hl : mapSorted lt l) : l.Nodup := by
  unfold mapSorted at hl
  refine List.Pairwise.imp ?_ hl
  intro a b hab heq
  rw [heq, h.irrefl] at hab
  cases hab

theorem mapSorted_ext {κ β : Type} {lt : κ → κ → Bool} (h : IsStrictTotal lt)
    {l1 l2 : List (κ × β)} (h1 : mapSorted lt l1) (h2 : mapSorted lt l2)
    (hmem : ∀ e, e ∈ l1 ↔ e ∈ l2) : l1 = l2 := by
  have hp : l1.Perm l2 :=
    (List.perm_ext_iff_of_nodup (mapSorted_nodup h h1) (mapSorted_nodup h h2)).2 hmem
  refine List.Perm.eq_of_sorted ?_ h1 h2 hp
  intro a b _ _ hab hba
  rw [h.asymm hab] at hba
  cases hba

theorem Covariance.setCovariance_of_present {c : Covariance} (hc : c.WF) {i j : ID_TYPE}
    {w : Double} (hw : c.lookup i j = some w) (v : Double) : c.setCovariance i j v = c := by
  have h1 := Covariance.setCovariance_mData c i j v
  rw [mapInsert_of_present keyLt_strictTotal v hc.1 hw] at h1
  have h2 : c.setCovariance i j v = ⟨(c.setCovariance i j v).mData⟩ := rfl
  rw [h2, h1]

theorem Covariance.mem_iff_lookup {c : Covariance} (hc : c.WF) (e : KEY_TYPE × Double) :
    e ∈ c.mData ↔ e.1.1 ≤ e.1.2 ∧ c.lookup e.1.1 e.1.2 = some e.2 := by
  constructor
  · intro he
    refine ⟨hc.2 e he, ?_⟩
    unfold Covariance.lookup
    rw [canon_of_le (hc.2 e he), mapFind_eq_some_iff keyLt_strictTotal hc.1]
    exact he
  · rintro ⟨hle, hl⟩
    unfold Covariance.lookup at hl
    rw [canon_of_le hle, mapFind_eq_some_iff keyLt_strictTotal hc.1] at hl
    exact hl

theorem Covariance.ext_of_lookup {c1 c2 : Covariance} (h1 : c1.WF) (h2 : c2.WF)
    (h : ∀ i j, c1.lookup i j = c2.lookup i j) : c1 = c2 := by
  have hm : c1.mData = c2.mData := by
    apply mapSorted_ext keyLt_strictTotal h1.1 h2.1
    intro e
    rw [Covariance.mem_iff_lookup h1, Covariance.mem_iff_lookup h2, h]
  cases c1; cases c2
  simpa using hm

theorem keyLt_iff (a b : KEY_TYPE) :
    keyLt a b = true ↔ a.1 < b.1 ∨ (a.1 = b.1 ∧ a.2 < b.2) := by
  obtain ⟨a1, a2⟩ := a
  obtain ⟨b1, b2⟩ := b
  simp only [keyLt, Bool.or_eq_true, Bool.and_eq_true, Bool.not_eq_true', decide_eq_true_eq,
    decide_eq_false_iff_not]
  unfold ID_TYPE at *
  omega

/-- C24: two sequences of `setCovariance` calls after which every pair has the same stored
entry (the same value, or none) make `onSerialize` write the same stream, whatever the order of
the calls and of the two ids within a call; the stream is the count followed by the triples, and
the triples are strictly ascending in the lexicographic order of (i1, i2). -/
theorem C24_equal_entries_equal_stream (calls1 calls2 : List (ID_TYPE × ID_TYPE × Double))
    (h : ∀ i j, (Covariance.ofCalls calls1).lookup i j = (Covariance.ofCalls calls2).lookup i j) :
    (Covariance.ofCalls calls1).onSerialize [] = (Covariance.ofCalls calls2).onSerialize [] ∧
    ∃ triples : List (ID_TYPE × ID_TYPE × Double),
      (Covariance.ofCalls calls1).onSerialize [] = .int64 triples.length :: tripleItems triples ∧
      triples.Pairwise (fun s t => s.1 < t.1 ∨ (s.1 = t.1 ∧ s.2.1 < t.2.1)) := by
  have h1 := Covariance.WF_ofCalls calls1
  have h2 := Covariance.WF_ofCalls calls2
  refine ⟨by rw [Covariance.ext_of_lookup h1 h2 h], ?_⟩
  refine ⟨(Covariance.ofCalls calls1).mData.map (fun e => (e.1.1, e.1.2, e.2)), ?_, ?_⟩
  · rw [Covariance_onSerialize_eq]; simp
  · rw [List.pairwise_map]
    have hs := h1.1
    unfold mapSorted at hs
    refine List.Pairwise.imp ?_ hs
    intro a b hab
    exact (keyLt_iff a.1 b.1).1 hab

/-- C24 at two call sequences that differ in the order of the calls, in the order of the ids
within the calls, and in a repeated call whose value is not stored. -/
theorem C24_equal_entries_equal_stream_witness :
    (Covariance.ofCalls [(2, 3, Double.two), (1, 0, Double.one)]).onSerialize [] =
      (Covariance.ofCalls [(0, 1, Double.one), (3, 2, Double.two), (1, 0, Double.zero)]).onSerialize
        [] ∧
    (Covariance.ofCalls [(2, 3, Double.two), (1, 0, Double.one)]).onSerialize [] =
      [.int64 2, .int64 0, .int64 1, .double Double.one, .int64 2, .int64 3,
        .double Double.two] :=
  have heq : Covariance.ofCalls [(2, 3, Double.two), (1, 0, Double.one)] =
      Covariance.ofCalls [(0, 1, Double.one), (3, 2, Double.two), (1, 0, Double.zero)] := by
    decide
  ⟨(C24_equal_entries_equal_stream [(2, 3, Double.two), (1, 0, Double.one)]
      [(0, 1, Double.one), (3, 2, Double.two), (1, 0, Double.zero)]
      (fun i j => by rw [heq])).1, by decide⟩

/-! ## Covariance: the first value given for a pair is the one kept -/

theorem Covariance.readTriples_items (ts : List (ID_TYPE × ID_TYPE × Double)) (c : Covariance)
    (rest : Stream) :
    Covariance.readTriples ts.length c (tripleItems ts ++ rest) =
      ⟨ts.foldl (fun c t => c.setCovariance t.1 t.2.1 t.2.2) c, .ok rest⟩ := by
  induction ts generalizing c with
  | nil => rfl
  | cons t ts ih =>
    obtain ⟨i1, i2, v⟩ := t
    simp only [List.length_cons, tripleItems, List.cons_append, Covariance.readTriples,
      Stream.readInt64, Stream.readDouble, List.foldl_cons]
    exact ih _

theorem Covariance_onDeserialize_items (target : Covariance)
    (ts : List (ID_TYPE × ID_TYPE × Double)) (rest : Stream) :
    target.onDeserialize (.int64 ts.length :: (tripleItems ts ++ rest)) =
      ⟨Covariance.ofCalls ts, .ok rest⟩ := by
  have h := Covariance.readTriples_items ts target.reset rest
  simp only [Covariance.onDeserialize, Covariance.readBody, Stream.readInt64, Int.toNat_ofNat, h]
  rfl

theorem Covariance.lookup_ofCalls_first (pre post : List (ID_TYPE × ID_TYPE × Double))
    (t : ID_TYPE × ID_TYPE × Double) {i j : ID_TYPE}
    (hpre : ∀ s ∈ pre, ¬ samePair (s.1, s.2.1) (i, j)) (hsame : samePair (t.1, t.2.1) (i, j)) :
    (Covariance.ofCalls (pre ++ t :: post)).lookup i j = some t.2.2 := by
  rw [Covariance.ofCalls_append, List.foldl_cons]
  have hwf := Covariance.WF_ofCalls pre
  have hnone : (Covariance.ofCalls pre).lookup i j = none := by
    unfold Covariance.ofCalls
    rw [Covariance.lookup_foldl_of_not_named pre Covariance.empty hpre]
    rfl
  apply Covariance.lookup_foldl_of_some post (Covariance.WF_setCovariance hwf _ _ _)
  rw [Covariance.lookup_set_same hwf _ hsame, hnone]
  rfl

theorem load_lookup_first (ng : NumGet) (file : List Char) (covariance : Covariance)
    (h : (load ng file covariance).error = none) (pre post : List ioutil.Triple)
    (t : ioutil.Triple) (hdec : fileTriples ng file = pre ++ t :: post)
    (h1 : isDeclared ng file t.id1) (h2 : isDeclared ng file t.id2)
    (hpre : ∀ s ∈ pre, ¬ samePair (s.id1, s.id2) (t.id1, t.id2)) :
    (load ng file covariance).covariance.lookup t.id1 t.id2 = some t.covariance := by
  obtain ⟨is, triples, hl, heq⟩ := load_ok ng file covariance h
  have htr : triples = fileTriples ng file := by
    have := loadLines_triples ng _ [] is [] triples hl
    simpa [fileTriples] using this
  have hres : resolvable is t = true := by
    unfold resolvable
    rw [(loadLines_keys ng _ is triples hl _).2 h1, (loadLines_keys ng _ is triples hl _).2 h2]
    rfl
  rw [heq, htr, hdec]
  exact setTriples_lookup_first is pre post t Covariance.WF_empty rfl hpre hres
    (Or.inl ⟨rfl, rfl⟩)

/-- C25: on a Covariance that holds an entry for the pair (i, j), `setCovariance(i, j, v)` and
`setCovariance(j, i, v)` change nothing, whatever v is: the object stays as it was, and
so does every `getCovariance`. Hence, when `load` succeeds, the first `C` line given for a pair
of declared ids, in either id order, is the one whose value is stored; and `onDeserialize` of a
Covariance stores for each pair the value of the first triple that names it. -/
theorem C25_first_value_is_kept :
    (∀ (c : Covariance) (i j : ID_TYPE) (v : Double), c.Reachable →
      (c.lookup i j).isSome = true →
      c.setCovariance i j v = c ∧ c.setCovariance j i v = c ∧
      (∀ a b, (c.setCovariance i j v).getCovariance a b = c.getCovariance a b) ∧
      (∀ a b, (c.setCovariance j i v).getCovariance a b = c.getCovariance a b)) ∧
    (∀ (ng : NumGet) (file : List Char) (covariance : Covariance)
      (pre post : List ioutil.Triple) (t : ioutil.Triple),
      (load ng file covariance).error = none →
      fileTriples ng file = pre ++ t :: post →
      isDeclared ng file t.id1 → isDeclared ng file t.id2 →
      (∀ s ∈ pre, ¬ samePair (s.id1, s.id2) (t.id1, t.id2)) →
      (load ng file covariance).covariance.getCovariance t.id1 t.id2 = t.covariance ∧
      (load ng file covariance).covariance.getCovariance t.id2 t.id1 = t.covariance) ∧
    (∀ (target : Covariance) (pre post : List (ID_TYPE × ID_TYPE × Double))
      (t : ID_TYPE × ID_TYPE × Double) (rest : Stream),
      (∀ s ∈ pre, ¬ samePair (s.1, s.2.1) (t.1, t.2.1)) →
      (target.onDeserialize (.int64 (pre ++ t :: post).length ::
        (tripleItems (pre ++ t :: post) ++ rest))).res = .ok rest ∧
      (target.onDeserialize (.int64 (pre ++ t :: post).length ::
        (tripleItems (pre ++ t :: post) ++ rest))).obj.getCovariance t.1 t.2.1 = t.2.2 ∧
      (target.onDeserialize (.int64 (pre ++ t :: post).length ::
        (tripleItems (pre ++ t :: post) ++ rest))).obj.getCovariance t.2.1 t.1 = t.2.2) := by
  refine ⟨?_, ?_, ?_⟩
  · intro c i j v hc hsome
    obtain ⟨w, hw⟩ := Option.isSome_iff_exists.1 hsome
    have e1 := Covariance.setCovariance_of_present hc.wf hw v
    have hw2 : c.lookup j i = some w := by rw [Covariance.lookup_comm]; exact hw
    have e2 := Covariance.setCovariance_of_present hc.wf hw2 v
    exact ⟨e1, e2, fun a b => by rw [e1], fun a b => by rw [e2]⟩
  · intro ng file covariance pre post t h hdec h1 h2 hpre
    have hlook := load_lookup_first ng file covariance h pre post t hdec h1 h2 hpre
    constructor
    · rw [Covariance.getCovariance_eq, hlook]; rfl
    · rw [Covariance.getCovariance_eq, Covariance.lookup_comm, hlook]; rfl
  · intro target pre post t rest hpre
    rw [Covariance_onDeserialize_items]
    have hlook := Covariance.lookup_ofCalls_first pre post t hpre (Or.inl ⟨rfl, rfl⟩)
    refine ⟨rfl, ?_, ?_⟩
    · rw [Covariance.getCovariance_eq, hlook]; rfl
    · rw [Covariance.getCovariance_eq, Covariance.lookup_comm, hlook]; rfl

set_option maxRecDepth 10000 in
/-- C25 at a Covariance holding 1.0 for the pair (0, 1) that is set to 2.0 with the ids
swapped; at a file whose two `C` lines name the pair (0, 1) in both id orders; and at a wire
form whose two triples do. -/
theorem C25_first_value_is_kept_witness :
    (Covariance.ofCalls [(0, 1, Double.one)]).setCovariance 1 0 Double.two =
      Covariance.ofCalls [(0, 1, Double.one)] ∧
    (load stdNumGet "I 0 1.1 A\nI 1 1.2 B\nC 1 0 0.5\nC 0 1 2\n".toList
      Covariance.empty).covariance.getCovariance 0 1 = Double.half ∧
    (Covariance.empty.onDeserialize [.int64 2, .int64 1, .int64 0, .double Double.one,
      .int64 0, .int64 1, .double Double.two]).obj.getCovariance 0 1 = Double.one :=
  ⟨((C25_first_value_is_kept.1 (Covariance.ofCalls [(0, 1, Double.one)]) 0 1 Double.two
      (Covariance.ofCalls_reachable _) (by decide)).2.1),
    (C25_first_value_is_kept.2.1 stdNumGet "I 0 1.1 A\nI 1 1.2 B\nC 1 0 0.5\nC 0 1 2\n".toList
      Covariance.empty [] [⟨0, 1, Double.two⟩] ⟨1, 0, Double.half⟩ rfl rfl
      ⟨Investment.mk3 1 "B" ⟨0x3FF3333333333333⟩, by decide, rfl⟩
      ⟨Investment.mk3 0 "A" ⟨0x3FF199999999999A⟩, by decide, rfl⟩
      (fun s hs => by cases hs)).2,
    (C25_first_value_is_kept.2.2 Covariance.empty [] [(0, 1, Double.two)] (1, 0, Double.one) []
      (fun s hs => by cases hs)).2.2⟩

/-! ## The service: the Output it builds -/

/-- C23: on every input message that decodes to an Input, and for every CPLEX run, the
service reaches `setTaskOutput` exactly when no exception leaves the CPLEX calls, and the Output
it then sets has the wealth and the rho of the Input. When `solve()` reports no feasible
solution, that Output is not optimal, has no investments, and its objective value, total return
and total variance are the quiet NaN. -/
theorem C23_service_output_echoes_input (cplex : Cplex) (taskInput rest : Stream)
    (input : Input) (h : Input.new.onDeserialize taskInput = ⟨input, .ok rest⟩) :
    (∀ solved, cplex input.mInvestments input.mCovariance input.mWealth input.mRho = .ok solved →
      ∃ output, Service.onInvoke cplex taskInput = .taskOutput output) ∧
    (∀ output, Service.onInvoke cplex taskInput = .taskOutput output →
      (∃ solved,
        cplex input.mInvestments input.mCovariance input.mWealth input.mRho = .ok solved) ∧
      output.getWealth = input.getWealth ∧ output.getRho = input.getRho) ∧
    (cplex input.mInvestments input.mCovariance input.mWealth input.mRho = .ok .infeasible →
      Service.onInvoke cplex taskInput =
        .taskOutput ⟨false, input.mWealth, input.mRho, Double.quiet_NaN, Double.quiet_NaN,
          Double.quiet_NaN, []⟩ ∧
      Double.quiet_NaN.isnan = true) := by
  refine ⟨?_, ?_, ?_⟩
  · intro solved hs
    simp only [Service.onInvoke, h, Input.getInvestments, Input.getCovariance, Input.getWealth,
      Input.getRho, hs]
    exact ⟨_, rfl⟩
  · intro output ho
    simp only [Service.onInvoke, h, Input.getInvestments, Input.getCovariance, Input.getWealth,
      Input.getRho] at ho
    cases hc : cplex input.mInvestments input.mCovariance input.mWealth input.mRho with
    | error message => rw [hc] at ho; cases ho
    | ok solved =>
      rw [hc] at ho
      refine ⟨⟨solved, rfl⟩, ?_⟩
      cases solved with
      | feasible objValue totalReturn totalVariance vals =>
        simp only [Invoked.taskOutput.injEq] at ho
        rw [← ho]
        exact ⟨rfl, rfl⟩
      | infeasible =>
        simp only [Invoked.taskOutput.injEq] at ho
        rw [← ho]
        exact ⟨rfl, rfl⟩
  · intro hs
    simp only [Service.onInvoke, h, Input.getInvestments, Input.getCovariance, Input.getWealth,
      Input.getRho, hs]
    exact ⟨rfl, by decide⟩

/-- C23 at the message of an Input with two investments, wealth 2.0 and rho 0.5, for a CPLEX
run that reports no feasible solution. -/
theorem C23_service_output_echoes_input_witness :
    Service.onInvoke (fun _ _ _ _ => .ok .infeasible)
      ((Input.mk [Investment.mk3 0 "A" Double.one, Investment.mk3 1 "B" Double.two]
        (Covariance.ofCalls [(0, 0, Double.one), (0, 1, Double.zero), (1, 1, Double.one)])
        Double.two Double.half).onSerialize []) =
      .taskOutput ⟨false, Double.two, Double.half, Double.quiet_NaN, Double.quiet_NaN,
        Double.quiet_NaN, []⟩ :=
  ((C23_service_output_echoes_input (fun _ _ _ _ => .ok .infeasible)
    ((Input.mk [Investment.mk3 0 "A" Double.one, Investment.mk3 1 "B" Double.two]
      (Covariance.ofCalls [(0, 0, Double.one), (0, 1, Double.zero), (1, 1, Double.one)])
      Double.two Double.half).onSerialize []) []
    (Input.mk [Investment.mk3 0 "A" Double.one, Investment.mk3 1 "B" Double.two]
      (Covariance.ofCalls [(0, 0, Double.one), (0, 1, Double.zero), (1, 1, Double.one)])
      Double.two Double.half) rfl).2.2 rfl).1

/-! ## The client: result handling -/

theorem showOutputs_handles (jobs : List Resolved) (printed : List Printed) (rv : Int) :
    showOutputs (jobs.map Resolved.handle) printed rv =
      ⟨printed ++ jobs.map Resolved.report,
        if jobs.all Resolved.isSuccessful then rv else -1, none⟩ := by
  induction jobs generalizing printed rv with
  | nil => simp [showOutputs]
  | cons j jobs ih =>
    cases j with
    | succeeded output =>
      have hd : Output.new.onDeserialize (output.onSerialize []) = ⟨output, .ok []⟩ := by
        have := Output_onDeserialize_written Output.new output []
        rwa [List.append_nil] at this
      simp only [List.map_cons, Resolved.handle, showOutputs, hd, ih, Resolved.report,
        Output.getInvestments, Output.getWealth, Output.getRho, Output.getTotalReturn,
        Output.getTotalVariance, Investment.getId, Investment.getName,
        Investment.getAllocation, List.all_cons, Resolved.isSuccessful, Bool.true_and,
        List.append_assoc, List.singleton_append]
    | failed errorCode what =>
      simp only [List.map_cons, Resolved.handle, showOutputs, ih, Resolved.report,
        List.all_cons, Resolved.isSuccessful, Bool.false_and, Bool.false_eq_true, ↓reduceIte,
        ite_self, List.append_assoc, List.singleton_append]

theorem showResults_handles (jobs : List Resolved) (timeout : Int) :
    showResults true jobs.length timeout (jobs.map Resolved.handle) 0 =
      ⟨jobs.map Resolved.report, if jobs.all Resolved.isSuccessful then 0 else -1, none⟩ := by
  simp [showResults, showOutputs_handles]

theorem all_isSuccessful_iff (jobs : List Resolved) :
    jobs.all Resolved.isSuccessful = true ↔
      ¬ ∃ errorCode what, Resolved.failed errorCode what ∈ jobs := by
  rw [List.all_eq_true]
  constructor
  · rintro h ⟨c, w, hmem⟩
    exact absurd (h _ hmem) (by simp [Resolved.isSuccessful])
  · intro h j hj
    cases j with
    | succeeded output => rfl
    | failed c w => exact absurd ⟨c, w, hj⟩ h

/-- C21: when the client has submitted N jobs, waits, and fetches the handles of N resolved
jobs (the message of a successful one being the wire form of the Output its service set), `main`
returns, and it returns -1 if and only if some job failed, 0 otherwise. What it prints is the
report of every job in the order fetched: the allocation plan of each successful Output and the
error of each failed job, wherever the failed ones stand. -/
theorem C21_partial_failure_aggregation (ng : NumGet) (tables : ExampleData.Tables)
    (send : Nat → Input → Option String) (fetch : Int → Int → List TaskOutputHandle)
    (fuel : Nat) (a : Args) (jobs : List Resolved) (sent : List Input)
    (hargs : checkArgs a = none) (hnew : a.sessionId = none) (hwait : a.waitResult = true)
    (hrun : submitNew ng tables send fuel a = ⟨sent, jobs.length, .done⟩)
    (hfetch : fetch jobs.length a.timeout = jobs.map Resolved.handle) :
    ∃ fin, Client.main ng tables send fetch fuel a = some fin ∧
      fin.sent = sent ∧
      (fin.returnValue = -1 ↔ ∃ errorCode what, Resolved.failed errorCode what ∈ jobs) ∧
      (fin.returnValue = 0 ↔ ¬ ∃ errorCode what, Resolved.failed errorCode what ∈ jobs) ∧
      fin.printed = jobs.map Resolved.report ∧
      (∀ output, Resolved.succeeded output ∈ jobs →
        (Resolved.succeeded output).report ∈ fin.printed) := by
  refine ⟨⟨sent, jobs.map Resolved.report,
    if jobs.all Resolved.isSuccessful then 0 else -1⟩, ?_, rfl, ?_, ?_, rfl, ?_⟩
  · simp only [Client.main, hargs, hnew, Option.isSome_none, Bool.false_eq_true, ↓reduceIte,
      hrun, hwait, hfetch, showResults_handles]
  · rw [← not_iff_not, ← all_isSuccessful_iff]
    by_cases h : jobs.all Resolved.isSuccessful = true <;> simp [h]
  · rw [← all_isSuccessful_iff]
    by_cases h : jobs.all Resolved.isSuccessful = true <;> simp [h]
  · intro output hmem
    exact List.mem_map.2 ⟨_, hmem, rfl⟩

set_option maxRecDepth 10000 in
/-- C21 at a sweep of three jobs of which the second fails: `main` returns -1 and prints the
allocation plans of the first and the third job around the error of the second. -/
theorem C21_partial_failure_aggregation_witness :
    ∃ fin, Client.main stdNumGet ⟨fun _ => Double.zero, fun _ _ => Double.zero⟩ sendAll
        (fun _ _ => exampleJobs.map Resolved.handle) 5 exampleArgs = some fin ∧
      fin.sent.length = 3 ∧
      fin.returnValue = -1 ∧
      fin.printed =
        [.allocationPlan Double.one Double.zero
            [(0, "Stock A", Double.zero), (1, "Stock B", Double.one)] Double.two Double.zero,
          .taskNotSucceeded 7 "Unknown exception caught",
          .allocationPlan Double.one Double.one [] Double.quiet_NaN Double.quiet_NaN] :=
  (C21_partial_failure_aggregation stdNumGet ⟨fun _ => Double.zero, fun _ _ => Double.zero⟩
    sendAll (fun _ _ => exampleJobs.map Resolved.handle) 5 exampleArgs exampleJobs
    (submitNew stdNumGet ⟨fun _ => Double.zero, fun _ _ => Double.zero⟩ sendAll 5
      exampleArgs).sent
    (by decide) rfl rfl (by decide) rfl).elim
    fun fin hf => ⟨fin, hf.1, (congrArg List.length hf.2.1).trans (by decide),
      hf.2.2.1.2 ⟨7, "Unknown exception caught", by decide⟩, hf.2.2.2.2.1⟩

/-! ## The client: a rejected submission -/

theorem sweepLoop_rejected (send : Nat → Input → Option String) (rhomax step : Double)
    (k : Nat) (what : String) (hacc : ∀ i input, i < k → send i input = none)
    (hrej : ∀ input, send k input = some what) :
    ∀ (fuel : Nat) (input : Input) (d : Double) (sent : List Input) (c : Int),
      sent.length ≤ k →
      k < (sweepLoop sendAll rhomax step fuel input d sent c).sent.length →
      sweepLoop send rhomax step fuel input d sent c =
        ⟨(sweepLoop sendAll rhomax step fuel input d sent c).sent.take k,
          c + ((k - sent.length : Nat) : Int), .threw (.soam what)⟩ := by
  intro fuel
  induction fuel with
  | zero =>
    intro input d sent c hle hk
    simp only [sweepLoop] at hk
    omega
  | succ fuel ih =>
    intro input d sent c hle hk
    rw [sweepLoop] at hk ⊢
    rw [sweepLoop]
    by_cases hd : d.le rhomax = true
    · simp only [hd, ↓reduceIte, sendAll] at hk ⊢
      rcases Nat.lt_or_eq_of_le hle with hlt | heq
      · rw [hacc _ _ hlt]
        simp only
        rw [ih _ _ _ _ (by simp only [List.length_append, List.length_singleton]; omega) hk]
        simp only [List.length_append, List.length_singleton, Run.mk.injEq, and_true, true_and]
        omega
      · rw [heq, hrej]
        simp only [Run.mk.injEq, and_true]
        obtain ⟨more, hmore⟩ := sweepLoop_sent_extends sendAll rhomax step fuel
          { input with mRho := d } (d.add step) (sent ++ [{ input with mRho := d }]) (c + 1)
        rw [hmore, List.append_assoc, ← heq, List.take_left]
        simp
    · simp only [hd, Bool.false_eq_true, ↓reduceIte] at hk
      omega

theorem submitNew_rejected (ng : NumGet) (tables : ExampleData.Tables)
    (send : Nat → Input → Option String) (fuel : Nat) (a : Args) (k : Nat) (what : String)
    (hacc : ∀ i input, i < k → send i input = none) (hrej : ∀ input, send k input = some what)
    (hk : k < (submitNew ng tables sendAll fuel a).sent.length) :
    submitNew ng tables send fuel a =
      ⟨(submitNew ng tables sendAll fuel a).sent.take k, k, .threw (.soam what)⟩ := by
  have key : ∀ (input : Input) (rhomin rhomax step : Double),
      k < (sweep sendAll fuel input rhomin rhomax step).sent.length →
      sweep send fuel input rhomin rhomax step =
        ⟨(sweep sendAll fuel input rhomin rhomax step).sent.take k, k,
          .threw (.soam what)⟩ := by
    intro input rhomin rhomax step h
    unfold sweep at h ⊢
    simp only at h ⊢
    rw [sweepLoop_rejected send _ _ k what hacc hrej fuel input rhomin [] 0 (Nat.zero_le _) h]
    simp
  unfold submitNew at hk ⊢
  cases hf : a.dataFile with
  | none =>
    simp only [hf] at hk ⊢
    exact key _ _ _ _ hk
  | some file =>
    simp only [hf] at hk ⊢
    cases he : (load ng file Covariance.empty).error with
    | some msg =>
      simp only [he, List.length_nil] at hk
      omega
    | none =>
      simp only [he] at hk ⊢
      by_cases hm : missingPair (load ng file Covariance.empty).covariance
          (load ng file Covariance.empty).investments = true
      · simp only [hm, ↓reduceIte, List.length_nil] at hk
        omega
      · simp only [hm, Bool.false_eq_true, ↓reduceIte] at hk ⊢
        exact key _ _ _ _ hk

set_option maxRecDepth 10000 in
/-- C22, refuted: in the sweep rho = 0, 0.5, 1 on `exampleFile`, when `sendTaskInput` rejects
the second submission, only the point rho = 0 is submitted: the point rho = 1 that follows
the rejected one never is, no result is fetched or printed, and `main` returns -1; when
nothing is rejected all three points are submitted. -/
theorem C22_later_points_not_submitted :
    (submitNew stdNumGet ⟨fun _ => Double.zero, fun _ _ => Double.zero⟩ sendAll 5
      exampleArgs).sent.map Input.getRho = [Double.zero, Double.half, Double.one] ∧
    (submitNew stdNumGet ⟨fun _ => Double.zero, fun _ _ => Double.zero⟩
      (sendAllBut 1 "rejected") 5 exampleArgs).sent.map Input.getRho = [Double.zero] ∧
    (submitNew stdNumGet ⟨fun _ => Double.zero, fun _ _ => Double.zero⟩
      (sendAllBut 1 "rejected") 5 exampleArgs).ending = .threw (.soam "rejected") ∧
    (Client.main stdNumGet ⟨fun _ => Double.zero, fun _ _ => Double.zero⟩
      (sendAllBut 1 "rejected") (fun _ _ => exampleJobs.map Resolved.handle) 5
      exampleArgs).map (fun fin => (fin.sent.map Input.getRho, fin.printed, fin.returnValue)) =
      some ([Double.zero], [], -1) := by
  decide

/-- C22, amended: when `sendTaskInput` takes the submissions before point k of a sweep and rejects
that of point k, the exception ends the sweep: exactly the points before k have been
submitted, none of the later ones is, and `main` prints no result and returns -1. -/
theorem C22_rejection_ends_sweep (ng : NumGet) (tables : ExampleData.Tables)
    (send : Nat → Input → Option String) (fetch : Int → Int → List TaskOutputHandle)
    (fuel : Nat) (a : Args) (k : Nat) (what : String)
    (hargs : checkArgs a = none) (hnew : a.sessionId = none)
    (hacc : ∀ i input, i < k → send i input = none) (hrej : ∀ input, send k input = some what)
    (hk : k < (submitNew ng tables sendAll fuel a).sent.length) :
    submitNew ng tables send fuel a =
      ⟨(submitNew ng tables sendAll fuel a).sent.take k, k, .threw (.soam what)⟩ ∧
    Client.main ng tables send fetch fuel a =
      some ⟨(submitNew ng tables sendAll fuel a).sent.take k, [], -1⟩ := by
  have h := submitNew_rejected ng tables send fuel a k what hacc hrej hk
  refine ⟨h, ?_⟩
  simp only [Client.main, hargs, hnew, Option.isSome_none, Bool.false_eq_true, ↓reduceIte, h]

set_option maxRecDepth 10000 in
/-- The amended C22 at the sweep rho = 0, 0.5, 1 on `exampleFile` with the second submission
rejected. -/
theorem C22_rejection_ends_sweep_witness :
    (submitNew stdNumGet ⟨fun _ => Double.zero, fun _ _ => Double.zero⟩
      (sendAllBut 1 "rejected") 5 exampleArgs).nuOfTasks = 1 ∧
    (Client.main stdNumGet ⟨fun _ => Double.zero, fun _ _ => Double.zero⟩
      (sendAllBut 1 "rejected") (fun _ _ => []) 5 exampleArgs).map
        (fun fin => fin.returnValue) = some (-1) :=
  have h := C22_rejection_ends_sweep stdNumGet ⟨fun _ => Double.zero, fun _ _ => Double.zero⟩
    (sendAllBut 1 "rejected") (fun _ _ => []) 5 exampleArgs 1 "rejected" (by decide) rfl
    (fun i _ hi => by simp only [sendAllBut]; rw [if_neg (by omega)])
    (fun _ => by simp [sendAllBut]) (by decide)
  ⟨congrArg Run.nuOfTasks h.1, congrArg (Option.map (fun fin => fin.returnValue)) h.2⟩

end cpx.portfolio
